import Mathlib

/-!
# Burrowbun world generator: calibration, carving and the water-settling automaton

A shallow embedding of `Mapgen::moveTileFast`, `Mapgen::findFall`,
`Mapgen::moveWater`, `Mapgen::settleWater`, `Mapgen::removeWater`,
`Mapgen::getPercentile`, `Mapgen::getBaseBiome`, `Mapgen::setFelsic` and of
the carving, seeding and hydrology steps of `Mapgen::generateEarth`
(src/src/Mapgen.cc), together with the properties of the specification that
concern them.

Conventions of the embedding:
* C++ `int` values are `Int`; grid dimensions are `Nat`.
* A failing `assert` and an out-of-range grid access abort the run: every
  operation returns `Except Fault _`.
* The two `while` loops and the recursion of `moveWater` take a step budget
  (fuel); running out of it is the distinct fault `Fault.fuel`.
* Only `MapLayer::FOREGROUND` is ever passed by the embedded functions, so
  the layer argument is dropped.
-/

namespace Burrowbun

/-- Tile types named in the sources (`TileType::...`). -/
inductive TileType
  | EMPTY
  | WATER
  | STONE
  | SANDSTONE
  | GRANITE
  | BASALT
  | PERIDOTITE
  deriving DecidableEq, Repr

/-- Ways a run can stop without a result. -/
inductive Fault
  /-- An `assert` of Mapgen.cc does not hold. -/
  | assertion
  /-- A grid accessor is called with a row outside `[0, height)`. -/
  | range
  /-- The step budget of the embedding is used up. -/
  | fuel
  deriving DecidableEq, Repr

/-- Modelled from the spec: the `Map` class (its header and implementation are
not among the sources). Section 3 describes it as a rectangular array of
cells, `width × height`, kept as a dense per-cell array in row-major order. -/
structure Map where
  width : Nat
  height : Nat
  tiles : List TileType
  deriving DecidableEq, Repr

/-- Truncating remainder of C++ (`%` on `int`). -/
def cmod (a b : Int) : Int := Int.tmod a b

/-- Modelled from the spec: `Map::wrapX`, given in section 3 as
`wrapX(x) = ((x % width) + width) % width` with the `%` of C++. -/
def Map.wrapX (m : Map) (x : Int) : Int :=
  cmod (cmod x m.width + m.width) m.width

/-- Position of cell `(x, y)` in the row-major tile array: row `y` (validated by
the callers), column `wrapX x`. -/
def Map.index (m : Map) (x y : Int) : Nat :=
  y.toNat * m.width + (m.wrapX x).toNat

/-- Modelled from the spec: `Map::getTileType`. Section 4.1: the accessor wraps
`x` internally and fails if `y` is out of `[0, height)`. -/
def Map.getTileType (m : Map) (x y : Int) : Except Fault TileType :=
  if 0 ≤ y ∧ y < m.height then
    match m.tiles[m.index x y]? with
    | some t => .ok t
    | none => .error .range
  else .error .range

/-- Modelled from the spec: `Map::setTileType`. Section 4.1: the accessor wraps
`x` internally and fails if `y` is out of `[0, height)`. -/
def Map.setTileType (m : Map) (x y : Int) (t : TileType) : Except Fault Map :=
  if 0 ≤ y ∧ y < m.height then
    if m.index x y < m.tiles.length then
      .ok { m with tiles := m.tiles.set (m.index x y) t }
    else .error .range
  else .error .range

/-- A grid whose tile array has exactly `width * height` cells and whose width
is positive (so that `wrapX` is defined). -/
def Map.WF (m : Map) : Prop :=
  0 < m.width ∧ m.tiles.length = m.width * m.height

instance (m : Map) : Decidable m.WF := by
  unfold Map.WF; infer_instance

/-- Embedding of `Mapgen::moveTileFast` (Mapgen.cc 393-398). -/
def moveTileFast (m : Map) (x1 y1 x2 y2 : Int) : Except Fault Map :=
  let x1 := m.wrapX x1
  let x2 := m.wrapX x2
  match m.getTileType x1 y1 with
  | .error e => .error e
  | .ok t =>
    match m.setTileType x2 y2 t with
    | .error e => .error e
    | .ok m1 => m1.setTileType x1 y1 .EMPTY

/-- The `while` loop of `Mapgen::findFall` (Mapgen.cc 405-419); the state is
`current`. One unit of fuel is spent per evaluation of the loop condition. -/
def findFallLoop (m : Map) (direction x y : Int) : Nat → Int → Except Fault Int
  | 0, _ => .error .fuel
  | fuel + 1, current =>
    if current ≠ m.wrapX (x - direction) then
      match m.getTileType current (y - 1) with
      | .error e => .error e
      | .ok belowTile =>
        if belowTile = .EMPTY then
          .ok current
        else
          match m.getTileType current y with
          | .error e => .error e
          | .ok inTheWay =>
            if inTheWay ≠ .EMPTY ∧ current ≠ x then
              findFallLoop m direction x y fuel (m.wrapX (x - direction))
            else
              findFallLoop m direction x y fuel (m.wrapX (current + direction))
    else .ok current

/-- Embedding of `Mapgen::findFall` (Mapgen.cc 400-421). The loop gets
`width + 1` units of fuel. -/
def findFall (m : Map) (direction x y : Int) : Except Fault Int :=
  if ¬ (direction = 1 ∨ direction = -1) then .error .assertion
  else if ¬ (y > 0) then .error .assertion
  else findFallLoop m direction x y (m.width + 1) x

/-- The `while` loop of `Mapgen::moveWater` that looks how far down the tile can
be moved (Mapgen.cc 451-457); the state is `(below, lowest)`. -/
def lowestLoop (m : Map) (fall : Int) : Nat → TileType → Int → Except Fault Int
  | 0, _, _ => .error .fuel
  | fuel + 1, below, lowest =>
    if below = .EMPTY ∧ lowest > 0 then
      match m.getTileType fall (lowest - 1) with
      | .error e => .error e
      | .ok below1 =>
        if below1 ≠ .EMPTY then .ok lowest
        else lowestLoop m fall fuel below1 (lowest - 1)
    else .ok lowest

/-- The choice of the fall column in `Mapgen::moveWater` (Mapgen.cc 432-444):
`findFall(-1, ...)` first, `findFall(1, ...)` when the first result is the
failure value `wrapX(x + 1)`; `none` when the second result is the failure
value `wrapX(x - 1)` as well (the function returns). -/
def fallColumn (m : Map) (x y : Int) : Except Fault (Option Int) :=
  match findFall m (-1) x y with
  | .error e => .error e
  | .ok fall1 =>
    if fall1 = m.wrapX (x + 1) then
      match findFall m 1 x y with
      | .error e => .error e
      | .ok fall2 => if fall2 = m.wrapX (x - 1) then .ok none else .ok (some fall2)
    else .ok (some fall1)

/-- The relocation of `Mapgen::moveWater` (Mapgen.cc 446-458) for the chosen
column `fall`: the assertion on the cell below, the descent loop and the call
of `moveTileFast`. Returns the new grid and the row `lowest`. -/
def dropTile (m : Map) (x y fall : Int) : Except Fault (Map × Int) :=
  match m.getTileType fall (y - 1) with
  | .error e => .error e
  | .ok below =>
    if below ≠ .EMPTY then .error .assertion
    else
      match lowestLoop m fall (y.toNat + 1) below (y - 1) with
      | .error e => .error e
      | .ok lowest =>
        match moveTileFast m x y fall lowest with
        | .error e => .error e
        | .ok m1 => .ok (m1, lowest)

/-- The part of `Mapgen::moveWater` before its recursive calls (Mapgen.cc
425-458). `none`: the function returns without moving anything (floor, or both
searches failed). `some (m1, fall, lowest)`: the tile was relocated to
`(fall, lowest)`, giving the grid `m1`. -/
def moveWaterRelocate (m : Map) (x y : Int) : Except Fault (Option (Map × Int × Int)) :=
  match m.getTileType x y with
  | .error e => .error e
  | .ok t =>
    if t ≠ .WATER then .error .assertion
    else if y = 0 then .ok none
    else
      match fallColumn m x y with
      | .error e => .error e
      | .ok none => .ok none
      | .ok (some fall) =>
        match dropTile m x y fall with
        | .error e => .error e
        | .ok (m1, lowest) => .ok (some (m1, fall, lowest))

/-- Embedding of `Mapgen::moveWater` (Mapgen.cc 423-468). The fuel bounds the
depth of the recursion. -/
def moveWater : Nat → Map → Int → Int → Except Fault Map
  | 0, _, _, _ => .error .fuel
  | fuel + 1, m, x, y =>
    match moveWaterRelocate m x y with
    | .error e => .error e
    | .ok none => .ok m
    | .ok (some (m1, fall, lowest)) =>
      match moveWater fuel m1 fall lowest with
      | .error e => .error e
      | .ok m2 =>
        match m2.getTileType x y with
        | .error e => .error e
        | .ok t =>
          if t ≠ .EMPTY then .error .assertion
          else
            match m2.getTileType (x - 1) y with
            | .error e => .error e
            | .ok left =>
              if left = .WATER then moveWater fuel m2 (m2.wrapX (x - 1)) y
              else .ok m2

/-- Contribution of the tiles `ts`, stored from array position `i` on, to the
sum of the row indices of all WATER tiles. -/
def potentialFrom (w : Nat) : Nat → List TileType → Nat
  | _, [] => 0
  | i, t :: ts => (if t = .WATER then i / w else 0) + potentialFrom w (i + 1) ts

/-- Sum of the row indices of all WATER tiles of the grid. -/
def Map.potential (m : Map) : Nat := potentialFrom m.width 0 m.tiles

/-- Number of WATER tiles of the grid. -/
def Map.waterCount (m : Map) : Nat := m.tiles.count .WATER

/-- Recursion budget given to a top-level `moveWater` call: every relocation
lowers the potential, so the recursion is never deeper than `potential + 1`. -/
def Map.moveFuel (m : Map) : Nat := m.potential + 1

/-- Body of the inner loop of `Mapgen::settleWater` (Mapgen.cc 485-488). -/
def settleCell (j : Nat) (m : Map) (i : Nat) : Except Fault Map :=
  match m.getTileType i j with
  | .error e => .error e
  | .ok t => if t = .WATER then moveWater m.moveFuel m i j else .ok m

/-- Inner loop of `Mapgen::settleWater`: `for (int i = 0; i < map.width; i++)`. -/
def settleRow (m : Map) (j : Nat) : Except Fault Map :=
  (List.range m.width).foldlM (settleCell j) m

/-- Embedding of `Mapgen::settleWater` (Mapgen.cc 479-491):
`for (int j = 1; j < map.height; j++)` around the inner loop. -/
def settleWater (m : Map) : Except Fault Map :=
  (List.range' 1 (m.height - 1)).foldlM settleRow m


/-- Tile stored for cell `(x, y)` in the tile array (`x` is wrapped, the row is
not validated; EMPTY when the position lies outside the array). -/
def Map.tile (m : Map) (x y : Int) : TileType :=
  m.tiles.getD (m.index x y) .EMPTY

/-- The grid with the tile of cell `(x, y)` replaced by `t`. -/
def Map.put (m : Map) (x y : Int) (t : TileType) : Map :=
  { m with tiles := m.tiles.set (m.index x y) t }

/-- Cell `(x, y)` lies on the grid, with `x` a canonical (wrapped) column. -/
def Map.InGrid (m : Map) (x y : Int) : Prop :=
  0 ≤ x ∧ x < m.width ∧ 0 ≤ y ∧ y < m.height

/-- Column reached after `k` steps of the walk of `findFall` that starts at
column `x` and goes in direction `d`. -/
def walkColumn (m : Map) (d x : Int) (k : Nat) : Int :=
  m.wrapX (x + k * d)

/-- The walk from column `x` in direction `d` at row `y` finds its first viable
column after exactly `k` steps: the cell below that column is EMPTY, the cell
below every earlier column is not, and the columns strictly between the start
and that column are EMPTY at row `y`. -/
def FallAt (m : Map) (d x y : Int) (k : Nat) : Prop :=
  k + 1 < m.width ∧ m.tile (walkColumn m d x k) (y - 1) = .EMPTY ∧
  (∀ j, j < k → m.tile (walkColumn m d x j) (y - 1) ≠ .EMPTY) ∧
  (∀ j, 0 < j → j < k → m.tile (walkColumn m d x j) y = .EMPTY)

/-- The grid `m1` is `m` after the tile of `(x, y)` was dropped into column `c`
at row `l`: `l` is below `y`, the cells `(c, l), ..., (c, y - 1)` of `m` are
EMPTY, `l` is the floor or the cell below `(c, l)` is occupied, and `m1` holds
WATER at `(c, l)` and EMPTY at `(x, y)`. -/
def Dropped (m : Map) (x y c l : Int) (m1 : Map) : Prop :=
  0 ≤ c ∧ c < m.width ∧ 0 ≤ l ∧ l < y ∧
  (∀ b, l ≤ b → b < y → m.tile c b = .EMPTY) ∧
  (l = 0 ∨ m.tile c (l - 1) ≠ .EMPTY) ∧
  m1 = (m.put c l .WATER).put x y .EMPTY

/-- One relocation of the automaton: some WATER tile of the well-formed grid
`m` is dropped, giving `m1`. -/
def DropStep (m m1 : Map) : Prop :=
  ∃ x y c l, m.WF ∧ m.InGrid x y ∧ m.tile x y = .WATER ∧ Dropped m x y c l m1

/-- What a finished call `moveWater(x, y)` may have done to the grid: `m'` is
reached from `m` by relocations, the dimensions, the number of WATER tiles and
the kind of every cell (solid, or WATER/EMPTY) are unchanged, the potential did
not grow, every row above `y` is unchanged and row `y` has only lost tiles. -/
structure MoveEffect (m m' : Map) (y : Int) : Prop where
  width : m'.width = m.width
  height : m'.height = m.height
  wf : m'.WF
  water : m'.waterCount = m.waterCount
  potential : m'.potential ≤ m.potential
  above : ∀ a b, y < b → m'.tile a b = m.tile a b
  row : ∀ a, m'.tile a y = m.tile a y ∨ m'.tile a y = .EMPTY
  kinds : ∀ a b, 0 ≤ b → m'.tile a b = m.tile a b ∨
    ((m.tile a b = .WATER ∨ m.tile a b = .EMPTY) ∧
      (m'.tile a b = .WATER ∨ m'.tile a b = .EMPTY))
  steps : Relation.ReflTransGen DropStep m m'

/-- The loop of `Mapgen::findFall` (Mapgen.cc 405-419) with a record of the
walk: the same loop as `findFallLoop`, which in addition appends `current` to
the list `seen` each time the loop body reads the cell below `current`
(Mapgen.cc 407), and returns that list with the result. -/
def findFallTraceLoop (m : Map) (direction x y : Int) :
    Nat → Int → List Int → Except Fault (Int × List Int)
  | 0, _, _ => .error .fuel
  | fuel + 1, current, seen =>
    if current ≠ m.wrapX (x - direction) then
      match m.getTileType current (y - 1) with
      | .error e => .error e
      | .ok belowTile =>
        if belowTile = .EMPTY then
          .ok (current, seen ++ [current])
        else
          match m.getTileType current y with
          | .error e => .error e
          | .ok inTheWay =>
            if inTheWay ≠ .EMPTY ∧ current ≠ x then
              findFallTraceLoop m direction x y fuel (m.wrapX (x - direction))
                (seen ++ [current])
            else
              findFallTraceLoop m direction x y fuel (m.wrapX (current + direction))
                (seen ++ [current])
    else .ok (current, seen)

/-- `Mapgen::findFall` with the record of the columns it examined, in order. -/
def findFallTrace (m : Map) (direction x y : Int) : Except Fault (Int × List Int) :=
  if ¬ (direction = 1 ∨ direction = -1) then .error .assertion
  else if ¬ (y > 0) then .error .assertion
  else findFallTraceLoop m direction x y (m.width + 1) x []

instance exceptDecEq {ε α : Type} [DecidableEq ε] [DecidableEq α] :
    DecidableEq (Except ε α) := fun a b =>
  match a, b with
  | .ok x, .ok y =>
    if h : x = y then isTrue (by rw [h]) else isFalse (by intro h2; cases h2; exact h rfl)
  | .error x, .error y =>
    if h : x = y then isTrue (by rw [h]) else isFalse (by intro h2; cases h2; exact h rfl)
  | .ok _, .error _ => isFalse (by intro h; cases h)
  | .error _, .ok _ => isFalse (by intro h; cases h)

/-! ### Concrete grids

Tile arrays are written row by row starting with row `y = 0`, the floor. -/

/-- A 5 x 2 grid: the floor holds WATER except for two EMPTY cells at columns 2
and 3; row 1 holds WATER at columns 0 and 4 and STONE at column 1. -/
def seamGrid : Map :=
  ⟨5, 2, [.WATER, .WATER, .EMPTY, .EMPTY, .WATER,
          .WATER, .STONE, .EMPTY, .EMPTY, .WATER]⟩

/-- The grid `seamGrid` after one pass of `settleWater`. -/
def seamGridOnce : Map :=
  ⟨5, 2, [.WATER, .WATER, .EMPTY, .WATER, .WATER,
          .WATER, .STONE, .EMPTY, .EMPTY, .EMPTY]⟩

/-- The grid `seamGrid` after two passes of `settleWater`. -/
def seamGridTwice : Map :=
  ⟨5, 2, [.WATER, .WATER, .WATER, .WATER, .WATER,
          .EMPTY, .STONE, .EMPTY, .EMPTY, .EMPTY]⟩

/-- The 10 x 10 grid of the single-drop scenario: EMPTY everywhere except for a
WATER tile at `(5, 9)`. -/
def dropGrid : Map :=
  ⟨10, 10, (List.replicate 100 .EMPTY).set 95 .WATER⟩

/-- A 3 x 2 pit: STONE at `(0, 0)` and `(2, 0)`, EMPTY at `(1, 0)`, WATER at
`(1, 1)`, EMPTY at `(0, 1)` and `(2, 1)`. -/
def pitGrid : Map :=
  ⟨3, 2, [.STONE, .EMPTY, .STONE,
          .EMPTY, .WATER, .EMPTY]⟩

/-- A 6 x 4 grid with an EMPTY floor, a row of STONE with one gap above it, and
WATER resting on the STONE. -/
def cascadeGrid : Map :=
  ⟨6, 4, [.EMPTY, .EMPTY, .EMPTY, .EMPTY, .EMPTY, .EMPTY,
          .EMPTY, .STONE, .STONE, .STONE, .STONE, .STONE,
          .STONE, .STONE, .WATER, .WATER, .EMPTY, .WATER,
          .STONE, .EMPTY, .WATER, .STONE, .WATER, .EMPTY]⟩

/-- The grid `cascadeGrid` after one pass of `settleWater`. -/
def cascadeGridSettled : Map :=
  ⟨6, 4, [.WATER, .WATER, .EMPTY, .EMPTY, .EMPTY, .WATER,
          .WATER, .STONE, .STONE, .STONE, .STONE, .STONE,
          .STONE, .STONE, .EMPTY, .EMPTY, .EMPTY, .EMPTY,
          .STONE, .EMPTY, .WATER, .STONE, .EMPTY, .EMPTY]⟩

/-- A grid of width 1 and height 2 with a WATER tile above an EMPTY floor. -/
def narrowGrid : Map :=
  ⟨1, 2, [.EMPTY, .WATER]⟩

/-- A 3 x 2 grid: STONE at `(1, 0)` and `(2, 0)`, EMPTY at `(0, 0)`; STONE at
`(0, 1)`, WATER at `(1, 1)`, EMPTY at `(2, 1)`. -/
def ledgeGrid : Map :=
  ⟨3, 2, [.EMPTY, .STONE, .STONE,
          .STONE, .WATER, .EMPTY]⟩

/-- `Mapgen::moveWater` (Mapgen.cc 423-468) as a transformer of the grid held by
the generator: returns the grid as it stands when the call ends, together with
the fault if the call ended by one. A fault of the relocation step leaves the
grid as it was (`moveTileFast_writes_together`: the step only faults before its
first write). -/
def moveWaterRun : Nat → Map → Int → Int → Map × Option Fault
  | 0, m, _, _ => (m, some .fuel)
  | fuel + 1, m, x, y =>
    match moveWaterRelocate m x y with
    | .error e => (m, some e)
    | .ok none => (m, none)
    | .ok (some (m1, fall, lowest)) =>
      match moveWaterRun fuel m1 fall lowest with
      | (m2, some e) => (m2, some e)
      | (m2, none) =>
        match m2.getTileType x y with
        | .error e => (m2, some e)
        | .ok t =>
          if t ≠ .EMPTY then (m2, some .assertion)
          else
            match m2.getTileType (x - 1) y with
            | .error e => (m2, some e)
            | .ok left =>
              if left = .WATER then moveWaterRun fuel m2 (m2.wrapX (x - 1)) y
              else (m2, none)

/-- Result of a run as a value of `Except`: the grid when no fault occurred. -/
def runResult (r : Map × Option Fault) : Except Fault Map :=
  match r with
  | (m, none) => .ok m
  | (_, some e) => .error e

/-! ### Biome lookup and percentile calibration

Finite values of type `double` are modelled as rationals (every finite
`double` is one, with the same order). The product in `getPercentile` is
rounded as IEEE 754 binary64 rounds it (`roundDouble`, to nearest, ties to
even, every operation rounded to binary64). -/

/-- One of the two `while` loops of `Mapgen::getBaseBiome` (Mapgen.cc 291-298):
`while (t < (int)cuts.size() && value > cuts[t]) t++`; the state is `t`. -/
def bucketLoop (value : Rat) (cuts : List Rat) : Nat → Nat → Except Fault Nat
  | 0, _ => .error .fuel
  | fuel + 1, t =>
    if t < cuts.length then
      match cuts[t]? with
      | none => .error .range
      | some c => if value > c then bucketLoop value cuts fuel (t + 1) else .ok t
    else .ok t

/-- Embedding of `Mapgen::getBaseBiome` (Mapgen.cc 282-301). The member
`biomeData` (a `vector<vector<int>>`) is a parameter; the result is the table
entry before its cast to `BiomeType`. The assertions compare unsigned sizes:
`size() == biomeData.size() - 1` is written `size() + 1 = biomeData.size()`. An
index outside the table is the fault `Fault.range`. -/
def getBaseBiome (biomeData : List (List Int)) (temperature humidity : Rat)
    (tempPercentiles humidityPercentiles : List Rat) : Except Fault Int :=
  if tempPercentiles.length + 1 ≠ biomeData.length then .error .assertion
  else if humidityPercentiles.length + 1 ≠ biomeData.length then .error .assertion
  else
    match bucketLoop temperature tempPercentiles (tempPercentiles.length + 1) 0 with
    | .error e => .error e
    | .ok t =>
      match bucketLoop humidity humidityPercentiles (humidityPercentiles.length + 1) 0 with
      | .error e => .error e
      | .ok h =>
        match biomeData[t]? with
        | none => .error .range
        | some row =>
          match row[h]? with
          | none => .error .range
          | some b => .ok b

/-- The index `t` is the bucket of `value` among the cut points `cuts`: every
cut point before position `t` is below `value`, and `t` is the length of `cuts`
or the cut point at position `t` is at least `value`. -/
def IsBucket (value : Rat) (cuts : List Rat) (t : Nat) : Prop :=
  t ≤ cuts.length ∧ (∀ i c, i < t → cuts[i]? = some c → c < value) ∧
    (∀ c, cuts[t]? = some c → value ≤ c)

/-- The inner `for` loop of `Mapgen::getPercentile` (Mapgen.cc 263-268), in
iteration `i` of the outer loop: scans `results` from position `j` for the
first element that `value` does not exceed and inserts `value` before it
(`break`). Returns the vector and the final value of `j`. -/
def insertScan (value : Rat) (results : List Rat) (i : Nat) :
    Nat → Nat → Except Fault (List Rat × Nat)
  | 0, _ => .error .fuel
  | fuel + 1, j =>
    if j < i then
      match results[j]? with
      | none => .error .range
      | some r =>
        if value ≤ r then .ok (results.take j ++ value :: results.drop j, j)
        else insertScan value results i fuel (j + 1)
    else .ok (results, j)

/-- Body of the outer loop of `Mapgen::getPercentile` (Mapgen.cc 259-275) for
the drawn `value`, in iteration `i`. -/
def insertSample (value : Rat) (results : List Rat) (i : Nat) : Except Fault (List Rat) :=
  match insertScan value results i (i + 1) 0 with
  | .error e => .error e
  | .ok (results1, j) =>
    let results2 := if j = i then results1 ++ [value] else results1
    if results2.length ≠ i + 1 then .error .assertion else .ok results2

/-- The vector `results` of `Mapgen::getPercentile` after `i` iterations of the
outer loop; `draw k` is the value obtained from the noise module in iteration
`k` (`values.GetValue(rand(), rand(), rand())`). -/
def sampleLoop (draw : Nat → Rat) : Nat → Except Fault (List Rat)
  | 0 => .ok []
  | i + 1 =>
    match sampleLoop draw i with
    | .error e => .error e
    | .ok results => insertSample (draw i) results i

/-- Conversion of a `double` to `int` in C++: truncation toward zero. -/
def truncToInt (q : Rat) : Int := if 0 ≤ q then ⌊q⌋ else ⌈q⌉

/-- Number of halvings that take `n` below 2, with at most `fuel` of them. -/
def log2Fuel : Nat → Nat → Nat
  | 0, _ => 0
  | fuel + 1, n => if n < 2 then 0 else log2Fuel fuel (n / 2) + 1

/-- Binary logarithm of a positive natural number, rounded down. -/
def natLog2 (n : Nat) : Nat := log2Fuel n n

/-- Binary exponent of a rational `q ≠ 0`: the integer `e` with
`2 ^ e ≤ |q| < 2 ^ (e + 1)`. -/
def binaryExponent (q : Rat) : Int :=
  if (2 : Rat) ^ ((natLog2 q.num.natAbs : Int) - (natLog2 q.den : Int)) ≤ |q|
  then (natLog2 q.num.natAbs : Int) - (natLog2 q.den : Int)
  else (natLog2 q.num.natAbs : Int) - (natLog2 q.den : Int) - 1

/-- The integer nearest to `q`; of two nearest integers, the even one. -/
def roundHalfEven (q : Rat) : Int :=
  if q - ⌊q⌋ < 1 / 2 then ⌊q⌋
  else if 1 / 2 < q - ⌊q⌋ then ⌊q⌋ + 1
  else if ⌊q⌋ % 2 = 0 then ⌊q⌋ else ⌊q⌋ + 1

/-- Distance between neighbouring values of the binary64 format around `q`: a
significand of 53 bits, and exponents not below -1022 (below that the values
are subnormal and evenly spaced). -/
def ulpAt (q : Rat) : Rat := (2 : Rat) ^ (max (binaryExponent q) (-1022) - 52)

/-- The value of the binary64 format nearest to `q ≥ 0`, ties to the even
significand, with no bound on the exponent from above. -/
def roundMagnitude (q : Rat) : Rat := roundHalfEven (q / ulpAt q) * ulpAt q

/-- Rounding of the exact result `q` of an arithmetic operation on `double`
values to IEEE 754 binary64, in the default mode (to nearest, ties to even),
as long as the result is finite: sign and rounded magnitude. -/
def roundDouble (q : Rat) : Rat :=
  if q < 0 then -roundMagnitude (-q) else roundMagnitude q

/-- The product `a * b` of two finite `double` values as C++ computes it. -/
def mulDouble (a b : Rat) : Rat := roundDouble (a * b)

/-- The rational `q` is a value of the binary64 format (rounding leaves it as
it is). -/
def IsDouble (q : Rat) : Prop := roundDouble q = q

instance (q : Rat) : Decidable (IsDouble q) := by
  unfold IsDouble; infer_instance

/-- The conversion `(int)q` of the finite `double` `q` is defined in C++: the
truncated value fits a 32-bit `int`. -/
def IntCastDefined (q : Rat) : Prop := -(2 : Rat) ^ 31 - 1 < q ∧ q < (2 : Rat) ^ 31

instance (q : Rat) : Decidable (IntCastDefined q) := by
  unfold IntCastDefined; infer_instance

/-- Embedding of `Mapgen::getPercentile` (Mapgen.cc 253-280). The index is the
truncation of the `double` product `percentile * (double)samples` (Mapgen.cc
276), that is of the rounded product `mulDouble`; the conversion of `samples`
to `double` is exact. Reading the vector outside its bounds is the fault
`Fault.range`. -/
def getPercentile (percentile : Rat) (draw : Nat → Rat) (samples : Int) : Except Fault Rat :=
  match sampleLoop draw samples.toNat with
  | .error e => .error e
  | .ok results =>
    let index := truncToInt (mulDouble percentile samples)
    if ¬ (index ≤ samples) then .error .assertion
    else if ¬ (0 ≤ index) then .error .assertion
    else
      match results[index.toNat]? with
      | none => .error .range
      | some v => .ok v

/-- A 2 x 2 biome table with four distinct entries. -/
def biomeTable2 : List (List Int) := [[10, 11], [20, 21]]

/-- Three drawn values: 3, then 1, then 2. -/
def drawThree : Nat → Rat := fun k => if k = 0 then 3 else if k = 1 then 1 else 2

/-! ### Terrain carving -/

/-- A value of type `double`: a finite value, an infinity with its sign, or a
NaN. Finite values are kept as rationals and zero carries no sign: the only
place where the sign of a zero can show is the sign of a quotient by it, and
`setFelsic` passes each of its quotients to `abs`. -/
inductive Dbl
  | fin (q : Rat)
  | inf (negative : Bool)
  | nan
  deriving DecidableEq, Repr

/-- Largest finite value of binary64. -/
def maxDouble : Rat := (2 ^ 53 - 1) * 2 ^ 971

/-- The `double` an arithmetic operation returns when its exact result is `q`:
`q` rounded to binary64, or an infinity when the rounded value lies beyond the
largest finite value. -/
def Dbl.ofRat (q : Rat) : Dbl :=
  if maxDouble < roundDouble q then .inf false
  else if roundDouble q < -maxDouble then .inf true
  else .fin (roundDouble q)

/-- Negation of a `double`. -/
def Dbl.neg : Dbl → Dbl
  | .fin a => .fin (-a)
  | .inf s => .inf (!s)
  | .nan => .nan

/-- Sum of two `double` values. -/
def Dbl.add : Dbl → Dbl → Dbl
  | .fin a, .fin b => .ofRat (a + b)
  | .fin _, .inf s => .inf s
  | .inf s, .fin _ => .inf s
  | .inf s, .inf t => if s = t then .inf s else .nan
  | .nan, _ => .nan
  | _, .nan => .nan

/-- Difference of two `double` values. -/
def Dbl.sub (a b : Dbl) : Dbl := a.add b.neg

/-- Product of two `double` values. -/
def Dbl.mul : Dbl → Dbl → Dbl
  | .fin a, .fin b => .ofRat (a * b)
  | .fin a, .inf s => if a = 0 then .nan else .inf (s != decide (a < 0))
  | .inf s, .fin b => if b = 0 then .nan else .inf (s != decide (b < 0))
  | .inf s, .inf t => .inf (s != t)
  | .nan, _ => .nan
  | _, .nan => .nan

/-- Quotient of two `double` values; a finite value divided by zero is an
infinity, and zero divided by zero is a NaN. -/
def Dbl.div : Dbl → Dbl → Dbl
  | .fin a, .fin b =>
    if b = 0 then (if a = 0 then .nan else .inf (decide (a < 0)))
    else .ofRat (a / b)
  | .fin _, .inf _ => .fin 0
  | .inf s, .fin b => .inf (s != decide (b < 0))
  | .inf _, .inf _ => .nan
  | .nan, _ => .nan
  | _, .nan => .nan

/-- Absolute value of a `double` (`std::abs`). -/
def Dbl.abs : Dbl → Dbl
  | .fin a => .fin |a|
  | .inf _ => .inf false
  | .nan => .nan

/-- The comparison `a < b` of two `double` values; false when one is a NaN. -/
def Dbl.lt : Dbl → Dbl → Bool
  | .fin a, .fin b => decide (a < b)
  | .fin _, .inf s => !s
  | .inf s, .fin _ => s
  | .inf s, .inf t => s && !t
  | .nan, _ => false
  | _, .nan => false

/-- The comparison `a > b` of two `double` values. -/
def Dbl.gt (a b : Dbl) : Bool := b.lt a

/-- The comparison `a == b` of two `double` values; false when one is a NaN. -/
def Dbl.eq : Dbl → Dbl → Bool
  | .fin a, .fin b => decide (a = b)
  | .inf s, .inf t => decide (s = t)
  | _, _ => false

/-- Conversion of an `int` to `double`. -/
def Dbl.ofInt (n : Int) : Dbl := .ofRat n

/-! ### Rock composition -/

/-- What `Mapgen::setFelsic` reads besides the grid: the three limits computed
at its start (Mapgen.cc 339-341), the member `seafloorLevel` (declared outside
the sources; Mapgen.cc 31 assigns it `map.height * 0.5`, and it is taken as a
`double`), and the value `felsicAt i j` of the felsic field at tile `(i, j)`
(`getCylinderValue(i, j, finalFelsic)`). -/
structure FelsicParams where
  basaltLimit : Dbl
  graniteLimit : Dbl
  peridotLimit : Dbl
  seafloorLevel : Dbl
  felsicAt : Int → Int → Dbl

/-- The adjustment of the felsic value by depth in `Mapgen::setFelsic`
(Mapgen.cc 356-375), operation by operation: returns the adjusted `felsic` and
`interp`. -/
def felsicAdjust (p : FelsicParams) (surface j : Int) (felsic : Dbl) : Dbl × Dbl :=
  if ((p.seafloorLevel.sub (.ofInt j)).gt ((Dbl.ofInt surface).sub p.seafloorLevel)) = true then
    let dist : Dbl :=
      if ((Dbl.ofInt surface).gt p.seafloorLevel) = true
      then ((Dbl.ofInt 2).mul p.seafloorLevel).sub (.ofInt surface)
      else .ofInt surface
    let interp : Dbl := ((dist.sub (.ofInt j)).div dist).abs
    (felsic.sub ((((p.peridotLimit.add p.basaltLimit).abs).div (.ofRat 2)).add interp), interp)
  else if ((p.seafloorLevel.sub (.ofInt j)).eq ((Dbl.ofInt surface).sub p.seafloorLevel)) = true
  then (felsic, .ofInt 0)
  else
    let dist : Dbl := (Dbl.ofInt 2).mul ((Dbl.ofInt surface).sub p.seafloorLevel)
    let interp : Dbl := ((dist.sub (.ofInt (surface - j))).div dist).abs
    (felsic.add (((p.graniteLimit.abs).div (.ofRat 2)).add ((Dbl.ofRat (2 / 10)).mul interp)),
      interp)

/-- The choice of the rock type in `Mapgen::setFelsic` (Mapgen.cc 377-385) for a
tile that holds STONE, from the adjusted `felsic` and `interp`. The literals
`0.7` and `0.25` are the `double` values nearest to them. -/
def felsicClass (p : FelsicParams) (felsic interp : Dbl) : TileType :=
  if felsic.lt p.peridotLimit = true
      ∧ (interp.sub (.ofRat (7 / 10))).gt ((Dbl.ofRat (25 / 100)).mul felsic) = true
  then .PERIDOTITE
  else if felsic.lt p.basaltLimit = true then .BASALT
  else if felsic.gt p.graniteLimit = true then .GRANITE
  else .STONE

/-- Body of the inner loop of `Mapgen::setFelsic` (Mapgen.cc 346-388) for the
tile `(i, j)`; the state is the grid and the variable `surface`. -/
def felsicCell (p : FelsicParams) (i : Nat) (st : Map × Int) (j : Nat) :
    Except Fault (Map × Int) :=
  match st.1.getTileType i j with
  | .error e => .error e
  | .ok tileType =>
    if tileType = .STONE then
      let surface : Int := if st.2 = st.1.height then j else st.2
      let adjusted := felsicAdjust p surface j (p.felsicAt i j)
      match st.1.setTileType i j (felsicClass p adjusted.1 adjusted.2) with
      | .error e => .error e
      | .ok m1 => .ok (m1, surface)
    else .ok st

/-- Inner loop of `Mapgen::setFelsic` for column `i`:
`int surface = map.height; for (int j = map.height - 1; j >= 0; j--)`. -/
def felsicColumn (p : FelsicParams) (m : Map) (i : Nat) : Except Fault Map :=
  match (List.range m.height).reverse.foldlM (felsicCell p i) (m, (m.height : Int)) with
  | .error e => .error e
  | .ok st => .ok st.1

/-- Embedding of the loops of `Mapgen::setFelsic` (Mapgen.cc 343-390):
`for (int i = 0; i < map.width; i++)` around the inner loop. -/
def setFelsic (p : FelsicParams) (m : Map) : Except Fault Map :=
  (List.range m.width).foldlM (felsicColumn p) m

/-- First row among `rows` at which column `i` of the grid holds STONE, or the
height of the grid when there is none. -/
def firstStone (m : Map) (i : Nat) (rows : List Nat) : Int :=
  match rows.find? (fun (j : Nat) => decide (m.tile i j = .STONE)) with
  | some j => (j : Int)
  | none => (m.height : Int)

/-- Row of the highest STONE tile of column `i`, or the height of the grid when
the column holds no STONE. -/
def topStone (m : Map) (i : Nat) : Int := firstStone m i (List.range m.height).reverse

/-- The tile type `setFelsic` gives to the tile `(i, j)` of the grid `m` when
the variable `surface` has the given value: the rock type chosen from the
adjusted values when the tile holds STONE, the tile as it is otherwise. -/
def felsicResult (p : FelsicParams) (m : Map) (i : Nat) (surface : Int) (j : Nat) : TileType :=
  if m.tile i j = .STONE then
    felsicClass p (felsicAdjust p surface j (p.felsicAt i j)).1
      (felsicAdjust p surface j (p.felsicAt i j)).2
  else m.tile i j

/-- Parameters for an example of `setFelsic`: the limits 0 (basalt), 1
(granite) and -1 (peridotite), the sea floor at row 1, and a felsic field with
the values 0 at `(0, 0)`, 2 at `(0, 1)` and `(2, 0)`, and -2 elsewhere. -/
def felsicExample : FelsicParams :=
  ⟨.fin 0, .fin 1, .fin (-1), .fin 1,
    fun i j => if (i = 0 ∧ j = 0) then .fin 0
      else if (i = 0 ∧ j = 1) ∨ (i = 2 ∧ j = 0) then .fin 2 else .fin (-2)⟩

/-- A 3 x 2 grid: STONE everywhere except for WATER at `(1, 1)`. -/
def rockGrid : Map :=
  ⟨3, 2, [.STONE, .STONE, .STONE,
          .STONE, .WATER, .STONE]⟩

/-- State of the inner loop of `setFelsic` for column `i`, started on the grid
`m0`, once the rows `pre` have been visited; `mref` is a grid whose column `i`
is that of `m0`. -/
structure FelsicInv (p : FelsicParams) (mref m0 : Map) (i : Nat) (pre : List Nat)
    (st : Map × Int) : Prop where
  wf : st.1.WF
  width : st.1.width = mref.width
  height : st.1.height = mref.height
  tiles : ∀ a b : Nat, a < mref.width → b < mref.height →
    st.1.tile a b = if a = i ∧ b ∈ pre then felsicResult p mref i (firstStone mref i pre) b
      else m0.tile a b
  surface : st.2 = firstStone mref i pre

/-! ### Hydrology stages of generateEarth -/

/-- The `while` loop of `Mapgen::removeWater` for column `i` (Mapgen.cc
498-510); the state is the grid, `toRemove` and `j`. -/
def removeLoop (i : Nat) : Nat → Map → Int → Int → Except Fault Map
  | 0, _, _, _ => .error .fuel
  | fuel + 1, m, toRemove, j =>
    if toRemove > 0 ∧ j ≥ 0 then
      match m.getTileType i j with
      | .error e => .error e
      | .ok tile =>
        if tile = .WATER then
          match m.setTileType i j .EMPTY with
          | .error e => .error e
          | .ok m1 => removeLoop i fuel m1 (toRemove - 1) (j - 1)
        else if tile ≠ .EMPTY then .ok m
        else removeLoop i fuel m toRemove (j - 1)
    else .ok m

/-- Body of the `for` loop of `Mapgen::removeWater` (Mapgen.cc 496-510) for
column `i`. The `while` loop gets `height + 1` units of fuel. -/
def removeColumn (removeDepth : Int) (m : Map) (i : Nat) : Except Fault Map :=
  removeLoop i (m.height + 1) m removeDepth ((m.height : Int) - 1)

/-- Embedding of `Mapgen::removeWater` (Mapgen.cc 493-512). -/
def removeWater (removeDepth : Int) (m : Map) : Except Fault Map :=
  (List.range m.width).foldlM (removeColumn removeDepth) m

/-- The inner loop of the ocean fill of `Mapgen::generateEarth` for column `i`
(Mapgen.cc 222-229): `for (int j = ...; j >= 0; j--)`; the state is the grid and
`j`. -/
def oceanLoop (seaLevel : Rat) (i : Nat) : Nat → Map → Int → Except Fault Map
  | 0, _, _ => .error .fuel
  | fuel + 1, m, j =>
    if j ≥ 0 then
      match m.getTileType i j with
      | .error e => .error e
      | .ok tile =>
        if tile ≠ .EMPTY then .ok m
        else if (j : Rat) < seaLevel then
          match m.setTileType i j .WATER with
          | .error e => .error e
          | .ok m1 => oceanLoop seaLevel i fuel m1 (j - 1)
        else oceanLoop seaLevel i fuel m (j - 1)
    else .ok m

/-- The ocean fill of `Mapgen::generateEarth` (Mapgen.cc 218-231). The members
`baseHeight` and `seaLevel` are declared outside the sources: `top` is the
value of `baseHeight + 30` as an `int`, the start row of the inner loop, and
`seaLevel` is the member of that name. -/
def fillOcean (top : Int) (seaLevel : Rat) (m : Map) : Except Fault Map :=
  (List.range m.width).foldlM
    (fun mc i => oceanLoop seaLevel i (top.toNat + 2) mc top) m

/-- The hydrology stages of `Mapgen::generateEarth` in the order of the code
(Mapgen.cc 214-231): `settleWater(); removeWater(20); settleWater();` and then
the ocean fill. -/
def settleAndFill (top : Int) (seaLevel : Rat) (m : Map) : Except Fault Map :=
  match settleWater m with
  | .error e => .error e
  | .ok m1 =>
    match removeWater 20 m1 with
    | .error e => .error e
    | .ok m2 =>
      match settleWater m2 with
      | .error e => .error e
      | .ok m3 => fillOcean top seaLevel m3

/-- The hydrology stages in the order worded in the specification (section 4.4,
step 5): the sea-level fill first, then `settleWater`, `removeWater(20)` and
`settleWater` again. -/
def hydrologyAsSpecified (top : Int) (seaLevel : Rat) (m : Map) : Except Fault Map :=
  match fillOcean top seaLevel m with
  | .error e => .error e
  | .ok m1 =>
    match settleWater m1 with
    | .error e => .error e
    | .ok m2 =>
      match removeWater 20 m2 with
      | .error e => .error e
      | .ok m3 => settleWater m3

/-- A 2 x 2 grid with EMPTY in every cell. -/
def emptyGrid : Map := ⟨2, 2, [.EMPTY, .EMPTY, .EMPTY, .EMPTY]⟩

/-- A 2 x 2 grid with WATER on the floor and EMPTY above. -/
def floodedGrid : Map := ⟨2, 2, [.WATER, .WATER, .EMPTY, .EMPTY]⟩

/-! ### Measures of a column, for removeWater -/

/-- Row `j` of column `i` lies above the highest solid tile of the column: no
tile of the column above row `j` is solid (every one is WATER or EMPTY). -/
def Map.Exposed (m : Map) (i j : Nat) : Prop :=
  ∀ b < m.height, j < b → (m.tile i b = .WATER ∨ m.tile i b = .EMPTY)

instance (m : Map) (i j : Nat) : Decidable (m.Exposed i j) := by
  unfold Map.Exposed; infer_instance

/-- Number of WATER tiles of column `i` in the rows above row `j`. -/
def Map.waterAbove (m : Map) (i j : Nat) : Nat :=
  Nat.count (fun b => j < b ∧ m.tile i b = .WATER) m.height

/-- Number of WATER tiles of column `i` in the rows below row `n`. -/
def Map.waterBelow (m : Map) (i n : Nat) : Nat :=
  Nat.count (fun b => m.tile i b = .WATER) n

/-- Number of WATER tiles of column `i`. -/
def Map.columnWater (m : Map) (i : Nat) : Nat := m.waterBelow i m.height

/-- Number of WATER tiles of column `i` that lie above the highest solid tile
of the column. -/
def Map.exposedWater (m : Map) (i : Nat) : Nat :=
  Nat.count (fun b => m.tile i b = .WATER ∧ m.Exposed i b) m.height

/-- The cell `(i, j)` is among the `removeDepth` highest WATER tiles that lie
above the highest solid tile of column `i`: it holds WATER, no tile above it in
the column is solid, and fewer than `removeDepth` WATER tiles lie above it. -/
def Map.Trimmed (m : Map) (removeDepth : Int) (i j : Nat) : Prop :=
  m.tile i j = .WATER ∧ m.Exposed i j ∧ (m.waterAbove i j : Int) < removeDepth

instance (m : Map) (removeDepth : Int) (i j : Nat) : Decidable (m.Trimmed removeDepth i j) := by
  unfold Map.Trimmed; infer_instance

/-- A 2 x 5 grid. Column 0, from the floor up: WATER, STONE, WATER, EMPTY,
WATER. Column 1, from the floor up: EMPTY, WATER, WATER, WATER, WATER. -/
def poolGrid : Map :=
  ⟨2, 5, [.WATER, .EMPTY,
          .STONE, .WATER,
          .WATER, .WATER,
          .EMPTY, .WATER,
          .WATER, .WATER]⟩

/-! ### The sweep order of settleWater, as worded in the specification -/

/-- The sweep of `settleWater` in the order worded in the specification (section
5, "a top-to-bottom sweep") and in the comment of Mapgen.cc 480-481: row
`height - 1` first, then descending to row 1, each row in increasing `x`. The
code itself is `settleWater`, which visits the rows in increasing order. -/
def settleWaterTopDown (m : Map) : Except Fault Map :=
  (List.range' 1 (m.height - 1)).reverse.foldlM settleRow m

/-- A 2 x 3 grid: column 0 holds EMPTY on the floor and WATER in rows 1 and 2;
column 1 is STONE. -/
def stackGrid : Map :=
  ⟨2, 3, [.EMPTY, .STONE,
          .WATER, .STONE,
          .WATER, .STONE]⟩

/-! ### The base noise modules of the biome fields -/

/-- Modelled from the spec: the base stochastic generator of a NoiseField (the
class `module::Perlin` of the noise library, which is not among the sources), as
far as `generateEarth` configures it: its seed, octave count and persistence. -/
structure Perlin where
  seed : Int
  octaveCount : Int
  persistence : Rat
  deriving DecidableEq, Repr

/-- Modelled from the spec: `Perlin::SetSeed`. -/
def Perlin.SetSeed (p : Perlin) (seed : Int) : Perlin := { p with seed := seed }

/-- Modelled from the spec: `Perlin::SetOctaveCount`. -/
def Perlin.SetOctaveCount (p : Perlin) (n : Int) : Perlin := { p with octaveCount := n }

/-- Modelled from the spec: `Perlin::SetPersistence`. -/
def Perlin.SetPersistence (p : Perlin) (x : Rat) : Perlin := { p with persistence := x }

/-- The construction of the two base modules in `Mapgen::generateEarth`
(Mapgen.cc 45-67), statement by statement. `fresh` is a default-constructed
`module::Perlin`; `rand k` is the value of the `k`-th call of `rand()` made by
`generateEarth` (these are its first two calls). Returns `(baseTemperature,
baseHumidity)`. -/
def biomeBaseModules (fresh : Perlin) (rand : Nat → Int) : Perlin × Perlin :=
  let octaves : Int := 2
  let persistence : Rat := 2 / 10
  let baseTemperature := fresh
  let baseTemperature := baseTemperature.SetOctaveCount octaves
  let baseTemperature := baseTemperature.SetPersistence persistence
  let baseTemperature := baseTemperature.SetSeed (rand 0)
  let baseHumidity := fresh
  let baseHumidity := baseHumidity.SetOctaveCount octaves
  let baseHumidity := baseHumidity.SetPersistence persistence
  let baseTemperature := baseTemperature.SetSeed (rand 1)
  (baseTemperature, baseHumidity)

/-! ### The frame of the settling automaton -/

/-- The grid `m'` has the dimensions of `m`; every cell of `m` that holds a
solid tile (neither WATER nor EMPTY) holds the same tile in `m'`; every cell
whose tile differs held WATER or EMPTY in `m` and holds WATER or EMPTY in `m'`;
and both grids have the same number of WATER tiles. -/
def SolidsFixed (m m' : Map) : Prop :=
  m'.width = m.width ∧ m'.height = m.height ∧
  (∀ (a b : Int) (t : TileType), m.getTileType a b = .ok t → t ≠ .WATER → t ≠ .EMPTY →
    m'.getTileType a b = .ok t) ∧
  (∀ (a b : Int) (t t' : TileType), m.getTileType a b = .ok t → m'.getTileType a b = .ok t' →
    t' ≠ t → (t = .WATER ∨ t = .EMPTY) ∧ (t' = .WATER ∨ t' = .EMPTY)) ∧
  m'.waterCount = m.waterCount

/-- Number of WATER tiles in the rows `r`, `r + 1`, ... of the grid. -/
def Map.waterFrom (m : Map) (r : Nat) : Nat :=
  (m.tiles.drop (r * m.width)).count .WATER

/-- `Mapgen::moveWater` with a count of its relocations: the same recursion as
`moveWater`, which in addition returns how many times the call and the calls
nested in it reached `moveTileFast` (Mapgen.cc 458). -/
def moveWaterCount : Nat → Map → Int → Int → Except Fault (Map × Nat)
  | 0, _, _, _ => .error .fuel
  | fuel + 1, m, x, y =>
    match moveWaterRelocate m x y with
    | .error e => .error e
    | .ok none => .ok (m, 0)
    | .ok (some (m1, fall, lowest)) =>
      match moveWaterCount fuel m1 fall lowest with
      | .error e => .error e
      | .ok (m2, n1) =>
        match m2.getTileType x y with
        | .error e => .error e
        | .ok t =>
          if t ≠ .EMPTY then .error .assertion
          else
            match m2.getTileType (x - 1) y with
            | .error e => .error e
            | .ok left =>
              if left = .WATER then
                match moveWaterCount fuel m2 (m2.wrapX (x - 1)) y with
                | .error e => .error e
                | .ok (m3, n2) => .ok (m3, 1 + n1 + n2)
              else .ok (m2, 1 + n1)

/-! ## Arithmetic of the cylindrical x-axis -/

theorem cmod_neg_bounds (x : Int) (w : Nat) (hw : 0 < w) :
    -(w : Int) < cmod x w ∧ cmod x w < w := by
  constructor
  · cases x with
    | ofNat n =>
      have : (0 : Int) ≤ cmod (Int.ofNat n) w := Int.tmod_nonneg _ (Int.ofNat_nonneg n)
      omega
    | negSucc n =>
      have h1 : cmod (Int.negSucc n) (w : Int) = -((((n + 1) % w : Nat) : Int)) := rfl
      have h2 : (n + 1) % w < w := Nat.mod_lt _ hw
      omega
  · exact Int.tmod_lt_of_pos x (by exact_mod_cast hw)

theorem wrapX_eq_emod (m : Map) (x : Int) (hw : 0 < m.width) :
    m.wrapX x = x % (m.width : Int) := by
  unfold Map.wrapX
  have hb := cmod_neg_bounds x m.width hw
  have hpos : (0 : Int) ≤ cmod x m.width + m.width := by omega
  have hw0 : (0 : Int) ≤ (m.width : Int) := Int.ofNat_nonneg _
  unfold cmod at *
  rw [Int.tmod_eq_emod hpos hw0, Int.add_emod_self]
  have h := Int.tmod_add_tdiv x m.width
  have h2 : x.tmod m.width = x + (-(x.tdiv m.width)) * m.width := by
    linarith [h, Int.mul_comm (m.width : Int) (x.tdiv m.width)]
  rw [h2, Int.add_mul_emod_self]

theorem wrapX_nonneg (m : Map) (x : Int) (hw : 0 < m.width) : 0 ≤ m.wrapX x := by
  rw [wrapX_eq_emod m x hw]
  exact Int.emod_nonneg _ (by omega)

theorem wrapX_lt (m : Map) (x : Int) (hw : 0 < m.width) : m.wrapX x < m.width := by
  rw [wrapX_eq_emod m x hw]
  exact Int.emod_lt_of_pos _ (by omega)

theorem wrapX_of_inRange (m : Map) (x : Int) (h0 : 0 ≤ x) (h1 : x < m.width) :
    m.wrapX x = x := by
  have hw : 0 < m.width := by omega
  rw [wrapX_eq_emod m x hw]
  exact Int.emod_eq_of_lt h0 h1

theorem wrapX_wrapX (m : Map) (x : Int) (hw : 0 < m.width) :
    m.wrapX (m.wrapX x) = m.wrapX x :=
  wrapX_of_inRange m _ (wrapX_nonneg m x hw) (wrapX_lt m x hw)


/-! ## Grid accessors -/

theorem index_wrapX (m : Map) (x y : Int) (hw : 0 < m.width) :
    m.index (m.wrapX x) y = m.index x y := by
  unfold Map.index
  rw [wrapX_wrapX m x hw]

theorem index_lt (m : Map) (x y : Int) (hwf : m.WF) (h0 : 0 ≤ y) (h1 : y < m.height) :
    m.index x y < m.tiles.length := by
  obtain ⟨hw, hlen⟩ := hwf
  have hx0 := wrapX_nonneg m x hw
  have hx1 := wrapX_lt m x hw
  unfold Map.index
  rw [hlen]
  have hy : y.toNat + 1 ≤ m.height := by omega
  have hc : (m.wrapX x).toNat < m.width := by omega
  calc y.toNat * m.width + (m.wrapX x).toNat
      < y.toNat * m.width + m.width := by omega
    _ = m.width * (y.toNat + 1) := by ring
    _ ≤ m.width * m.height := Nat.mul_le_mul_left _ hy

theorem index_div (m : Map) (x y : Int) (hw : 0 < m.width) :
    m.index x y / m.width = y.toNat := by
  have hx0 := wrapX_nonneg m x hw
  have hx1 := wrapX_lt m x hw
  have hc : (m.wrapX x).toNat < m.width := by omega
  unfold Map.index
  rw [Nat.mul_comm, Nat.mul_add_div hw, Nat.div_eq_of_lt hc, Nat.add_zero]

theorem index_mod (m : Map) (x y : Int) (hw : 0 < m.width) :
    ((m.index x y % m.width : Nat) : Int) = m.wrapX x := by
  have hx0 := wrapX_nonneg m x hw
  have hx1 := wrapX_lt m x hw
  have hc : (m.wrapX x).toNat < m.width := by omega
  unfold Map.index
  rw [Nat.mul_comm, Nat.mul_add_mod, Nat.mod_eq_of_lt hc]
  omega

theorem index_inj (m : Map) (x y a b : Int) (hw : 0 < m.width) (hy : 0 ≤ y) (hb : 0 ≤ b) :
    m.index a b = m.index x y ↔ (m.wrapX a = m.wrapX x ∧ b = y) := by
  constructor
  · intro h
    have h1 := index_div m a b hw
    have h2 := index_div m x y hw
    have h3 := index_mod m a b hw
    have h4 := index_mod m x y hw
    rw [h] at h1 h3
    constructor
    · rw [← h3, ← h4]
    · omega
  · rintro ⟨h1, h2⟩
    unfold Map.index
    rw [h1, h2]

theorem getTileType_eq (m : Map) (x y : Int) (hwf : m.WF) (h0 : 0 ≤ y) (h1 : y < m.height) :
    m.getTileType x y = .ok (m.tile x y) := by
  have hlt := index_lt m x y hwf h0 h1
  unfold Map.getTileType Map.tile
  rw [if_pos ⟨h0, h1⟩, List.getD_eq_getElem?_getD, List.getElem?_eq_getElem hlt]
  rfl

theorem getTileType_outside (m : Map) (x y : Int) (h : ¬ (0 ≤ y ∧ y < m.height)) :
    m.getTileType x y = .error .range := by
  unfold Map.getTileType
  rw [if_neg h]

theorem setTileType_eq (m : Map) (x y : Int) (t : TileType) (hwf : m.WF)
    (h0 : 0 ≤ y) (h1 : y < m.height) :
    m.setTileType x y t = .ok (m.put x y t) := by
  have hlt := index_lt m x y hwf h0 h1
  unfold Map.setTileType Map.put
  rw [if_pos ⟨h0, h1⟩, if_pos hlt]

@[simp] theorem put_width (m : Map) (x y : Int) (t : TileType) :
    (m.put x y t).width = m.width := rfl

@[simp] theorem put_height (m : Map) (x y : Int) (t : TileType) :
    (m.put x y t).height = m.height := rfl

theorem put_WF (m : Map) (x y : Int) (t : TileType) (hwf : m.WF) : (m.put x y t).WF := by
  obtain ⟨hw, hlen⟩ := hwf
  refine ⟨hw, ?_⟩
  show (m.tiles.set _ t).length = _
  rw [List.length_set]
  exact hlen

@[simp] theorem put_wrapX (m : Map) (x y : Int) (t : TileType) (a : Int) :
    (m.put x y t).wrapX a = m.wrapX a := rfl

@[simp] theorem put_index (m : Map) (x y : Int) (t : TileType) (a b : Int) :
    (m.put x y t).index a b = m.index a b := rfl

theorem tile_put (m : Map) (x y : Int) (t : TileType) (a b : Int) (hwf : m.WF)
    (h0 : 0 ≤ y) (h1 : y < m.height) (hb : 0 ≤ b) :
    (m.put x y t).tile a b = if m.wrapX a = m.wrapX x ∧ b = y then t else m.tile a b := by
  have hlt := index_lt m x y hwf h0 h1
  have hinj := index_inj m x y a b hwf.1 h0 hb
  unfold Map.tile
  rw [put_index]
  show (m.tiles.set _ t).getD _ _ = _
  rw [List.getD_eq_getElem?_getD, List.getD_eq_getElem?_getD, List.getElem?_set]
  by_cases hc : m.wrapX a = m.wrapX x ∧ b = y
  · rw [if_pos hc, if_pos (hinj.mpr hc).symm, if_pos hlt]
    rfl
  · rw [if_neg hc, if_neg (fun h => hc (hinj.mp h.symm))]


/-! ## Water count and potential under a single write -/

theorem tile_eq_getElem (m : Map) (x y : Int) (h : m.index x y < m.tiles.length) :
    m.tile x y = m.tiles[m.index x y] := by
  unfold Map.tile
  rw [List.getD_eq_getElem?_getD, List.getElem?_eq_getElem h]
  rfl

theorem waterCount_put (m : Map) (x y : Int) (t : TileType) (hwf : m.WF)
    (h0 : 0 ≤ y) (h1 : y < m.height) :
    (m.put x y t).waterCount + (if m.tile x y = .WATER then 1 else 0)
      = m.waterCount + (if t = .WATER then 1 else 0) := by
  have hlt := index_lt m x y hwf h0 h1
  have hpos : m.tile x y = .WATER → 0 < m.tiles.count .WATER := by
    intro hw
    rw [tile_eq_getElem m x y hlt] at hw
    exact List.count_pos_iff.mpr (hw ▸ List.getElem_mem hlt)
  unfold Map.waterCount
  show (m.tiles.set _ t).count .WATER + _ = _
  rw [List.count_set _ _ _ _ hlt, ← tile_eq_getElem m x y hlt]
  by_cases hc : m.tile x y = .WATER
  · have := hpos hc
    simp only [hc, beq_self_eq_true, if_true]
    by_cases ht : t = .WATER <;> simp [ht] <;> omega
  · by_cases ht : t = .WATER <;> simp [hc, ht]

theorem potentialFrom_set (w : Nat) (l : List TileType) (i k : Nat) (v : TileType)
    (hk : k < l.length) :
    potentialFrom w i (l.set k v) + (if l[k] = .WATER then (i + k) / w else 0)
      = potentialFrom w i l + (if v = .WATER then (i + k) / w else 0) := by
  induction l generalizing i k with
  | nil => simp at hk
  | cons t ts ih =>
    cases k with
    | zero =>
      simp only [List.set_cons_zero, potentialFrom, List.getElem_cons_zero, Nat.add_zero]
      omega
    | succ k =>
      have hk2 : k < ts.length := by simpa using hk
      have h := ih (i + 1) k hk2
      simp only [List.set_cons_succ, potentialFrom, List.getElem_cons_succ]
      have e : i + 1 + k = i + (k + 1) := by omega
      rw [e] at h
      omega

theorem potential_put (m : Map) (x y : Int) (t : TileType) (hwf : m.WF)
    (h0 : 0 ≤ y) (h1 : y < m.height) :
    (m.put x y t).potential + (if m.tile x y = .WATER then y.toNat else 0)
      = m.potential + (if t = .WATER then y.toNat else 0) := by
  have hlt := index_lt m x y hwf h0 h1
  have h := potentialFrom_set m.width m.tiles 0 (m.index x y) t hlt
  rw [Nat.zero_add, index_div m x y hwf.1, ← tile_eq_getElem m x y hlt] at h
  exact h

/-! ## moveTileFast -/

theorem put_wrapX_arg (m : Map) (x y : Int) (t : TileType) (hw : 0 < m.width) :
    m.put (m.wrapX x) y t = m.put x y t := by
  unfold Map.put
  rw [index_wrapX m x y hw]

theorem tile_wrapX_arg (m : Map) (x y : Int) (hw : 0 < m.width) :
    m.tile (m.wrapX x) y = m.tile x y := by
  unfold Map.tile
  rw [index_wrapX m x y hw]

theorem moveTileFast_eq (m : Map) (x1 y1 x2 y2 : Int) (hwf : m.WF)
    (h1 : 0 ≤ y1 ∧ y1 < m.height) (h2 : 0 ≤ y2 ∧ y2 < m.height) :
    moveTileFast m x1 y1 x2 y2
      = .ok ((m.put x2 y2 (m.tile x1 y1)).put x1 y1 .EMPTY) := by
  have hw := hwf.1
  unfold moveTileFast
  simp only []
  rw [getTileType_eq m _ y1 hwf h1.1 h1.2]
  simp only []
  rw [setTileType_eq m _ y2 _ hwf h2.1 h2.2]
  simp only []
  have hwf1 := put_WF m (m.wrapX x2) y2 (m.tile (m.wrapX x1) y1) hwf
  rw [setTileType_eq _ _ y1 _ hwf1 h1.1 (by simpa using h1.2)]
  rw [put_wrapX_arg m x2 y2 _ hw, tile_wrapX_arg m x1 y1 hw]
  exact congrArg Except.ok (put_wrapX_arg (m.put x2 y2 (m.tile x1 y1)) x1 y1 .EMPTY hw)


/-! ## The walk of findFall -/

theorem walkColumn_zero (m : Map) (d x : Int) (h0 : 0 ≤ x) (h1 : x < m.width) :
    walkColumn m d x 0 = x := by
  unfold walkColumn
  simp only [Nat.cast_zero, zero_mul, add_zero]
  exact wrapX_of_inRange m x h0 h1

theorem walkColumn_succ (m : Map) (d x : Int) (k : Nat) (hw : 0 < m.width) :
    m.wrapX (walkColumn m d x k + d) = walkColumn m d x (k + 1) := by
  unfold walkColumn
  rw [wrapX_eq_emod m _ hw, wrapX_eq_emod m _ hw, wrapX_eq_emod m _ hw, Int.emod_add_emod]
  congr 1
  push_cast
  ring

theorem walkColumn_nonneg (m : Map) (d x : Int) (k : Nat) (hw : 0 < m.width) :
    0 ≤ walkColumn m d x k := wrapX_nonneg m _ hw

theorem walkColumn_lt (m : Map) (d x : Int) (k : Nat) (hw : 0 < m.width) :
    walkColumn m d x k < m.width := wrapX_lt m _ hw

theorem dvd_of_dvd_mul_dir (w n d : Int) (hd : d = 1 ∨ d = -1) (h : w ∣ n * d) : w ∣ n := by
  rcases hd with hd | hd
  · rw [hd, mul_one] at h; exact h
  · rw [hd, mul_neg, mul_one] at h; exact (Int.dvd_neg).mp h

theorem walkColumn_eq_sentinel (m : Map) (d x : Int) (k : Nat) (hw : 0 < m.width)
    (hd : d = 1 ∨ d = -1) (hk : k + 1 ≤ m.width) :
    walkColumn m d x k = m.wrapX (x - d) ↔ k + 1 = m.width := by
  unfold walkColumn
  rw [wrapX_eq_emod m _ hw, wrapX_eq_emod m _ hw, Int.emod_eq_emod_iff_emod_sub_eq_zero,
    ← Int.dvd_iff_emod_eq_zero]
  constructor
  · intro h
    have h2 : (m.width : Int) ∣ ((k : Int) + 1) * d := by
      have e : x + (k : Int) * d - (x - d) = ((k : Int) + 1) * d := by ring
      rw [← e]; exact h
    have h3 := dvd_of_dvd_mul_dir _ _ d hd h2
    have h4 := Int.le_of_dvd (by omega) h3
    omega
  · intro h
    have e : x + (k : Int) * d - (x - d) = (m.width : Int) * d := by
      have : (k : Int) + 1 = m.width := by exact_mod_cast h
      rw [← this]; ring
    rw [e]
    exact Dvd.intro _ rfl


theorem walkColumn_eq_start (m : Map) (d x : Int) (k : Nat) (h0 : 0 ≤ x) (h1 : x < m.width)
    (hd : d = 1 ∨ d = -1) (hk : k < m.width) :
    walkColumn m d x k = x ↔ k = 0 := by
  have hw : 0 < m.width := by omega
  constructor
  · intro h
    have hx : x = x % (m.width : Int) := (Int.emod_eq_of_lt h0 h1).symm
    unfold walkColumn at h
    rw [wrapX_eq_emod m _ hw] at h
    replace h := h.trans hx
    rw [Int.emod_eq_emod_iff_emod_sub_eq_zero, ← Int.dvd_iff_emod_eq_zero] at h
    have h2 : (m.width : Int) ∣ (k : Int) * d := by
      have e : x + (k : Int) * d - x = (k : Int) * d := by ring
      rw [← e]; exact h
    have h3 := dvd_of_dvd_mul_dir _ _ d hd h2
    by_contra hne
    have h4 := Int.le_of_dvd (by omega) h3
    omega
  · intro h
    rw [h]
    exact walkColumn_zero m d x h0 h1


theorem findFallLoop_sentinel (m : Map) (d x y : Int) (fuel : Nat) :
    findFallLoop m d x y (fuel + 1) (m.wrapX (x - d)) = .ok (m.wrapX (x - d)) := by
  unfold findFallLoop
  simp

theorem findFallLoop_spec (m : Map) (d x y : Int) (hwf : m.WF)
    (hx0 : 0 ≤ x) (hx1 : x < m.width) (hy0 : 0 < y) (hy1 : y < m.height)
    (hd : d = 1 ∨ d = -1) :
    ∀ (fuel k : Nat), k + 1 ≤ m.width → m.width + 1 ≤ fuel + k →
      (∀ j, j < k → m.tile (walkColumn m d x j) (y - 1) ≠ .EMPTY) →
      (∀ j, 0 < j → j < k → m.tile (walkColumn m d x j) y = .EMPTY) →
      ∃ c, findFallLoop m d x y fuel (walkColumn m d x k) = .ok c ∧
        (c = m.wrapX (x - d) ∨ ∃ k', FallAt m d x y k' ∧ c = walkColumn m d x k') := by
  have hw := hwf.1
  intro fuel
  induction fuel with
  | zero => intro k hk hf; omega
  | succ fuel ih =>
    intro k hk hf hbelow hrow
    by_cases hs : walkColumn m d x k = m.wrapX (x - d)
    · rw [hs]
      exact ⟨_, findFallLoop_sentinel m d x y fuel, Or.inl rfl⟩
    · have hk2 : k + 1 < m.width := by
        have := (walkColumn_eq_sentinel m d x k hw hd hk).not.mp hs
        omega
      unfold findFallLoop
      rw [if_pos hs, getTileType_eq m _ (y - 1) hwf (by omega) (by omega)]
      simp only []
      by_cases hb : m.tile (walkColumn m d x k) (y - 1) = .EMPTY
      · rw [if_pos hb]
        exact ⟨_, rfl, Or.inr ⟨k, ⟨hk2, hb, hbelow, hrow⟩, rfl⟩⟩
      · rw [if_neg hb, getTileType_eq m _ y hwf (by omega) hy1]
        simp only []
        by_cases hobs : m.tile (walkColumn m d x k) y ≠ .EMPTY ∧ walkColumn m d x k ≠ x
        · rw [if_pos hobs]
          obtain ⟨f2, hf2⟩ : ∃ f2, fuel = f2 + 1 := ⟨fuel - 1, by omega⟩
          rw [hf2]
          exact ⟨_, findFallLoop_sentinel m d x y f2, Or.inl rfl⟩
        · rw [if_neg hobs, walkColumn_succ m d x k hw]
          apply ih (k + 1) (by omega) (by omega)
          · intro j hj
            by_cases hjk : j = k
            · rw [hjk]; exact hb
            · exact hbelow j (by omega)
          · intro j hj0 hj
            by_cases hjk : j = k
            · rw [hjk]
              by_contra hne
              apply hobs
              refine ⟨hne, ?_⟩
              intro hst
              have := (walkColumn_eq_start m d x k hx0 hx1 hd (by omega)).mp hst
              omega
            · exact hrow j hj0 (by omega)

theorem findFall_spec (m : Map) (d x y : Int) (hwf : m.WF)
    (hx0 : 0 ≤ x) (hx1 : x < m.width) (hy0 : 0 < y) (hy1 : y < m.height)
    (hd : d = 1 ∨ d = -1) :
    ∃ c, findFall m d x y = .ok c ∧
      (c = m.wrapX (x - d) ∨ ∃ k, FallAt m d x y k ∧ c = walkColumn m d x k) := by
  unfold findFall
  rw [if_neg (not_not.mpr hd), if_neg (not_not.mpr hy0)]
  have h := findFallLoop_spec m d x y hwf hx0 hx1 hy0 hy1 hd (m.width + 1) 0
    (by have := hwf.1; omega) (by omega) (by intro j hj; omega) (by intro j _ hj; omega)
  rw [walkColumn_zero m d x hx0 hx1] at h
  exact h


/-! ## The descent loop of moveWater -/

theorem lowestLoop_spec (m : Map) (fall : Int) (hwf : m.WF) :
    ∀ (fuel : Nat) (lowest : Int), 0 ≤ lowest → lowest < m.height → lowest.toNat < fuel →
      m.tile fall lowest = .EMPTY →
      ∃ l, lowestLoop m fall fuel .EMPTY lowest = .ok l ∧ 0 ≤ l ∧ l ≤ lowest ∧
        (∀ b, l ≤ b → b ≤ lowest → m.tile fall b = .EMPTY) ∧
        (l = 0 ∨ m.tile fall (l - 1) ≠ .EMPTY) := by
  intro fuel
  induction fuel with
  | zero => intro lowest _ _ hf; omega
  | succ fuel ih =>
    intro lowest h0 h1 hf he
    unfold lowestLoop
    by_cases hpos : lowest > 0
    · rw [if_pos ⟨rfl, hpos⟩, getTileType_eq m fall (lowest - 1) hwf (by omega) (by omega)]
      simp only []
      by_cases hb : m.tile fall (lowest - 1) = .EMPTY
      · rw [if_neg (not_not.mpr hb), hb]
        obtain ⟨l, hl, hl0, hl1, hall, hstop⟩ := ih (lowest - 1) (by omega) (by omega) (by omega) hb
        refine ⟨l, hl, hl0, by omega, ?_, hstop⟩
        intro b hb0 hb1
        by_cases hbl : b = lowest
        · rw [hbl]; exact he
        · exact hall b hb0 (by omega)
      · rw [if_pos hb]
        refine ⟨lowest, rfl, h0, le_refl _, ?_, Or.inr hb⟩
        intro b hb0 hb1
        have : b = lowest := by omega
        rw [this]; exact he
    · rw [if_neg (fun h => hpos h.2)]
      have hz : lowest = 0 := by omega
      refine ⟨lowest, rfl, h0, le_refl _, ?_, Or.inl hz⟩
      intro b hb0 hb1
      have : b = lowest := by omega
      rw [this]; exact he


/-! ## The relocation step of moveWater -/

theorem FallAt_ne_sentinel (m : Map) (d x y : Int) (k : Nat) (hw : 0 < m.width)
    (hd : d = 1 ∨ d = -1) (h : FallAt m d x y k) :
    walkColumn m d x k ≠ m.wrapX (x - d) := by
  intro hs
  have := (walkColumn_eq_sentinel m d x k hw hd (by have := h.1; omega)).mp hs
  have := h.1
  omega

theorem dropTile_spec (m : Map) (x y c : Int) (hwf : m.WF)
    (hy0 : 0 < y) (hy1 : y < m.height)
    (hwater : m.tile x y = .WATER)
    (hc0 : 0 ≤ c) (hc1 : c < m.width) (hbelow : m.tile c (y - 1) = .EMPTY) :
    ∃ m1 l, Dropped m x y c l m1 ∧ dropTile m x y c = .ok (m1, l) := by
  obtain ⟨l, hl, hl0, hl1, hall, hstop⟩ :=
    lowestLoop_spec m c hwf (y.toNat + 1) (y - 1) (by omega) (by omega) (by omega) hbelow
  refine ⟨(m.put c l .WATER).put x y .EMPTY, l, ⟨hc0, hc1, hl0, by omega, ?_, hstop, rfl⟩, ?_⟩
  · intro b hb0 hb1
    exact hall b hb0 (by omega)
  · unfold dropTile
    rw [getTileType_eq m c (y - 1) hwf (by omega) (by omega)]
    simp only [hbelow, ne_eq, not_true_eq_false, if_false, hl]
    rw [moveTileFast_eq m x y c l hwf ⟨by omega, hy1⟩ ⟨hl0, by omega⟩, hwater]

/-- Outcome of the choice of the fall column, in terms of the two searches. -/
theorem fallColumn_spec (m : Map) (x y : Int) (hwf : m.WF)
    (hx0 : 0 ≤ x) (hx1 : x < m.width) (hy0 : 0 < y) (hy1 : y < m.height) :
    ∃ r, fallColumn m x y = .ok r ∧
      (r = none ∨ ∃ c, r = some c ∧ 0 ≤ c ∧ c < m.width ∧ m.tile c (y - 1) = .EMPTY) := by
  have hw := hwf.1
  obtain ⟨c1, h1, hc1⟩ := findFall_spec m (-1) x y hwf hx0 hx1 hy0 hy1 (Or.inr rfl)
  obtain ⟨c2, h2, hc2⟩ := findFall_spec m 1 x y hwf hx0 hx1 hy0 hy1 (Or.inl rfl)
  unfold fallColumn
  rw [h1]
  simp only []
  by_cases hf1 : c1 = m.wrapX (x + 1)
  · rw [if_pos hf1, h2]
    simp only []
    by_cases hf2 : c2 = m.wrapX (x - 1)
    · rw [if_pos hf2]
      exact ⟨none, rfl, Or.inl rfl⟩
    · rw [if_neg hf2]
      refine ⟨some c2, rfl, Or.inr ⟨c2, rfl, ?_⟩⟩
      rcases hc2 with hc2 | ⟨k, hk, hck⟩
      · exact absurd hc2 hf2
      · rw [hck]
        exact ⟨walkColumn_nonneg m 1 x k hw, walkColumn_lt m 1 x k hw, hk.2.1⟩
  · rw [if_neg hf1]
    refine ⟨some c1, rfl, Or.inr ⟨c1, rfl, ?_⟩⟩
    rcases hc1 with hc1 | ⟨k, hk, hck⟩
    · rw [sub_neg_eq_add] at hc1
      exact absurd hc1 hf1
    · rw [hck]
      exact ⟨walkColumn_nonneg m (-1) x k hw, walkColumn_lt m (-1) x k hw, hk.2.1⟩

/-- The relocation step on a WATER cell of the grid never fails: it either
moves nothing or drops the tile. -/
theorem moveWaterRelocate_spec (m : Map) (x y : Int) (hwf : m.WF)
    (hx0 : 0 ≤ x) (hx1 : x < m.width) (hy0 : 0 ≤ y) (hy1 : y < m.height)
    (hwater : m.tile x y = .WATER) :
    moveWaterRelocate m x y = .ok none ∨
      ∃ m1 c l, moveWaterRelocate m x y = .ok (some (m1, c, l)) ∧ Dropped m x y c l m1 := by
  unfold moveWaterRelocate
  rw [getTileType_eq m x y hwf hy0 hy1, hwater]
  simp only [ne_eq, not_true_eq_false, if_false]
  by_cases hz : y = 0
  · rw [if_pos hz]; exact Or.inl rfl
  · rw [if_neg hz]
    obtain ⟨r, hr, hcase⟩ := fallColumn_spec m x y hwf hx0 hx1 (by omega) hy1
    rw [hr]
    rcases hcase with hn | ⟨c, hc, hc0, hc1, hb⟩
    · rw [hn]; exact Or.inl rfl
    · rw [hc]
      obtain ⟨m1, l, hdrop, hd⟩ := dropTile_spec m x y c hwf (by omega) hy1 hwater hc0 hc1 hb
      simp only [hd]
      exact Or.inr ⟨m1, c, l, rfl, hdrop⟩


/-! ## Effect of one relocation -/

theorem Dropped.width_eq {m : Map} {x y c l : Int} {m1 : Map} (h : Dropped m x y c l m1) :
    m1.width = m.width := by
  rw [h.2.2.2.2.2.2]; rfl

theorem Dropped.height_eq {m : Map} {x y c l : Int} {m1 : Map} (h : Dropped m x y c l m1) :
    m1.height = m.height := by
  rw [h.2.2.2.2.2.2]; rfl

theorem Dropped.wf {m : Map} {x y c l : Int} {m1 : Map} (h : Dropped m x y c l m1)
    (hwf : m.WF) : m1.WF := by
  rw [h.2.2.2.2.2.2]
  exact put_WF _ _ _ _ (put_WF _ _ _ _ hwf)

theorem Dropped.tile_eq {m : Map} {x y c l : Int} {m1 : Map} (h : Dropped m x y c l m1)
    (hwf : m.WF) (hx0 : 0 ≤ x) (hx1 : x < m.width) (hy1 : y < m.height)
    (a b : Int) (hb : 0 ≤ b) :
    m1.tile a b = if m.wrapX a = x ∧ b = y then .EMPTY
      else if m.wrapX a = c ∧ b = l then .WATER else m.tile a b := by
  obtain ⟨hc0, hc1, hl0, hl1, _, _, hm1⟩ := h
  rw [hm1, tile_put _ x y _ a b (put_WF _ _ _ _ hwf) (by omega) (by simpa using hy1) hb,
    tile_put m c l _ a b hwf hl0 (by omega) hb, put_wrapX, put_wrapX,
    wrapX_of_inRange m x hx0 hx1, wrapX_of_inRange m c hc0 hc1]

theorem Dropped.source_empty {m : Map} {x y c l : Int} {m1 : Map} (h : Dropped m x y c l m1)
    (hwf : m.WF) (hx0 : 0 ≤ x) (hx1 : x < m.width) (hy1 : y < m.height) :
    m1.tile x y = .EMPTY := by
  have hy0 : 0 ≤ y := by have := h.2.2.1; have := h.2.2.2.1; omega
  rw [h.tile_eq hwf hx0 hx1 hy1 x y hy0, if_pos ⟨wrapX_of_inRange m x hx0 hx1, rfl⟩]

theorem Dropped.target_water {m : Map} {x y c l : Int} {m1 : Map} (h : Dropped m x y c l m1)
    (hwf : m.WF) (hx0 : 0 ≤ x) (hx1 : x < m.width) (hy1 : y < m.height) :
    m1.tile c l = .WATER := by
  have hl0 := h.2.2.1
  have hl1 := h.2.2.2.1
  rw [h.tile_eq hwf hx0 hx1 hy1 c l hl0, if_neg (by intro hh; omega),
    if_pos ⟨wrapX_of_inRange m c h.1 h.2.1, rfl⟩]

theorem Dropped.target_was_empty {m : Map} {x y c l : Int} {m1 : Map}
    (h : Dropped m x y c l m1) : m.tile c l = .EMPTY :=
  h.2.2.2.2.1 l (le_refl _) h.2.2.2.1

theorem Dropped.waterCount_eq {m : Map} {x y c l : Int} {m1 : Map} (h : Dropped m x y c l m1)
    (hwf : m.WF) (hy1 : y < m.height) (hwater : m.tile x y = .WATER) :
    m1.waterCount = m.waterCount := by
  have hte := h.target_was_empty
  obtain ⟨hc0, hc1, hl0, hl1, _, _, hm1⟩ := h
  have e1 := waterCount_put m c l .WATER hwf hl0 (by omega)
  have hwf1 := put_WF m c l .WATER hwf
  have e2 := waterCount_put (m.put c l .WATER) x y .EMPTY hwf1 (by omega) (by simpa using hy1)
  have ht : (m.put c l .WATER).tile x y = .WATER := by
    rw [tile_put m c l _ x y hwf hl0 (by omega) (by omega), if_neg (by intro hh; omega)]
    exact hwater
  rw [hte] at e1
  rw [ht] at e2
  rw [hm1]
  simp at e1 e2
  omega

theorem Dropped.potential_eq {m : Map} {x y c l : Int} {m1 : Map} (h : Dropped m x y c l m1)
    (hwf : m.WF) (hy1 : y < m.height) (hwater : m.tile x y = .WATER) :
    m1.potential + y.toNat = m.potential + l.toNat := by
  have hte := h.target_was_empty
  obtain ⟨hc0, hc1, hl0, hl1, _, _, hm1⟩ := h
  have e1 := potential_put m c l .WATER hwf hl0 (by omega)
  have hwf1 := put_WF m c l .WATER hwf
  have e2 := potential_put (m.put c l .WATER) x y .EMPTY hwf1 (by omega) (by simpa using hy1)
  have ht : (m.put c l .WATER).tile x y = .WATER := by
    rw [tile_put m c l _ x y hwf hl0 (by omega) (by omega), if_neg (by intro hh; omega)]
    exact hwater
  rw [hte] at e1
  rw [ht] at e2
  rw [hm1]
  simp at e1 e2
  omega

theorem Dropped.potential_lt {m : Map} {x y c l : Int} {m1 : Map} (h : Dropped m x y c l m1)
    (hwf : m.WF) (hy1 : y < m.height) (hwater : m.tile x y = .WATER) :
    m1.potential < m.potential := by
  have e := h.potential_eq hwf hy1 hwater
  have hl0 := h.2.2.1
  have hl1 := h.2.2.2.1
  omega


/-! ## Effect of a whole moveWater call -/

theorem MoveEffect.refl (m : Map) (y : Int) (hwf : m.WF) : MoveEffect m m y where
  width := rfl
  height := rfl
  wf := hwf
  water := rfl
  potential := le_refl _
  above := fun _ _ _ => rfl
  row := fun _ => Or.inl rfl
  kinds := fun _ _ _ => Or.inl rfl
  steps := Relation.ReflTransGen.refl

theorem MoveEffect.trans {m1 m2 m3 : Map} {y : Int} (h12 : MoveEffect m1 m2 y)
    (h23 : MoveEffect m2 m3 y) : MoveEffect m1 m3 y where
  width := h23.width.trans h12.width
  height := h23.height.trans h12.height
  wf := h23.wf
  water := h23.water.trans h12.water
  potential := le_trans h23.potential h12.potential
  above := fun a b hb => (h23.above a b hb).trans (h12.above a b hb)
  row := by
    intro a
    rcases h23.row a with h | h
    · rw [h]; exact h12.row a
    · exact Or.inr h
  kinds := by
    intro a b hb
    rcases h12.kinds a b hb with h | ⟨h, h'⟩
    · rw [← h]; exact h23.kinds a b hb
    · rcases h23.kinds a b hb with k | ⟨_, k'⟩
      · rw [k]; exact Or.inr ⟨h, h'⟩
      · exact Or.inr ⟨h, k'⟩
  steps := h12.steps.trans h23.steps

theorem MoveEffect.weaken {m1 m2 : Map} {l y : Int} (h : MoveEffect m1 m2 l) (hly : l < y) :
    MoveEffect m1 m2 y where
  width := h.width
  height := h.height
  wf := h.wf
  water := h.water
  potential := h.potential
  above := fun a b hb => h.above a b (by omega)
  row := fun a => Or.inl (h.above a y hly)
  kinds := h.kinds
  steps := h.steps

theorem MoveEffect.of_dropped {m : Map} {x y c l : Int} {m1 : Map} (h : Dropped m x y c l m1)
    (hwf : m.WF) (hx0 : 0 ≤ x) (hx1 : x < m.width) (hy0 : 0 ≤ y) (hy1 : y < m.height)
    (hwater : m.tile x y = .WATER) : MoveEffect m m1 y where
  width := h.width_eq
  height := h.height_eq
  wf := h.wf hwf
  water := h.waterCount_eq hwf hy1 hwater
  potential := le_of_lt (h.potential_lt hwf hy1 hwater)
  above := by
    intro a b hb
    have hl1 := h.2.2.2.1
    rw [h.tile_eq hwf hx0 hx1 hy1 a b (by omega), if_neg (by intro hh; omega),
      if_neg (by intro hh; omega)]
  row := by
    intro a
    have hl1 := h.2.2.2.1
    rw [h.tile_eq hwf hx0 hx1 hy1 a y hy0]
    by_cases hc : m.wrapX a = x ∧ y = y
    · rw [if_pos hc]; exact Or.inr rfl
    · rw [if_neg hc, if_neg (by intro hh; omega)]; exact Or.inl rfl
  kinds := by
    intro a b hb
    rw [h.tile_eq hwf hx0 hx1 hy1 a b hb]
    by_cases hc : m.wrapX a = x ∧ b = y
    · rw [if_pos hc]
      refine Or.inr ⟨Or.inl ?_, Or.inr rfl⟩
      rw [← tile_wrapX_arg m a b hwf.1, hc.1, hc.2]; exact hwater
    · rw [if_neg hc]
      by_cases hc2 : m.wrapX a = c ∧ b = l
      · rw [if_pos hc2]
        refine Or.inr ⟨Or.inr ?_, Or.inl rfl⟩
        rw [← tile_wrapX_arg m a b hwf.1, hc2.1, hc2.2]; exact h.target_was_empty
      · rw [if_neg hc2]; exact Or.inl rfl
  steps := Relation.ReflTransGen.single ⟨x, y, c, l, hwf, ⟨hx0, hx1, hy0, hy1⟩, hwater, h⟩

theorem moveWater_succ (fuel : Nat) (m : Map) (x y : Int) :
    moveWater (fuel + 1) m x y =
      match moveWaterRelocate m x y with
      | .error e => .error e
      | .ok none => .ok m
      | .ok (some (m1, fall, lowest)) =>
        match moveWater fuel m1 fall lowest with
        | .error e => .error e
        | .ok m2 =>
          match m2.getTileType x y with
          | .error e => .error e
          | .ok t =>
            if t ≠ .EMPTY then .error .assertion
            else
              match m2.getTileType (x - 1) y with
              | .error e => .error e
              | .ok left =>
                if left = .WATER then moveWater fuel m2 (m2.wrapX (x - 1)) y
                else .ok m2 := rfl

/-- Main invariant of the recursion: on a WATER cell of a well-formed grid,
`moveWater` can only stop for lack of fuel (and then the fuel was at most the
potential); when it returns, the new grid is related to the old one by
`MoveEffect`. -/
theorem moveWater_effect : ∀ (fuel : Nat) (m : Map) (x y : Int), m.WF →
    0 ≤ x → x < m.width → 0 ≤ y → y < m.height → m.tile x y = .WATER →
    (∀ e, moveWater fuel m x y = .error e → e = .fuel ∧ fuel ≤ m.potential) ∧
    (∀ m', moveWater fuel m x y = .ok m' → MoveEffect m m' y) := by
  intro fuel
  induction fuel with
  | zero =>
    intro m x y _ _ _ _ _ _
    constructor
    · intro e h
      have h2 : moveWater 0 m x y = .error .fuel := rfl
      rw [h2] at h
      cases h
      exact ⟨rfl, Nat.zero_le _⟩
    · intro m' h
      have h2 : moveWater 0 m x y = .error .fuel := rfl
      rw [h2] at h
      cases h
  | succ fuel ih =>
    intro m x y hwf hx0 hx1 hy0 hy1 hwater
    rw [moveWater_succ]
    rcases moveWaterRelocate_spec m x y hwf hx0 hx1 hy0 hy1 hwater with hn | ⟨m1, c, l, hs, hdrop⟩
    · rw [hn]
      simp only []
      constructor
      · intro e h; cases h
      · intro m' h
        cases h
        exact MoveEffect.refl m y hwf
    · rw [hs]
      simp only []
      have hl0 := hdrop.2.2.1
      have hl1 := hdrop.2.2.2.1
      have e01 := MoveEffect.of_dropped hdrop hwf hx0 hx1 hy0 hy1 hwater
      have hplt := hdrop.potential_lt hwf hy1 hwater
      have hwf1 := hdrop.wf hwf
      have ih1 := ih m1 c l hwf1 hdrop.1 (by rw [hdrop.width_eq]; exact hdrop.2.1) hl0
        (by rw [hdrop.height_eq]; omega) (hdrop.target_water hwf hx0 hx1 hy1)
      cases hrec : moveWater fuel m1 c l with
      | error e =>
        simp only []
        constructor
        · intro e' h
          cases h
          have := ih1.1 e hrec
          exact ⟨this.1, by omega⟩
        · intro m' h; cases h
      | ok m2 =>
        simp only []
        have e12 := (ih1.2 m2 hrec).weaken hl1
        have e02 := e01.trans e12
        have hwf2 := e02.wf
        have hsrc : m2.tile x y = .EMPTY := by
          rcases e12.row x with h | h
          · rw [h]; exact hdrop.source_empty hwf hx0 hx1 hy1
          · exact h
        rw [getTileType_eq m2 x y hwf2 hy0 (by rw [e02.height]; exact hy1), hsrc,
          getTileType_eq m2 (x - 1) y hwf2 hy0 (by rw [e02.height]; exact hy1)]
        simp only [ne_eq, not_true_eq_false, if_false]
        by_cases hleft : m2.tile (x - 1) y = .WATER
        · rw [if_pos hleft]
          have hw2 : 0 < m2.width := hwf2.1
          have ih2 := ih m2 (m2.wrapX (x - 1)) y hwf2 (wrapX_nonneg m2 _ hw2)
            (wrapX_lt m2 _ hw2) hy0 (by rw [e02.height]; exact hy1)
            (by rw [tile_wrapX_arg m2 _ _ hw2]; exact hleft)
          constructor
          · intro e h
            have h3 := ih2.1 e h
            have h4 := e12.potential
            exact ⟨h3.1, by omega⟩
          · intro m' h
            exact e02.trans (ih2.2 m' h)
        · rw [if_neg hleft]
          constructor
          · intro e h; cases h
          · intro m' h
            cases h
            exact e02


/-! ## The sweep of settleWater -/

theorem foldlM_cons_ok {α β : Type} (f : β → α → Except Fault β) (b b' : β) (a : α)
    (l : List α) (h : f b a = .ok b') :
    (a :: l).foldlM f b = l.foldlM f b' := by
  rw [List.foldlM_cons, h]
  rfl

theorem foldlM_cons_error {α β : Type} (f : β → α → Except Fault β) (b : β) (a : α)
    (l : List α) (e : Fault) (h : f b a = .error e) :
    (a :: l).foldlM f b = .error e := by
  rw [List.foldlM_cons, h]
  rfl

theorem moveWater_moveFuel (m : Map) (x y : Int) (hwf : m.WF)
    (hx0 : 0 ≤ x) (hx1 : x < m.width) (hy0 : 0 ≤ y) (hy1 : y < m.height)
    (hwater : m.tile x y = .WATER) :
    ∃ m', moveWater m.moveFuel m x y = .ok m' ∧ MoveEffect m m' y := by
  have h := moveWater_effect m.moveFuel m x y hwf hx0 hx1 hy0 hy1 hwater
  cases hr : moveWater m.moveFuel m x y with
  | error e =>
    have := (h.1 e hr).2
    unfold Map.moveFuel at this
    omega
  | ok m' => exact ⟨m', rfl, h.2 m' hr⟩

theorem settleCell_spec (j : Nat) (m : Map) (i : Nat) (hwf : m.WF)
    (hi : i < m.width) (hj : j < m.height) :
    ∃ m', settleCell j m i = .ok m' ∧ MoveEffect m m' j := by
  unfold settleCell
  rw [getTileType_eq m i j hwf (by omega) (by omega)]
  simp only []
  by_cases hwater : m.tile i j = .WATER
  · rw [if_pos hwater]
    exact moveWater_moveFuel m i j hwf (by omega) (by omega) (by omega) (by omega) hwater
  · rw [if_neg hwater]
    exact ⟨m, rfl, MoveEffect.refl m j hwf⟩

theorem settleCells_spec (j : Nat) (l : List Nat) :
    ∀ (m : Map), m.WF → (∀ i ∈ l, i < m.width) → j < m.height →
      ∃ m', l.foldlM (settleCell j) m = .ok m' ∧ MoveEffect m m' j := by
  induction l with
  | nil =>
    intro m hwf _ _
    exact ⟨m, rfl, MoveEffect.refl m j hwf⟩
  | cons i l ih =>
    intro m hwf hl hj
    obtain ⟨m1, h1, e1⟩ := settleCell_spec j m i hwf (hl i (List.mem_cons_self _ _)) hj
    obtain ⟨m2, h2, e2⟩ := ih m1 e1.wf
      (fun k hk => by rw [e1.width]; exact hl k (List.mem_cons_of_mem _ hk))
      (by rw [e1.height]; exact hj)
    exact ⟨m2, by rw [foldlM_cons_ok _ _ _ _ _ h1]; exact h2, e1.trans e2⟩

theorem settleRow_spec (m : Map) (j : Nat) (hwf : m.WF) (hj : j < m.height) :
    ∃ m', settleRow m j = .ok m' ∧ MoveEffect m m' j :=
  settleCells_spec j (List.range m.width) m hwf (fun _ hi => List.mem_range.mp hi) hj

theorem settleRows_spec (l : List Nat) :
    ∀ (m : Map), m.WF → (∀ j ∈ l, j < m.height) →
      ∃ m', l.foldlM settleRow m = .ok m' ∧ MoveEffect m m' m.height := by
  induction l with
  | nil =>
    intro m hwf _
    exact ⟨m, rfl, MoveEffect.refl m _ hwf⟩
  | cons j l ih =>
    intro m hwf hl
    have hj := hl j (List.mem_cons_self _ _)
    obtain ⟨m1, h1, e1⟩ := settleRow_spec m j hwf hj
    obtain ⟨m2, h2, e2⟩ := ih m1 e1.wf
      (fun k hk => by rw [e1.height]; exact hl k (List.mem_cons_of_mem _ hk))
    rw [e1.height] at e2
    exact ⟨m2, by rw [foldlM_cons_ok _ _ _ _ _ h1]; exact h2,
      (e1.weaken (by exact_mod_cast hj)).trans e2⟩

/-- On every well-formed grid `settleWater` returns a grid, related to the
input by `MoveEffect`. -/
theorem settleWater_spec (m : Map) (hwf : m.WF) :
    ∃ m', settleWater m = .ok m' ∧ MoveEffect m m' m.height := by
  apply settleRows_spec _ m hwf
  intro j hj
  have := List.mem_range'_1.mp hj
  omega


/-! ## C1: a second settling pass can still move water -/

/-- C1 (settle idempotence) evaluated on `seamGrid`: the first pass of
`settleWater` gives `seamGridOnce`; a second pass moves the WATER tile of cell
`(0, 1)` to `(2, 0)` and gives the different grid `seamGridTwice`. -/
theorem settleWater_second_pass_moves :
    settleWater seamGrid = .ok seamGridOnce ∧
    settleWater seamGridOnce = .ok seamGridTwice ∧
    seamGridOnce ≠ seamGridTwice := by
  decide

/-! ## C3: settling never creates water -/

theorem getTileType_ok (m : Map) (x y : Int) (t : TileType) (hwf : m.WF)
    (h : m.getTileType x y = .ok t) : 0 ≤ y ∧ y < m.height ∧ m.tile x y = t := by
  by_cases hr : 0 ≤ y ∧ y < m.height
  · rw [getTileType_eq m x y hwf hr.1 hr.2] at h
    cases h
    exact ⟨hr.1, hr.2, rfl⟩
  · rw [getTileType_outside m x y hr] at h
    cases h

theorem moveWaterRelocate_ok_water (m : Map) (x y : Int) (r : Option (Map × Int × Int))
    (h : moveWaterRelocate m x y = .ok r) : m.getTileType x y = .ok .WATER := by
  unfold moveWaterRelocate at h
  cases hg : m.getTileType x y with
  | error e => rw [hg] at h; cases h
  | ok t =>
    rw [hg] at h
    simp only [] at h
    by_cases ht : t = .WATER
    · rw [ht]
    · rw [if_pos ht] at h; cases h

theorem moveWater_ok_water (fuel : Nat) (m : Map) (x y : Int) (m' : Map)
    (h : moveWater fuel m x y = .ok m') : m.getTileType x y = .ok .WATER := by
  cases fuel with
  | zero => cases h
  | succ fuel =>
    rw [moveWater_succ] at h
    cases hr : moveWaterRelocate m x y with
    | error e => rw [hr] at h; cases h
    | ok r => exact moveWaterRelocate_ok_water m x y r hr

/-- C3 (mass non-creation). On a well-formed grid `settleWater` returns a grid
with at most as many WATER tiles as before, reached from the input by
relocations of WATER tiles into EMPTY cells only; a `moveWater` call on a WATER
cell returns when given the fuel `moveFuel`, and whatever the fuel, a
`moveWater` call on a column of the grid that returns leaves at most as many
WATER tiles as before. -/
theorem water_never_created (m : Map) (hwf : m.WF) :
    (∃ m', settleWater m = .ok m' ∧ m'.waterCount ≤ m.waterCount ∧
      Relation.ReflTransGen DropStep m m') ∧
    (∀ x y : Int, 0 ≤ x → x < m.width → m.getTileType x y = .ok .WATER →
      ∃ m', moveWater m.moveFuel m x y = .ok m' ∧ m'.waterCount ≤ m.waterCount) ∧
    (∀ (fuel : Nat) (x y : Int) (m' : Map), 0 ≤ x → x < m.width →
      moveWater fuel m x y = .ok m' →
      m'.waterCount ≤ m.waterCount) := by
  refine ⟨?_, ?_, ?_⟩
  · obtain ⟨m', h, e⟩ := settleWater_spec m hwf
    exact ⟨m', h, le_of_eq e.water, e.steps⟩
  · intro x y hx0 hx1 hw
    obtain ⟨hy0, hy1, ht⟩ := getTileType_ok m x y _ hwf hw
    obtain ⟨m', h, e⟩ := moveWater_moveFuel m x y hwf hx0 hx1 hy0 hy1 ht
    exact ⟨m', h, le_of_eq e.water⟩
  · intro fuel x y m' hx0 hx1 h
    obtain ⟨hy0, hy1, ht⟩ := getTileType_ok m x y _ hwf (moveWater_ok_water fuel m x y m' h)
    exact le_of_eq ((moveWater_effect fuel m x y hwf hx0 hx1 hy0 hy1 ht).2 m' h).water

/-- Witness for `water_never_created`: the grid `seamGrid`. -/
theorem water_never_created_witness :
    (∃ m', settleWater seamGrid = .ok m' ∧ m'.waterCount ≤ seamGrid.waterCount ∧
      Relation.ReflTransGen DropStep seamGrid m') ∧
    (∀ x y : Int, 0 ≤ x → x < seamGrid.width → seamGrid.getTileType x y = .ok .WATER →
      ∃ m', moveWater seamGrid.moveFuel seamGrid x y = .ok m' ∧
        m'.waterCount ≤ seamGrid.waterCount) ∧
    (∀ (fuel : Nat) (x y : Int) (m' : Map), 0 ≤ x → x < seamGrid.width →
      moveWater fuel seamGrid x y = .ok m' →
      m'.waterCount ≤ seamGrid.waterCount) :=
  water_never_created seamGrid (by decide)


/-! ## Sweeps in which a single cell is active -/

theorem foldlM_skip {α β : Type} (f : β → α → Except Fault β) (b : β) (l : List α)
    (h : ∀ a ∈ l, f b a = .ok b) : l.foldlM f b = .ok b := by
  induction l with
  | nil => rfl
  | cons a l ih =>
    rw [foldlM_cons_ok f b b a l (h a (List.mem_cons_self _ _))]
    exact ih (fun c hc => h c (List.mem_cons_of_mem _ hc))

theorem foldlM_append_ok {α β : Type} (f : β → α → Except Fault β) (b b' : β)
    (l1 l2 : List α) (h : l1.foldlM f b = .ok b') :
    (l1 ++ l2).foldlM f b = l2.foldlM f b' := by
  rw [List.foldlM_append, h]
  rfl

theorem foldlM_single {α β : Type} (f : β → α → Except Fault β) (b b' : β) (a : α)
    (l1 l2 : List α) (h1 : ∀ c ∈ l1, f b c = .ok b) (ha : f b a = .ok b')
    (h2 : ∀ c ∈ l2, f b' c = .ok b') : (l1 ++ a :: l2).foldlM f b = .ok b' := by
  rw [foldlM_append_ok f b b l1 _ (foldlM_skip f b l1 h1), foldlM_cons_ok f b b' a l2 ha]
  exact foldlM_skip f b' l2 h2

theorem range'_split (s n k : Nat) (hk : k < n) :
    List.range' s n = List.range' s k ++ (s + k) :: List.range' (s + k + 1) (n - 1 - k) := by
  have e : n = (n - 1 - k + 1) + k := by omega
  have h := List.range'_append s k (n - 1 - k + 1) 1
  rw [← e, Nat.one_mul, List.range'_succ] at h
  exact h.symm

theorem settleCell_skip (j : Nat) (m : Map) (i : Nat) (hwf : m.WF)
    (hj : j < m.height) (h : m.tile i j ≠ .WATER) : settleCell j m i = .ok m := by
  unfold settleCell
  rw [getTileType_eq m i j hwf (by omega) (by omega)]
  simp only []
  rw [if_neg h]

theorem settleRow_skip (m : Map) (j : Nat) (hwf : m.WF) (hj : j < m.height)
    (h : ∀ i : Nat, i < m.width → m.tile i j ≠ .WATER) : settleRow m j = .ok m := by
  unfold settleRow
  apply foldlM_skip
  intro i hi
  exact settleCell_skip j m i hwf hj (h i (List.mem_range.mp hi))

/-- A sweep of `settleWater` in which only the cell `(x, y)` is WATER when it is
visited: the result is the result of that one cell. -/
theorem settleWater_single (m m' : Map) (x y : Nat) (hwf : m.WF) (hwf' : m'.WF)
    (hwidth : m'.width = m.width) (hheight : m'.height = m.height)
    (hx : x < m.width) (hy0 : 1 ≤ y) (hy1 : y < m.height)
    (hbefore : ∀ i j : Nat, i < m.width → 1 ≤ j → (j < y ∨ (j = y ∧ i < x)) →
      m.tile i j ≠ .WATER)
    (hcell : settleCell y m x = .ok m')
    (hafter : ∀ i j : Nat, i < m.width → j < m.height → (y < j ∨ (j = y ∧ x < i)) →
      m'.tile i j ≠ .WATER) :
    settleWater m = .ok m' := by
  have hrow : settleRow m y = .ok m' := by
    unfold settleRow
    rw [List.range_eq_range', range'_split 0 m.width x hx]
    apply foldlM_single
    · intro i hi
      have := List.mem_range'_1.mp hi
      exact settleCell_skip y m i hwf hy1 (hbefore i y (by omega) hy0 (Or.inr ⟨rfl, by omega⟩))
    · rw [Nat.zero_add]; exact hcell
    · intro i hi
      have := List.mem_range'_1.mp hi
      exact settleCell_skip y m' i hwf' (by omega)
        (hafter i y (by omega) hy1 (Or.inr ⟨rfl, by omega⟩))
  unfold settleWater
  have hsplit := range'_split 1 (m.height - 1) (y - 1) (by omega)
  have e1 : 1 + (y - 1) = y := by omega
  rw [e1] at hsplit
  rw [hsplit]
  apply foldlM_single
  · intro j hj
    have := List.mem_range'_1.mp hj
    exact settleRow_skip m j hwf (by omega)
      (fun i hi => hbefore i j hi (by omega) (Or.inl (by omega)))
  · exact hrow
  · intro j hj
    have := List.mem_range'_1.mp hj
    exact settleRow_skip m' j hwf' (by omega)
      (fun i hi => hafter i j (by omega) (by omega) (Or.inl (by omega)))

/-- A sweep of `settleWater` over a grid with no WATER above the floor changes
nothing. -/
theorem settleWater_skip (m : Map) (hwf : m.WF)
    (h : ∀ i j : Nat, i < m.width → 1 ≤ j → j < m.height → m.tile i j ≠ .WATER) :
    settleWater m = .ok m := by
  unfold settleWater
  apply foldlM_skip
  intro j hj
  have := List.mem_range'_1.mp hj
  exact settleRow_skip m j hwf (by omega) (fun i hi => h i j hi (by omega) (by omega))


/-! ## Straight falls -/

theorem wrapX_succ_ne (m : Map) (x : Int) (hw : 2 ≤ m.width) (hx0 : 0 ≤ x)
    (hx1 : x < m.width) : m.wrapX (x + 1) ≠ x := by
  by_cases hlast : x + 1 < m.width
  · rw [wrapX_of_inRange m (x + 1) (by omega) hlast]; omega
  · have e : x + 1 = (m.width : Int) := by omega
    rw [e, wrapX_eq_emod m _ (by omega), Int.emod_self]
    omega

theorem wrapX_pred_ne (m : Map) (x : Int) (hw : 2 ≤ m.width) (hx0 : 0 ≤ x)
    (hx1 : x < m.width) : m.wrapX (x - 1) ≠ x := by
  by_cases hfirst : 0 ≤ x - 1
  · rw [wrapX_of_inRange m (x - 1) hfirst (by omega)]; omega
  · have e : x - 1 = -1 + 0 * (m.width : Int) := by omega
    have hmod : (-1 : Int) % (m.width : Int) = m.width - 1 := by
      have h1 : (-1 : Int) = (m.width - 1) + (-1) * (m.width : Int) := by ring
      rw [h1, Int.add_mul_emod_self]
      exact Int.emod_eq_of_lt (by omega) (by omega)
    rw [e, wrapX_eq_emod m _ (by omega), Int.add_mul_emod_self, hmod]
    omega

/-- On a grid of width at least 2, a search that starts above an EMPTY cell
succeeds at once, at the start column. -/
theorem findFall_straight (m : Map) (d x y : Int) (hwf : m.WF) (hw : 2 ≤ m.width)
    (hx0 : 0 ≤ x) (hx1 : x < m.width) (hy0 : 0 < y) (hy1 : y < m.height)
    (hd : d = 1 ∨ d = -1) (hbelow : m.tile x (y - 1) = .EMPTY) :
    findFall m d x y = .ok x := by
  have hne : x ≠ m.wrapX (x - d) := by
    rcases hd with hd | hd
    · rw [hd]; exact (wrapX_pred_ne m x hw hx0 hx1).symm
    · rw [hd, sub_neg_eq_add]; exact (wrapX_succ_ne m x hw hx0 hx1).symm
  unfold findFall
  rw [if_neg (not_not.mpr hd), if_neg (not_not.mpr hy0)]
  unfold findFallLoop
  rw [if_pos hne, getTileType_eq m x (y - 1) hwf (by omega) (by omega), hbelow]
  simp

theorem fallColumn_straight (m : Map) (x y : Int) (hwf : m.WF) (hw : 2 ≤ m.width)
    (hx0 : 0 ≤ x) (hx1 : x < m.width) (hy0 : 0 < y) (hy1 : y < m.height)
    (hbelow : m.tile x (y - 1) = .EMPTY) : fallColumn m x y = .ok (some x) := by
  unfold fallColumn
  rw [findFall_straight m (-1) x y hwf hw hx0 hx1 hy0 hy1 (Or.inr rfl) hbelow]
  simp only []
  rw [if_neg (wrapX_succ_ne m x hw hx0 hx1).symm]

/-- The relocation step for a WATER tile above a column of EMPTY cells reaching
the floor, on a grid of width at least 2: the tile is dropped to the floor of
its own column. -/
theorem moveWaterRelocate_straight_to_floor (m : Map) (x y : Int) (hwf : m.WF)
    (hw : 2 ≤ m.width) (hx0 : 0 ≤ x) (hx1 : x < m.width) (hy0 : 0 < y) (hy1 : y < m.height)
    (hwater : m.tile x y = .WATER) (hcol : ∀ b, 0 ≤ b → b < y → m.tile x b = .EMPTY) :
    moveWaterRelocate m x y = .ok (some ((m.put x 0 .WATER).put x y .EMPTY, x, 0)) ∧
      Dropped m x y x 0 ((m.put x 0 .WATER).put x y .EMPTY) := by
  have hfc := fallColumn_straight m x y hwf hw hx0 hx1 hy0 hy1 (hcol _ (by omega) (by omega))
  obtain ⟨m1, l, hdrop, hd⟩ := dropTile_spec m x y x hwf hy0 hy1 hwater hx0 hx1
    (hcol _ (by omega) (by omega))
  have hl : l = 0 := by
    by_contra hne
    rcases hdrop.2.2.2.2.2.1 with h | h
    · exact hne h
    · exact absurd (hcol (l - 1) (by have := hdrop.2.2.1; omega)
        (by have := hdrop.2.2.2.1; omega)) h
  subst hl
  have hm1 : m1 = (m.put x 0 .WATER).put x y .EMPTY := hdrop.2.2.2.2.2.2
  rw [← hm1]
  refine ⟨?_, hdrop⟩
  unfold moveWaterRelocate
  rw [getTileType_eq m x y hwf (by omega) hy1, hwater]
  simp only [ne_eq, not_true_eq_false, if_false]
  rw [if_neg (by omega), hfc]
  simp only [hd]

/-- A WATER tile above a column of EMPTY cells reaching the floor, on a grid of
width at least 2 and with no WATER to its left, is moved to the floor of its own
column by one `moveWater` call, and nothing else changes. -/
theorem moveWater_straight_to_floor (m : Map) (x y : Int) (hwf : m.WF) (hw : 2 ≤ m.width)
    (hx0 : 0 ≤ x) (hx1 : x < m.width) (hy0 : 0 < y) (hy1 : y < m.height)
    (hwater : m.tile x y = .WATER)
    (hcol : ∀ b, 0 ≤ b → b < y → m.tile x b = .EMPTY)
    (hleft : m.tile (x - 1) y ≠ .WATER) (fuel : Nat) :
    moveWater (fuel + 2) m x y = .ok ((m.put x 0 .WATER).put x y .EMPTY) := by
  obtain ⟨hrel, hdrop⟩ :=
    moveWaterRelocate_straight_to_floor m x y hwf hw hx0 hx1 hy0 hy1 hwater hcol
  generalize hm1 : (m.put x 0 .WATER).put x y .EMPTY = m1 at hrel hdrop
  have hwf1 := hdrop.wf hwf
  have hh1 := hdrop.height_eq
  have hrec : moveWater (fuel + 1) m1 x 0 = .ok m1 := by
    rw [moveWater_succ]
    have : moveWaterRelocate m1 x 0 = .ok none := by
      unfold moveWaterRelocate
      rw [getTileType_eq m1 x 0 hwf1 (le_refl _) (by rw [hh1]; omega),
        hdrop.target_water hwf hx0 hx1 hy1]
      simp
    rw [this]
  rw [moveWater_succ, hrel]
  simp only []
  rw [hrec]
  simp only []
  rw [getTileType_eq m1 x y hwf1 (by omega) (by rw [hh1]; exact hy1),
    hdrop.source_empty hwf hx0 hx1 hy1,
    getTileType_eq m1 (x - 1) y hwf1 (by omega) (by rw [hh1]; exact hy1)]
  simp only [ne_eq, not_true_eq_false, if_false]
  have hl1 : m1.tile (x - 1) y = m.tile (x - 1) y := by
    rw [hdrop.tile_eq hwf hx0 hx1 hy1 (x - 1) y (by omega),
      if_neg (fun h => wrapX_pred_ne m x hw hx0 hx1 h.1),
      if_neg (fun h => by have := h.2; omega)]
  rw [hl1, if_neg hleft]

theorem potential_ge_row (m : Map) (x y : Int) (hwf : m.WF) (hy0 : 0 ≤ y)
    (hy1 : y < m.height) (hwater : m.tile x y = .WATER) : y.toNat ≤ m.potential := by
  have h := potential_put m x y .EMPTY hwf hy0 hy1
  rw [hwater] at h
  simp at h
  omega


theorem tile_put_put (m : Map) (c l x y : Int) (t1 t2 : TileType) (hwf : m.WF)
    (hl0 : 0 ≤ l) (hl1 : l < m.height) (hy0 : 0 ≤ y) (hy1 : y < m.height)
    (a b : Int) (hb : 0 ≤ b) :
    ((m.put c l t1).put x y t2).tile a b =
      if m.wrapX a = m.wrapX x ∧ b = y then t2
      else if m.wrapX a = m.wrapX c ∧ b = l then t1 else m.tile a b := by
  rw [tile_put _ x y _ a b (put_WF _ _ _ _ hwf) hy0 (by simpa using hy1) hb,
    tile_put m c l _ a b hwf hl0 hl1 hb, put_wrapX, put_wrapX]

theorem settleCell_straight_to_floor (m : Map) (x y : Nat) (hwf : m.WF) (hw : 2 ≤ m.width)
    (hx1 : x < m.width) (hy0 : 0 < y) (hy1 : y < m.height)
    (hwater : m.tile x y = .WATER)
    (hcol : ∀ b : Int, 0 ≤ b → b < y → m.tile x b = .EMPTY)
    (hleft : m.tile ((x : Int) - 1) y ≠ .WATER) :
    settleCell y m x = .ok ((m.put x 0 .WATER).put x y .EMPTY) := by
  unfold settleCell
  rw [getTileType_eq m x y hwf (by omega) (by omega), hwater]
  simp only [if_true]
  have hp := potential_ge_row m x y hwf (by omega) (by omega) hwater
  have hf : m.moveFuel = (m.potential - 1) + 2 := by
    unfold Map.moveFuel
    have : (y : Int).toNat = y := Int.toNat_ofNat y
    omega
  rw [hf]
  exact moveWater_straight_to_floor m x y hwf hw (by omega) (by omega) (by omega) (by omega)
    hwater hcol hleft _

/-! ## C4: a single drop falls to the floor of its column -/

/-- C4 (single-drop scenario). On a well-formed grid of width at least 2 whose
only non-EMPTY cell is a WATER tile at `(x, y)`, `settleWater` returns a grid of
the same dimensions with WATER at `(x, 0)` and EMPTY in every other cell. -/
theorem single_drop_settles_on_floor (m : Map) (x y : Int) (hwf : m.WF) (hw : 2 ≤ m.width)
    (hx0 : 0 ≤ x) (hx1 : x < m.width)
    (hwater : m.getTileType x y = .ok .WATER)
    (hempty : ∀ a b : Int, 0 ≤ a → a < m.width → 0 ≤ b → b < m.height →
      (a ≠ x ∨ b ≠ y) → m.getTileType a b = .ok .EMPTY) :
    ∃ m', settleWater m = .ok m' ∧ m'.width = m.width ∧ m'.height = m.height ∧
      m'.getTileType x 0 = .ok .WATER ∧
      ∀ a b : Int, 0 ≤ a → a < m.width → 0 ≤ b → b < m.height →
        (a ≠ x ∨ b ≠ 0) → m'.getTileType a b = .ok .EMPTY := by
  obtain ⟨hy0, hy1, htile⟩ := getTileType_ok m x y _ hwf hwater
  have hE : ∀ a b : Int, 0 ≤ a → a < m.width → 0 ≤ b → b < m.height →
      (a ≠ x ∨ b ≠ y) → m.tile a b = .EMPTY := by
    intro a b ha0 ha1 hb0 hb1 hne
    exact (getTileType_ok m a b _ hwf (hempty a b ha0 ha1 hb0 hb1 hne)).2.2
  by_cases hz : y = 0
  · subst hz
    refine ⟨m, ?_, rfl, rfl, hwater, hempty⟩
    apply settleWater_skip m hwf
    intro i j hi hj0 hj1
    rw [hE i j (by omega) (by omega) (by omega) (by omega) (Or.inr (by omega))]
    decide
  · obtain ⟨xn, rfl⟩ := Int.eq_ofNat_of_zero_le hx0
    obtain ⟨yn, rfl⟩ := Int.eq_ofNat_of_zero_le hy0
    have hxn : xn < m.width := by omega
    have hyn0 : 0 < yn := by omega
    have hyn1 : yn < m.height := by omega
    have hwf' : ((m.put xn 0 .WATER).put xn yn .EMPTY).WF := put_WF _ _ _ _ (put_WF _ _ _ _ hwf)
    have htp := tile_put_put m xn 0 xn yn .WATER .EMPTY hwf (le_refl _) (by omega) hy0 hy1
    have hwx := wrapX_of_inRange m xn hx0 hx1
    refine ⟨(m.put xn 0 .WATER).put xn yn .EMPTY, ?_, rfl, rfl, ?_, ?_⟩
    · apply settleWater_single m _ xn yn hwf hwf' rfl rfl hxn hyn0 hyn1
      · intro i j hi hj0 hj
        rw [hE i j (by omega) (by omega) (by omega) (by omega) (by omega)]
        decide
      · apply settleCell_straight_to_floor m xn yn hwf hw hxn hyn0 hyn1 htile
        · intro b hb0 hb1
          exact hE xn b hx0 hx1 hb0 (by omega) (Or.inr (by omega))
        · rw [← tile_wrapX_arg m _ _ hwf.1,
            hE _ yn (wrapX_nonneg m _ hwf.1) (wrapX_lt m _ hwf.1) hy0 hy1
              (Or.inl (wrapX_pred_ne m xn hw hx0 hx1))]
          decide
      · intro i j hi hj hpos
        rw [htp i j (by omega), wrapX_of_inRange m i (by omega) (by omega), hwx]
        by_cases h1 : (i : Int) = xn ∧ (j : Int) = yn
        · rw [if_pos h1]; decide
        · rw [if_neg h1, if_neg (by intro h; omega),
            hE i j (by omega) (by omega) (by omega) (by omega) (by omega)]
          decide
    · rw [getTileType_eq _ _ 0 hwf' (le_refl _) (by show (0 : Int) < m.height; omega),
        htp xn 0 (le_refl _), hwx, if_neg (by intro h; omega), if_pos ⟨rfl, rfl⟩]
    · intro a b ha0 ha1 hb0 hb1 hne
      rw [getTileType_eq _ a b hwf' hb0 hb1, htp a b hb0, wrapX_of_inRange m a ha0 ha1, hwx]
      by_cases h1 : a = xn ∧ b = yn
      · rw [if_pos h1]
      · rw [if_neg h1, if_neg (by intro h; omega),
          hE a b ha0 ha1 hb0 hb1 (by omega)]


/-- Witness for `single_drop_settles_on_floor`: the 10 x 10 grid of the
scenario, with its WATER tile at `(5, 9)`; the tile ends at `(5, 0)`. -/
theorem single_drop_settles_on_floor_witness :
    ∃ m', settleWater dropGrid = .ok m' ∧ m'.width = dropGrid.width ∧
      m'.height = dropGrid.height ∧ m'.getTileType 5 0 = .ok .WATER ∧
      ∀ a b : Int, 0 ≤ a → a < dropGrid.width → 0 ≤ b → b < dropGrid.height →
        (a ≠ 5 ∨ b ≠ 0) → m'.getTileType a b = .ok .EMPTY :=
  single_drop_settles_on_floor dropGrid 5 9 (by decide) (by decide) (by decide) (by decide)
    (by decide)
    (by
      intro a b ha0 ha1 hb0 hb1 hne
      have ha : a < 10 := ha1
      have hb : b < 10 := hb1
      interval_cases a <;> interval_cases b <;> first | rfl | (exfalso; omega))

/-! ## C5: the pit scenario -/

/-- C5 (pit scenario). On a well-formed grid of width 3 and height at least 2
with EMPTY at `(1, 0)`, WATER at `(1, 1)` and EMPTY in every other cell above
the floor, whatever the tiles `s0` and `s2` at `(0, 0)` and `(2, 0)` (solid ones
in particular): the fall column chosen for the tile is its own column 1, and
`settleWater` returns the grid of that single relocation to `(1, 0)`, with
`(1, 1)` EMPTY, `s0` and `s2` in place and every other cell still EMPTY. -/
theorem pit_settles_straight_down (m : Map) (s0 s2 : TileType) (hwf : m.WF)
    (hw : m.width = 3) (hh : 2 ≤ m.height)
    (h00 : m.getTileType 0 0 = .ok s0) (h20 : m.getTileType 2 0 = .ok s2)
    (h10 : m.getTileType 1 0 = .ok .EMPTY) (h11 : m.getTileType 1 1 = .ok .WATER)
    (hrest : ∀ a b : Int, 0 ≤ a → a < 3 → 1 ≤ b → b < m.height → (a ≠ 1 ∨ b ≠ 1) →
      m.getTileType a b = .ok .EMPTY) :
    ∃ m', settleWater m = .ok m' ∧
      fallColumn m 1 1 = .ok (some 1) ∧
      moveWaterRelocate m 1 1 = .ok (some (m', 1, 0)) ∧
      m'.getTileType 1 0 = .ok .WATER ∧ m'.getTileType 1 1 = .ok .EMPTY ∧
      m'.getTileType 0 0 = .ok s0 ∧ m'.getTileType 2 0 = .ok s2 ∧
      ∀ a b : Int, 0 ≤ a → a < 3 → 1 ≤ b → b < m.height → (a ≠ 1 ∨ b ≠ 1) →
        m'.getTileType a b = .ok .EMPTY := by
  have hw2 : 2 ≤ m.width := by omega
  have hwi : (m.width : Int) = 3 := by exact_mod_cast hw
  have hhi : (2 : Int) ≤ m.height := by exact_mod_cast hh
  have t00 := (getTileType_ok m 0 0 _ hwf h00).2.2
  have t20 := (getTileType_ok m 2 0 _ hwf h20).2.2
  have t10 := (getTileType_ok m 1 0 _ hwf h10).2.2
  have t11 := (getTileType_ok m 1 1 _ hwf h11).2.2
  have hE : ∀ a b : Int, 0 ≤ a → a < 3 → 1 ≤ b → b < m.height → (a ≠ 1 ∨ b ≠ 1) →
      m.tile a b = .EMPTY := by
    intro a b ha0 ha1 hb0 hb1 hne
    exact (getTileType_ok m a b _ hwf (hrest a b ha0 ha1 hb0 hb1 hne)).2.2
  have hcol : ∀ b : Int, 0 ≤ b → b < 1 → m.tile 1 b = .EMPTY := by
    intro b hb0 hb1
    have : b = 0 := by omega
    rw [this]; exact t10
  have hwf' : ((m.put 1 0 .WATER).put 1 1 .EMPTY).WF := put_WF _ _ _ _ (put_WF _ _ _ _ hwf)
  have htp := tile_put_put m 1 0 1 1 .WATER .EMPTY hwf (le_refl _) (by omega) (by omega)
    (by omega)
  have hwx : ∀ a : Int, 0 ≤ a → a < 3 → m.wrapX a = a :=
    fun a h0 h1 => wrapX_of_inRange m a h0 (by omega)
  obtain ⟨hrel, _⟩ := moveWaterRelocate_straight_to_floor m 1 1 hwf hw2 (by omega) (by omega)
    (by omega) (by omega) t11 hcol
  refine ⟨(m.put 1 0 .WATER).put 1 1 .EMPTY, ?_, ?_, hrel, ?_, ?_, ?_, ?_, ?_⟩
  · apply settleWater_single m _ 1 1 hwf hwf' rfl rfl (by omega) (le_refl _) (by omega)
    · intro i j hi hj0 hj
      rw [hE i j (by omega) (by omega) (by omega) (by omega) (by omega)]
      decide
    · apply settleCell_straight_to_floor m 1 1 hwf hw2 (by omega) (by omega) (by omega) t11 hcol
      show m.tile 0 1 ≠ .WATER
      rw [hE 0 1 (by omega) (by omega) (by omega) (by omega) (by omega)]
      decide
    · intro i j hi hj hpos
      rw [htp i j (by omega), hwx i (by omega) (by omega), hwx 1 (by omega) (by omega)]
      by_cases h1 : (i : Int) = 1 ∧ (j : Int) = 1
      · rw [if_pos h1]; decide
      · rw [if_neg h1, if_neg (by intro h; omega),
          hE i j (by omega) (by omega) (by omega) (by omega) (by omega)]
        decide
  · exact fallColumn_straight m 1 1 hwf hw2 (by omega) (by omega) (by omega) (by omega) t10
  · rw [getTileType_eq _ _ 0 hwf' (le_refl _) (by show (0 : Int) < m.height; omega),
      htp 1 0 (le_refl _), if_neg (by intro h; omega), if_pos ⟨rfl, rfl⟩]
  · rw [getTileType_eq _ _ 1 hwf' (by omega) (by show (1 : Int) < m.height; omega),
      htp 1 1 (by omega), if_pos ⟨rfl, rfl⟩]
  · rw [getTileType_eq _ _ 0 hwf' (le_refl _) (by show (0 : Int) < m.height; omega),
      htp 0 0 (le_refl _), hwx 0 (by omega) (by omega), hwx 1 (by omega) (by omega),
      if_neg (by intro h; omega), if_neg (by intro h; omega), t00]
  · rw [getTileType_eq _ _ 0 hwf' (le_refl _) (by show (0 : Int) < m.height; omega),
      htp 2 0 (le_refl _), hwx 2 (by omega) (by omega), hwx 1 (by omega) (by omega),
      if_neg (by intro h; omega), if_neg (by intro h; omega), t20]
  · intro a b ha0 ha1 hb0 hb1 hne
    rw [getTileType_eq _ a b hwf' (by omega) hb1, htp a b (by omega), hwx a ha0 ha1,
      hwx 1 (by omega) (by omega)]
    by_cases h1 : a = 1 ∧ b = 1
    · rw [if_pos h1]
    · rw [if_neg h1, if_neg (by intro h; omega), hE a b ha0 ha1 hb0 hb1 (by omega)]

/-- Witness for `pit_settles_straight_down`: the 3 x 2 pit with STONE walls. -/
theorem pit_settles_straight_down_witness :
    ∃ m', settleWater pitGrid = .ok m' ∧
      fallColumn pitGrid 1 1 = .ok (some 1) ∧
      moveWaterRelocate pitGrid 1 1 = .ok (some (m', 1, 0)) ∧
      m'.getTileType 1 0 = .ok .WATER ∧ m'.getTileType 1 1 = .ok .EMPTY ∧
      m'.getTileType 0 0 = .ok .STONE ∧ m'.getTileType 2 0 = .ok .STONE ∧
      ∀ a b : Int, 0 ≤ a → a < 3 → 1 ≤ b → b < pitGrid.height → (a ≠ 1 ∨ b ≠ 1) →
        m'.getTileType a b = .ok .EMPTY :=
  pit_settles_straight_down pitGrid .STONE .STONE (by decide) (by decide) (by decide)
    (by decide) (by decide) (by decide) (by decide)
    (by
      intro a b ha0 ha1 hb0 hb1 hne
      have hb : b < 2 := hb1
      interval_cases a <;> interval_cases b <;> first | rfl | (exfalso; omega))


/-! ## The record of the walk of findFall -/

theorem findFallTraceLoop_fst (m : Map) (d x y : Int) :
    ∀ (fuel : Nat) (current : Int) (seen : List Int),
      (findFallTraceLoop m d x y fuel current seen).map Prod.fst
        = findFallLoop m d x y fuel current := by
  intro fuel
  induction fuel with
  | zero => intro current seen; rfl
  | succ fuel ih =>
    intro current seen
    unfold findFallTraceLoop findFallLoop
    by_cases hs : current ≠ m.wrapX (x - d)
    · rw [if_pos hs, if_pos hs]
      cases hb : m.getTileType current (y - 1) with
      | error e => rfl
      | ok belowTile =>
        simp only []
        by_cases he : belowTile = .EMPTY
        · rw [if_pos he, if_pos he]; rfl
        · rw [if_neg he, if_neg he]
          cases hr : m.getTileType current y with
          | error e => rfl
          | ok inTheWay =>
            simp only []
            by_cases ho : inTheWay ≠ .EMPTY ∧ current ≠ x
            · rw [if_pos ho, if_pos ho]; exact ih _ _
            · rw [if_neg ho, if_neg ho]; exact ih _ _
    · rw [if_neg hs, if_neg hs]; rfl

/-- The instrumented search computes the result of `findFall`. -/
theorem findFallTrace_fst (m : Map) (d x y : Int) :
    (findFallTrace m d x y).map Prod.fst = findFall m d x y := by
  unfold findFallTrace findFall
  by_cases hd : ¬ (d = 1 ∨ d = -1)
  · rw [if_pos hd, if_pos hd]; rfl
  · rw [if_neg hd, if_neg hd]
    by_cases hy : ¬ (y > 0)
    · rw [if_pos hy, if_pos hy]; rfl
    · rw [if_neg hy, if_neg hy]
      exact findFallTraceLoop_fst m d x y _ _ _

theorem walked_succ (m : Map) (d x : Int) (k : Nat) :
    (List.range k).map (walkColumn m d x) ++ [walkColumn m d x k]
      = (List.range (k + 1)).map (walkColumn m d x) := by
  rw [List.range_succ, List.map_append]
  rfl

theorem findFallTraceLoop_sentinel (m : Map) (d x y : Int) (fuel : Nat) (seen : List Int) :
    findFallTraceLoop m d x y (fuel + 1) (m.wrapX (x - d)) seen
      = .ok (m.wrapX (x - d), seen) := by
  unfold findFallTraceLoop
  simp

/-- Shape of the record: the examined columns are the first `n` columns of the
walk, `n ≤ width - 1`; either the search fails and none of them is viable, or it
succeeds at the last of them. -/
theorem findFallTraceLoop_spec (m : Map) (d x y : Int) (hwf : m.WF)
    (hx0 : 0 ≤ x) (hx1 : x < m.width) (hy0 : 0 < y) (hy1 : y < m.height)
    (hd : d = 1 ∨ d = -1) :
    ∀ (fuel k : Nat), k + 1 ≤ m.width → m.width + 1 ≤ fuel + k →
      (∀ j, j < k → m.tile (walkColumn m d x j) (y - 1) ≠ .EMPTY) →
      (∀ j, 0 < j → j < k → m.tile (walkColumn m d x j) y = .EMPTY) →
      ∃ c n, findFallTraceLoop m d x y fuel (walkColumn m d x k)
          ((List.range k).map (walkColumn m d x))
            = .ok (c, (List.range n).map (walkColumn m d x)) ∧
        n + 1 ≤ m.width ∧
        ((c = m.wrapX (x - d) ∧ ∀ j, j < n → m.tile (walkColumn m d x j) (y - 1) ≠ .EMPTY) ∨
          ∃ k', n = k' + 1 ∧ FallAt m d x y k' ∧ c = walkColumn m d x k') := by
  have hw := hwf.1
  intro fuel
  induction fuel with
  | zero => intro k hk hf; omega
  | succ fuel ih =>
    intro k hk hf hbelow hrow
    by_cases hs : walkColumn m d x k = m.wrapX (x - d)
    · rw [hs]
      exact ⟨_, k, findFallTraceLoop_sentinel m d x y fuel _, hk, Or.inl ⟨rfl, hbelow⟩⟩
    · have hk2 : k + 1 < m.width := by
        have := (walkColumn_eq_sentinel m d x k hw hd hk).not.mp hs
        omega
      unfold findFallTraceLoop
      rw [if_pos hs, getTileType_eq m _ (y - 1) hwf (by omega) (by omega)]
      simp only []
      by_cases hb : m.tile (walkColumn m d x k) (y - 1) = .EMPTY
      · rw [if_pos hb, walked_succ]
        exact ⟨_, k + 1, rfl, by omega, Or.inr ⟨k, rfl, ⟨hk2, hb, hbelow, hrow⟩, rfl⟩⟩
      · have hbelow' : ∀ j, j < k + 1 → m.tile (walkColumn m d x j) (y - 1) ≠ .EMPTY := by
          intro j hj
          by_cases hjk : j = k
          · rw [hjk]; exact hb
          · exact hbelow j (by omega)
        rw [if_neg hb, getTileType_eq m _ y hwf (by omega) hy1]
        simp only []
        by_cases hobs : m.tile (walkColumn m d x k) y ≠ .EMPTY ∧ walkColumn m d x k ≠ x
        · rw [if_pos hobs, walked_succ]
          obtain ⟨f2, hf2⟩ : ∃ f2, fuel = f2 + 1 := ⟨fuel - 1, by omega⟩
          rw [hf2]
          exact ⟨_, k + 1, findFallTraceLoop_sentinel m d x y f2 _, by omega,
            Or.inl ⟨rfl, hbelow'⟩⟩
        · rw [if_neg hobs, walkColumn_succ m d x k hw, walked_succ]
          apply ih (k + 1) (by omega) (by omega) hbelow'
          intro j hj0 hj
          by_cases hjk : j = k
          · rw [hjk]
            by_contra hne
            apply hobs
            refine ⟨hne, ?_⟩
            intro hst
            have := (walkColumn_eq_start m d x k hx0 hx1 hd (by omega)).mp hst
            omega
          · exact hrow j hj0 (by omega)

theorem findFallTrace_spec (m : Map) (d x y : Int) (hwf : m.WF)
    (hx0 : 0 ≤ x) (hx1 : x < m.width) (hy0 : 0 < y) (hy1 : y < m.height)
    (hd : d = 1 ∨ d = -1) :
    ∃ c n, findFallTrace m d x y = .ok (c, (List.range n).map (walkColumn m d x)) ∧
      findFall m d x y = .ok c ∧ n + 1 ≤ m.width ∧
      ((c = m.wrapX (x - d) ∧ ∀ j, j < n → m.tile (walkColumn m d x j) (y - 1) ≠ .EMPTY) ∨
        ∃ k', n = k' + 1 ∧ FallAt m d x y k' ∧ c = walkColumn m d x k') := by
  have h := findFallTraceLoop_spec m d x y hwf hx0 hx1 hy0 hy1 hd (m.width + 1) 0
    (by have := hwf.1; omega) (by omega) (by intro j hj; omega) (by intro j _ hj; omega)
  rw [walkColumn_zero m d x hx0 hx1] at h
  obtain ⟨c, n, hrun, hn, hcase⟩ := h
  have htrace : findFallTrace m d x y = .ok (c, (List.range n).map (walkColumn m d x)) := by
    unfold findFallTrace
    rw [if_neg (not_not.mpr hd), if_neg (not_not.mpr hy0)]
    exact hrun
  refine ⟨c, n, htrace, ?_, hn, hcase⟩
  rw [← findFallTrace_fst, htrace]
  rfl

theorem walkColumn_inj (m : Map) (d x : Int) (i j : Nat) (hd : d = 1 ∨ d = -1)
    (hi : i < m.width) (hj : j < m.width)
    (h : walkColumn m d x i = walkColumn m d x j) : i = j := by
  have hw : 0 < m.width := by omega
  unfold walkColumn at h
  rw [wrapX_eq_emod m _ hw, wrapX_eq_emod m _ hw, Int.emod_eq_emod_iff_emod_sub_eq_zero,
    ← Int.dvd_iff_emod_eq_zero] at h
  have h2 : (m.width : Int) ∣ ((i : Int) - j) * d := by
    have e : x + (i : Int) * d - (x + (j : Int) * d) = ((i : Int) - j) * d := by ring
    rw [← e]; exact h
  have h3 := dvd_of_dvd_mul_dir _ _ d hd h2
  by_contra hne
  rcases Nat.lt_or_gt_of_ne hne with hlt | hgt
  · have h4 : (m.width : Int) ∣ (j : Int) - i := by
      have := (Int.dvd_neg).mpr h3
      rwa [neg_sub] at this
    have := Int.le_of_dvd (by omega) h4
    omega
  · have := Int.le_of_dvd (by omega) h3
    omega


/-! ## C2: water left floating after a pass -/

/-- C2 (no-float invariant) evaluated on two grids. On `cascadeGrid` one pass
of `settleWater` returns `cascadeGridSettled`, in which the WATER tile of
`(2, 3)` stands above the EMPTY cell `(2, 2)` although its left neighbour
`(1, 3)` is EMPTY. On `narrowGrid`, of width 1, the pass changes nothing and the
WATER tile of `(0, 1)` stays above the EMPTY cell `(0, 0)`. -/
theorem settleWater_leaves_floating_water :
    (settleWater cascadeGrid = .ok cascadeGridSettled ∧
      cascadeGridSettled.getTileType 2 3 = .ok .WATER ∧
      cascadeGridSettled.getTileType 2 2 = .ok .EMPTY ∧
      cascadeGridSettled.getTileType 1 3 = .ok .EMPTY) ∧
    (settleWater narrowGrid = .ok narrowGrid ∧
      narrowGrid.getTileType 0 1 = .ok .WATER ∧
      narrowGrid.getTileType 0 0 = .ok .EMPTY) := by
  decide


/-! ## C6: findFall reports the nearest viable column -/

/-- C6 (nearest viable column). For a well-formed grid, a direction `d` of `1`
or `-1`, a column `x` of the grid and a row `y` with `0 < y < height`, `findFall`
returns a column `c`; when `c` is not the failure value `wrapX(x - d)`, the cell
`(c, y - 1)` is EMPTY, `c` is the last column the search examined, the examined
columns are the first columns of the walk from `x` (itself the first of them)
in direction `d`, and every column examined before `c` has a non-EMPTY cell at
row `y - 1`. -/
theorem findFall_reports_nearest_viable (m : Map) (d x y : Int) (hwf : m.WF)
    (hd : d = 1 ∨ d = -1) (hx0 : 0 ≤ x) (hx1 : x < m.width)
    (hy0 : 0 < y) (hy1 : y < m.height) :
    ∃ c visited, findFallTrace m d x y = .ok (c, visited) ∧ findFall m d x y = .ok c ∧
      (c ≠ m.wrapX (x - d) →
        m.getTileType c (y - 1) = .ok .EMPTY ∧
        ∃ k : Nat, k + 1 < m.width ∧ c = walkColumn m d x k ∧ walkColumn m d x 0 = x ∧
          visited = (List.range (k + 1)).map (walkColumn m d x) ∧
          ∀ j, j < k →
            ∃ t, m.getTileType (walkColumn m d x j) (y - 1) = .ok t ∧ t ≠ .EMPTY) := by
  obtain ⟨c, n, htrace, hfind, _, hcase⟩ := findFallTrace_spec m d x y hwf hx0 hx1 hy0 hy1 hd
  refine ⟨c, _, htrace, hfind, ?_⟩
  intro hne
  rcases hcase with ⟨hs, _⟩ | ⟨k, hn, hfall, hc⟩
  · exact absurd hs hne
  · refine ⟨?_, k, hfall.1, hc, walkColumn_zero m d x hx0 hx1, by rw [hn], ?_⟩
    · rw [getTileType_eq m c (y - 1) hwf (by omega) (by omega), hc, hfall.2.1]
    · intro j hj
      exact ⟨_, getTileType_eq m _ (y - 1) hwf (by omega) (by omega), hfall.2.2.1 j hj⟩

/-- Witness for `findFall_reports_nearest_viable`: the search to the left from
`(1, 1)` on `ledgeGrid`. -/
theorem findFall_reports_nearest_viable_witness :
    ∃ c visited, findFallTrace ledgeGrid (-1) 1 1 = .ok (c, visited) ∧
      findFall ledgeGrid (-1) 1 1 = .ok c ∧
      (c ≠ ledgeGrid.wrapX (1 - (-1)) →
        ledgeGrid.getTileType c (1 - 1) = .ok .EMPTY ∧
        ∃ k : Nat, k + 1 < ledgeGrid.width ∧ c = walkColumn ledgeGrid (-1) 1 k ∧
          walkColumn ledgeGrid (-1) 1 0 = 1 ∧
          visited = (List.range (k + 1)).map (walkColumn ledgeGrid (-1) 1) ∧
          ∀ j, j < k →
            ∃ t, ledgeGrid.getTileType (walkColumn ledgeGrid (-1) 1 j) (1 - 1) = .ok t ∧
              t ≠ .EMPTY) :=
  findFall_reports_nearest_viable ledgeGrid (-1) 1 1 (by decide) (by decide) (by decide)
    (by decide) (by decide) (by decide)

/-! ## C7: lateral obstruction -/

/-- C7 as stated fails on `ledgeGrid`: the search to the left from `(1, 1)`
succeeds at column 0, the next column of the walk, although the cell `(0, 1)`
of that column at the travelling row holds STONE. -/
theorem findFall_success_column_not_checked :
    ¬ (∀ c : Int, findFall ledgeGrid (-1) 1 1 = .ok c →
        c ≠ ledgeGrid.wrapX (1 - (-1)) → c ≠ 1 →
        ∀ k : Nat, c = walkColumn ledgeGrid (-1) 1 k →
          ∀ j : Nat, 0 < j → j ≤ k →
            ledgeGrid.getTileType (walkColumn ledgeGrid (-1) 1 j) 1 = .ok .EMPTY) := by
  intro h
  have h1 := h 0 (by decide) (by decide) (by decide) 1 (by decide) 1 (by decide) (by decide)
  revert h1
  decide

/-- C7 as amended. `findFall` returns a column `c`. When `c` is not the failure
value, `c` is a column of the walk and every column strictly between the start
and `c` has an EMPTY cell at row `y` (the cell of `c` itself at row `y` is not
inspected). When the walk reaches a column other than the start whose cell at
row `y` is not EMPTY, without an EMPTY cell below that column or below any
earlier column, the search returns the failure value `wrapX(x - d)`. -/
theorem findFall_lateral_obstruction (m : Map) (d x y : Int) (hwf : m.WF)
    (hd : d = 1 ∨ d = -1) (hx0 : 0 ≤ x) (hx1 : x < m.width)
    (hy0 : 0 < y) (hy1 : y < m.height) :
    ∃ c, findFall m d x y = .ok c ∧
      (c ≠ m.wrapX (x - d) →
        ∃ k : Nat, k + 1 < m.width ∧ c = walkColumn m d x k ∧
          ∀ j, 0 < j → j < k → m.getTileType (walkColumn m d x j) y = .ok .EMPTY) ∧
      (∀ k : Nat, 0 < k → k + 1 < m.width →
        (∀ j, j ≤ k →
          ∃ t, m.getTileType (walkColumn m d x j) (y - 1) = .ok t ∧ t ≠ .EMPTY) →
        (∃ t, m.getTileType (walkColumn m d x k) y = .ok t ∧ t ≠ .EMPTY) →
        c = m.wrapX (x - d)) := by
  obtain ⟨c, hfind, hcase⟩ := findFall_spec m d x y hwf hx0 hx1 hy0 hy1 hd
  refine ⟨c, hfind, ?_, ?_⟩
  · intro hne
    rcases hcase with hs | ⟨k, hfall, hc⟩
    · exact absurd hs hne
    · refine ⟨k, hfall.1, hc, ?_⟩
      intro j hj0 hj
      rw [getTileType_eq m _ y hwf (by omega) hy1, hfall.2.2.2 j hj0 hj]
  · intro k hk0 hk1 hbelow hblock
    rcases hcase with hs | ⟨k', hfall, hc⟩
    · exact hs
    · exfalso
      obtain ⟨t, ht, htne⟩ := hblock
      have htile := (getTileType_ok m _ y t hwf ht).2.2
      by_cases hle : k' ≤ k
      · obtain ⟨t', ht', htne'⟩ := hbelow k' hle
        have htile' := (getTileType_ok m _ (y - 1) t' hwf ht').2.2
        rw [hfall.2.1] at htile'
        exact htne' htile'.symm
      · have := hfall.2.2.2 k hk0 (by omega)
        rw [this] at htile
        exact htne htile.symm

/-- Witness for `findFall_lateral_obstruction`: the search to the left from
`(1, 1)` on `ledgeGrid`. -/
theorem findFall_lateral_obstruction_witness :
    ∃ c, findFall ledgeGrid (-1) 1 1 = .ok c ∧
      (c ≠ ledgeGrid.wrapX (1 - (-1)) →
        ∃ k : Nat, k + 1 < ledgeGrid.width ∧ c = walkColumn ledgeGrid (-1) 1 k ∧
          ∀ j, 0 < j → j < k →
            ledgeGrid.getTileType (walkColumn ledgeGrid (-1) 1 j) 1 = .ok .EMPTY) ∧
      (∀ k : Nat, 0 < k → k + 1 < ledgeGrid.width →
        (∀ j, j ≤ k →
          ∃ t, ledgeGrid.getTileType (walkColumn ledgeGrid (-1) 1 j) (1 - 1) = .ok t ∧
            t ≠ .EMPTY) →
        (∃ t, ledgeGrid.getTileType (walkColumn ledgeGrid (-1) 1 k) 1 = .ok t ∧ t ≠ .EMPTY) →
        c = ledgeGrid.wrapX (1 - (-1))) :=
  findFall_lateral_obstruction ledgeGrid (-1) 1 1 (by decide) (by decide) (by decide)
    (by decide) (by decide) (by decide)

/-! ## C8: the search is bounded and never revisits its start -/

/-- C8 (termination without revisiting the start). For a well-formed grid, a
direction `d` of `1` or `-1`, a column `x` of the grid and a row `y` with
`0 < y < height`, `findFall` returns a column `c` within its fuel; it examines
at most `width - 1` columns, no column twice, the start column `x` at the first
position only, and `c` is the failure value `wrapX(x - d)` when the cell below
every examined column is non-EMPTY. -/
theorem findFall_walk_bounded (m : Map) (d x y : Int) (hwf : m.WF)
    (hd : d = 1 ∨ d = -1) (hx0 : 0 ≤ x) (hx1 : x < m.width)
    (hy0 : 0 < y) (hy1 : y < m.height) :
    ∃ c visited, findFallTrace m d x y = .ok (c, visited) ∧ findFall m d x y = .ok c ∧
      visited.length ≤ m.width - 1 ∧ visited.Nodup ∧
      (∀ (i : Nat) (h : i < visited.length), 0 < i → visited[i] ≠ x) ∧
      ((∀ col ∈ visited, ∃ t, m.getTileType col (y - 1) = .ok t ∧ t ≠ .EMPTY) →
        c = m.wrapX (x - d)) := by
  obtain ⟨c, n, htrace, hfind, hn, hcase⟩ := findFallTrace_spec m d x y hwf hx0 hx1 hy0 hy1 hd
  refine ⟨c, _, htrace, hfind, ?_, ?_, ?_, ?_⟩
  · rw [List.length_map, List.length_range]; omega
  · apply List.Nodup.map_on _ (List.nodup_range n)
    intro i hi j hj h
    exact walkColumn_inj m d x i j hd (by have := List.mem_range.mp hi; omega)
      (by have := List.mem_range.mp hj; omega) h
  · intro i h hi
    have hin : i < n := by simpa using h
    rw [List.getElem_map, List.getElem_range]
    intro hst
    have := (walkColumn_eq_start m d x i hx0 hx1 hd (by omega)).mp hst
    omega
  · intro hall
    rcases hcase with ⟨hs, _⟩ | ⟨k, hnk, hfall, hc⟩
    · exact hs
    · exfalso
      have hmem : walkColumn m d x k ∈ (List.range n).map (walkColumn m d x) :=
        List.mem_map.mpr ⟨k, List.mem_range.mpr (by omega), rfl⟩
      obtain ⟨t, ht, htne⟩ := hall _ hmem
      have htile := (getTileType_ok m _ (y - 1) t hwf ht).2.2
      rw [hfall.2.1] at htile
      exact htne htile.symm

/-- Witness for `findFall_walk_bounded`: the search to the right from `(1, 1)`
on `ledgeGrid`. -/
theorem findFall_walk_bounded_witness :
    ∃ c visited, findFallTrace ledgeGrid 1 1 1 = .ok (c, visited) ∧
      findFall ledgeGrid 1 1 1 = .ok c ∧
      visited.length ≤ ledgeGrid.width - 1 ∧ visited.Nodup ∧
      (∀ (i : Nat) (h : i < visited.length), 0 < i → visited[i] ≠ 1) ∧
      ((∀ col ∈ visited, ∃ t, ledgeGrid.getTileType col (1 - 1) = .ok t ∧ t ≠ .EMPTY) →
        c = ledgeGrid.wrapX (1 - 1)) :=
  findFall_walk_bounded ledgeGrid 1 1 1 (by decide) (by decide) (by decide)
    (by decide) (by decide) (by decide)


/-! ## C9: direction priority and stability -/

theorem moveWaterRelocate_of_none (m : Map) (x y : Int) (hwf : m.WF)
    (hy0 : 0 < y) (hy1 : y < m.height) (hwater : m.tile x y = .WATER)
    (hfc : fallColumn m x y = .ok none) : moveWaterRelocate m x y = .ok none := by
  unfold moveWaterRelocate
  rw [getTileType_eq m x y hwf (by omega) hy1, hwater]
  simp only [ne_eq, not_true_eq_false, if_false]
  rw [if_neg (by omega), hfc]

theorem moveWaterRelocate_of_some (m : Map) (x y c l : Int) (m1 : Map) (hwf : m.WF)
    (hy0 : 0 < y) (hy1 : y < m.height) (hwater : m.tile x y = .WATER)
    (hfc : fallColumn m x y = .ok (some c)) (hd : dropTile m x y c = .ok (m1, l)) :
    moveWaterRelocate m x y = .ok (some (m1, c, l)) := by
  unfold moveWaterRelocate
  rw [getTileType_eq m x y hwf (by omega) hy1, hwater]
  simp only [ne_eq, not_true_eq_false, if_false]
  rw [if_neg (by omega), hfc]
  simp only [hd]

theorem moveWaterRelocate_of_success (m : Map) (x y c : Int) (d : Int) (k : Nat) (hwf : m.WF)
    (hy0 : 0 < y) (hy1 : y < m.height) (hwater : m.tile x y = .WATER)
    (hfc : fallColumn m x y = .ok (some c)) (hfall : FallAt m d x y k)
    (hc : c = walkColumn m d x k) :
    ∃ m1 l, moveWaterRelocate m x y = .ok (some (m1, c, l)) ∧ Dropped m x y c l m1 := by
  have hw := hwf.1
  obtain ⟨m1, l, hdrop, hd⟩ := dropTile_spec m x y c hwf hy0 hy1 hwater
    (by rw [hc]; exact walkColumn_nonneg m d x k hw)
    (by rw [hc]; exact walkColumn_lt m d x k hw) (by rw [hc]; exact hfall.2.1)
  exact ⟨m1, l, moveWaterRelocate_of_some m x y c l m1 hwf hy0 hy1 hwater hfc hd, hdrop⟩

/-- C9 (direction priority and stability). For a WATER tile at `(x, y)` with
`y > 0` on a well-formed grid, both searches return; the tile is relocated into
the column returned by `findFall(-1, x, y)` whenever that is not the failure
value `wrapX(x + 1)`, otherwise into the column returned by `findFall(1, x, y)`
when that is not the failure value `wrapX(x - 1)`; when both are failure values
`moveWater` returns the grid unchanged. -/
theorem moveWater_direction_priority (m : Map) (x y : Int) (hwf : m.WF)
    (hx0 : 0 ≤ x) (hx1 : x < m.width) (hy0 : 0 < y)
    (hwater : m.getTileType x y = .ok .WATER) :
    ∃ c1 c2, findFall m (-1) x y = .ok c1 ∧ findFall m 1 x y = .ok c2 ∧
      (c1 ≠ m.wrapX (x + 1) →
        ∃ m1 l, moveWaterRelocate m x y = .ok (some (m1, c1, l))) ∧
      (c1 = m.wrapX (x + 1) → c2 ≠ m.wrapX (x - 1) →
        ∃ m1 l, moveWaterRelocate m x y = .ok (some (m1, c2, l))) ∧
      (c1 = m.wrapX (x + 1) → c2 = m.wrapX (x - 1) →
        moveWaterRelocate m x y = .ok none ∧
        ∀ fuel, moveWater (fuel + 1) m x y = .ok m) := by
  obtain ⟨_, hy1, htile⟩ := getTileType_ok m x y _ hwf hwater
  obtain ⟨c1, h1, hc1⟩ := findFall_spec m (-1) x y hwf hx0 hx1 hy0 hy1 (Or.inr rfl)
  obtain ⟨c2, h2, hc2⟩ := findFall_spec m 1 x y hwf hx0 hx1 hy0 hy1 (Or.inl rfl)
  rw [sub_neg_eq_add] at hc1
  refine ⟨c1, c2, h1, h2, ?_, ?_, ?_⟩
  · intro hne
    have hfc : fallColumn m x y = .ok (some c1) := by
      unfold fallColumn
      rw [h1]
      simp only []
      rw [if_neg hne]
    rcases hc1 with hs | ⟨k, hfall, hc⟩
    · exact absurd hs hne
    · obtain ⟨m1, l, hrel, _⟩ :=
        moveWaterRelocate_of_success m x y c1 (-1) k hwf hy0 hy1 htile hfc hfall hc
      exact ⟨m1, l, hrel⟩
  · intro he hne
    have hfc : fallColumn m x y = .ok (some c2) := by
      unfold fallColumn
      rw [h1]
      simp only []
      rw [if_pos he, h2]
      simp only []
      rw [if_neg hne]
    rcases hc2 with hs | ⟨k, hfall, hc⟩
    · exact absurd hs hne
    · obtain ⟨m1, l, hrel, _⟩ :=
        moveWaterRelocate_of_success m x y c2 1 k hwf hy0 hy1 htile hfc hfall hc
      exact ⟨m1, l, hrel⟩
  · intro he1 he2
    have hfc : fallColumn m x y = .ok none := by
      unfold fallColumn
      rw [h1]
      simp only []
      rw [if_pos he1, h2]
      simp only []
      rw [if_pos he2]
    have hrel := moveWaterRelocate_of_none m x y hwf hy0 hy1 htile hfc
    refine ⟨hrel, ?_⟩
    intro fuel
    rw [moveWater_succ, hrel]

/-- Witness for `moveWater_direction_priority`: the WATER tile at `(1, 1)` of
`ledgeGrid`. -/
theorem moveWater_direction_priority_witness :
    ∃ c1 c2, findFall ledgeGrid (-1) 1 1 = .ok c1 ∧ findFall ledgeGrid 1 1 1 = .ok c2 ∧
      (c1 ≠ ledgeGrid.wrapX (1 + 1) →
        ∃ m1 l, moveWaterRelocate ledgeGrid 1 1 = .ok (some (m1, c1, l))) ∧
      (c1 = ledgeGrid.wrapX (1 + 1) → c2 ≠ ledgeGrid.wrapX (1 - 1) →
        ∃ m1 l, moveWaterRelocate ledgeGrid 1 1 = .ok (some (m1, c2, l))) ∧
      (c1 = ledgeGrid.wrapX (1 + 1) → c2 = ledgeGrid.wrapX (1 - 1) →
        moveWaterRelocate ledgeGrid 1 1 = .ok none ∧
        ∀ fuel, moveWater (fuel + 1) ledgeGrid 1 1 = .ok ledgeGrid) :=
  moveWater_direction_priority ledgeGrid 1 1 (by decide) (by decide) (by decide) (by decide)
    (by decide)

/-! ## C10: one-step drop to the lowest clear cell -/

theorem fallColumn_ok_pos (m : Map) (x y : Int) (r : Option Int)
    (h : fallColumn m x y = .ok r) : 0 < y := by
  by_contra hy
  unfold fallColumn findFall at h
  rw [if_neg (by decide), if_pos hy] at h
  cases h

/-- C10 (one-step drop). When `moveWater` has found the fall column `c` for the
WATER tile of cell `(x, y)` of a well-formed grid, its relocation step succeeds
with a row `l` such that: `0 ≤ l < y`; the cells `(c, l), ..., (c, y - 1)` were
all EMPTY, the destination `(c, l)` included; `l` is the floor or the cell
`(c, l - 1)` is non-EMPTY; in the new grid `(x, y)` is EMPTY, `(c, l)` is WATER
and every other cell of the grid is as before. -/
theorem moveWater_drops_to_lowest_clear (m : Map) (x y c : Int) (hwf : m.WF)
    (hx0 : 0 ≤ x) (hx1 : x < m.width)
    (hwater : m.getTileType x y = .ok .WATER)
    (hfall : fallColumn m x y = .ok (some c)) :
    ∃ m1 l, moveWaterRelocate m x y = .ok (some (m1, c, l)) ∧
      0 ≤ l ∧ l < y ∧
      m.getTileType c l = .ok .EMPTY ∧
      (∀ b, l ≤ b → b < y → m.getTileType c b = .ok .EMPTY) ∧
      (l = 0 ∨ ∃ t, m.getTileType c (l - 1) = .ok t ∧ t ≠ .EMPTY) ∧
      m1.getTileType x y = .ok .EMPTY ∧
      m1.getTileType c l = .ok .WATER ∧
      ∀ a b : Int, 0 ≤ a → a < m.width → 0 ≤ b → b < m.height →
        ¬ (a = x ∧ b = y) → ¬ (a = c ∧ b = l) → m1.getTileType a b = m.getTileType a b := by
  obtain ⟨_, hy1, htile⟩ := getTileType_ok m x y _ hwf hwater
  have hy0 := fallColumn_ok_pos m x y _ hfall
  obtain ⟨r, hr, hcase⟩ := fallColumn_spec m x y hwf hx0 hx1 hy0 hy1
  rw [hfall] at hr
  cases hr
  rcases hcase with hn | ⟨c', hc', hc0, hc1, hbelow⟩
  · cases hn
  · cases hc'
    obtain ⟨m1, l, hdrop, hd⟩ := dropTile_spec m x y c hwf hy0 hy1 htile hc0 hc1 hbelow
    have hrel := moveWaterRelocate_of_some m x y c l m1 hwf hy0 hy1 htile hfall hd
    have hl0 := hdrop.2.2.1
    have hl1 := hdrop.2.2.2.1
    have hwf1 := hdrop.wf hwf
    have hh1 := hdrop.height_eq
    refine ⟨m1, l, hrel, hl0, hl1, ?_, ?_, ?_, ?_, ?_, ?_⟩
    · rw [getTileType_eq m c l hwf hl0 (by omega), hdrop.target_was_empty]
    · intro b hb0 hb1
      rw [getTileType_eq m c b hwf (by omega) (by omega), hdrop.2.2.2.2.1 b hb0 hb1]
    · rcases hdrop.2.2.2.2.2.1 with h | h
      · exact Or.inl h
      · by_cases hz : l = 0
        · exact Or.inl hz
        · exact Or.inr ⟨_, getTileType_eq m c (l - 1) hwf (by omega) (by omega), h⟩
    · rw [getTileType_eq m1 x y hwf1 (by omega) (by rw [hh1]; exact hy1),
        hdrop.source_empty hwf hx0 hx1 hy1]
    · rw [getTileType_eq m1 c l hwf1 hl0 (by rw [hh1]; omega),
        hdrop.target_water hwf hx0 hx1 hy1]
    · intro a b ha0 ha1 hb0 hb1 hne1 hne2
      rw [getTileType_eq m1 a b hwf1 hb0 (by rw [hh1]; exact hb1),
        getTileType_eq m a b hwf hb0 hb1, hdrop.tile_eq hwf hx0 hx1 hy1 a b hb0,
        wrapX_of_inRange m a ha0 ha1, if_neg hne1, if_neg hne2]

/-- Witness for `moveWater_drops_to_lowest_clear`: the WATER tile at `(4, 1)` of
`seamGrid`, whose fall column is 3. -/
theorem moveWater_drops_to_lowest_clear_witness :
    ∃ m1 l, moveWaterRelocate seamGrid 4 1 = .ok (some (m1, 3, l)) ∧
      0 ≤ l ∧ l < 1 ∧
      seamGrid.getTileType 3 l = .ok .EMPTY ∧
      (∀ b, l ≤ b → b < 1 → seamGrid.getTileType 3 b = .ok .EMPTY) ∧
      (l = 0 ∨ ∃ t, seamGrid.getTileType 3 (l - 1) = .ok t ∧ t ≠ .EMPTY) ∧
      m1.getTileType 4 1 = .ok .EMPTY ∧
      m1.getTileType 3 l = .ok .WATER ∧
      ∀ a b : Int, 0 ≤ a → a < seamGrid.width → 0 ≤ b → b < seamGrid.height →
        ¬ (a = 4 ∧ b = 1) → ¬ (a = 3 ∧ b = l) →
        m1.getTileType a b = seamGrid.getTileType a b :=
  moveWater_drops_to_lowest_clear seamGrid 4 1 3 (by decide) (by decide) (by decide)
    (by decide) (by decide)

/-! ## C11: the floor is inert -/

theorem DropStep.floor_water {m m1 : Map} (h : DropStep m m1) (a : Int)
    (hw : m.tile a 0 = .WATER) : m1.WF ∧ m1.tile a 0 = .WATER := by
  obtain ⟨x, y, c, l, hwf, ⟨hx0, hx1, hy0, hy1⟩, _, hdrop⟩ := h
  refine ⟨hdrop.wf hwf, ?_⟩
  have hl0 := hdrop.2.2.1
  have hl1 := hdrop.2.2.2.1
  rw [hdrop.tile_eq hwf hx0 hx1 hy1 a 0 (le_refl _), if_neg (fun h => by have := h.2; omega)]
  by_cases hc : m.wrapX a = c ∧ (0 : Int) = l
  · rw [if_pos hc]
  · rw [if_neg hc]; exact hw

theorem steps_floor_water {m m' : Map} (h : Relation.ReflTransGen DropStep m m') (a : Int)
    (hw : m.tile a 0 = .WATER) : m'.tile a 0 = .WATER := by
  induction h with
  | refl => exact hw
  | tail _ hstep ih => exact (hstep.floor_water a ih).2

/-- C11 (floor is inert). On a well-formed grid, a `moveWater` call on a WATER
cell of row 0 returns the grid unchanged (for every positive fuel), and
`settleWater` returns a grid in which every cell of row 0 that held WATER still
holds WATER. -/
theorem floor_is_inert (m : Map) (hwf : m.WF) :
    (∀ (x : Int) (fuel : Nat), m.getTileType x 0 = .ok .WATER →
      moveWaterRelocate m x 0 = .ok none ∧ moveWater (fuel + 1) m x 0 = .ok m) ∧
    (∃ m', settleWater m = .ok m' ∧
      ∀ x : Int, m.getTileType x 0 = .ok .WATER → m'.getTileType x 0 = .ok .WATER) := by
  constructor
  · intro x fuel hw
    have hrel : moveWaterRelocate m x 0 = .ok none := by
      unfold moveWaterRelocate
      rw [hw]
      simp
    refine ⟨hrel, ?_⟩
    rw [moveWater_succ, hrel]
  · obtain ⟨m', hs, e⟩ := settleWater_spec m hwf
    refine ⟨m', hs, ?_⟩
    intro x hw
    obtain ⟨_, hy1, ht⟩ := getTileType_ok m x 0 _ hwf hw
    rw [getTileType_eq m' x 0 e.wf (le_refl _) (by rw [e.height]; exact hy1),
      steps_floor_water e.steps x ht]

/-- Witness for `floor_is_inert`: the grid `seamGrid`, whose floor holds WATER. -/
theorem floor_is_inert_witness :
    (∀ (x : Int) (fuel : Nat), seamGrid.getTileType x 0 = .ok .WATER →
      moveWaterRelocate seamGrid x 0 = .ok none ∧
        moveWater (fuel + 1) seamGrid x 0 = .ok seamGrid) ∧
    (∃ m', settleWater seamGrid = .ok m' ∧
      ∀ x : Int, seamGrid.getTileType x 0 = .ok .WATER → m'.getTileType x 0 = .ok .WATER) :=
  floor_is_inert seamGrid (by decide)

/-! ## C17: wrapX is a width-periodic projection -/

/-- C17 (wrapX). For every integer `x` and every grid of positive width,
`wrapX x = ((x % width) + width) % width` with the truncating `%` of C++: the
inner sum lies strictly between `0` and `2 * width`, the result lies in
`[0, width)`, `wrapX (x + width) = wrapX x`, and `wrapX x = x` when
`0 ≤ x < width`. -/
theorem wrapX_periodic_projection (m : Map) (x : Int) (hw : 0 < m.width) :
    m.wrapX x = cmod (cmod x m.width + m.width) m.width ∧
    (0 < cmod x m.width + m.width ∧ cmod x m.width + m.width < 2 * m.width) ∧
    (0 ≤ m.wrapX x ∧ m.wrapX x < m.width) ∧
    m.wrapX (x + m.width) = m.wrapX x ∧
    (0 ≤ x → x < m.width → m.wrapX x = x) := by
  have hb := cmod_neg_bounds x m.width hw
  refine ⟨rfl, ⟨by omega, by omega⟩, ⟨wrapX_nonneg m x hw, wrapX_lt m x hw⟩, ?_,
    wrapX_of_inRange m x⟩
  rw [wrapX_eq_emod m _ hw, wrapX_eq_emod m _ hw, Int.add_emod_self]

/-- Witness for `wrapX_periodic_projection`: `x = -7` on a grid of width 5. -/
theorem wrapX_periodic_projection_witness :
    seamGrid.wrapX (-7) = cmod (cmod (-7) seamGrid.width + seamGrid.width) seamGrid.width ∧
    (0 < cmod (-7) seamGrid.width + seamGrid.width ∧
      cmod (-7) seamGrid.width + seamGrid.width < 2 * seamGrid.width) ∧
    (0 ≤ seamGrid.wrapX (-7) ∧ seamGrid.wrapX (-7) < seamGrid.width) ∧
    seamGrid.wrapX (-7 + seamGrid.width) = seamGrid.wrapX (-7) ∧
    (0 ≤ (-7 : Int) → (-7 : Int) < seamGrid.width → seamGrid.wrapX (-7) = -7) :=
  wrapX_periodic_projection seamGrid (-7) (by decide)

/-! ## C12: precondition violations -/

/-- The two writes of `moveTileFast` happen together: once the tile could be
read at `(x1, y1)` and written at `(x2, y2)`, the write of EMPTY at `(x1, y1)`
succeeds as well, so `moveTileFast` never stops between its two writes. -/
theorem moveTileFast_writes_together (m m1 : Map) (x1 y1 x2 y2 : Int) (t : TileType)
    (hget : m.getTileType (m.wrapX x1) y1 = .ok t)
    (hset : m.setTileType (m.wrapX x2) y2 t = .ok m1) :
    ∃ m2, m1.setTileType (m.wrapX x1) y1 .EMPTY = .ok m2 := by
  unfold Map.getTileType at hget
  unfold Map.setTileType at hset
  by_cases h1 : 0 ≤ y1 ∧ y1 < m.height
  · rw [if_pos h1] at hget
    have hlt : m.index (m.wrapX x1) y1 < m.tiles.length := by
      by_contra hge
      rw [List.getElem?_eq_none (by omega)] at hget
      cases hget
    by_cases h2 : 0 ≤ y2 ∧ y2 < m.height
    · rw [if_pos h2] at hset
      by_cases h3 : m.index (m.wrapX x2) y2 < m.tiles.length
      · rw [if_pos h3] at hset
        cases hset
        unfold Map.setTileType
        rw [if_pos h1, if_pos (by rw [List.length_set]; exact hlt)]
        exact ⟨_, rfl⟩
      · rw [if_neg h3] at hset; cases hset
    · rw [if_neg h2] at hset; cases hset
  · rw [if_neg h1] at hget; cases hget

/-- The state-passing run of `moveWater` returns what `moveWater` returns. -/
theorem moveWaterRun_result : ∀ (fuel : Nat) (m : Map) (x y : Int),
    runResult (moveWaterRun fuel m x y) = moveWater fuel m x y := by
  intro fuel
  induction fuel with
  | zero => intro m x y; rfl
  | succ fuel ih =>
    intro m x y
    rw [moveWater_succ]
    unfold moveWaterRun
    cases hrel : moveWaterRelocate m x y with
    | error e => rfl
    | ok r =>
      cases r with
      | none => rfl
      | some p =>
        obtain ⟨m1, fall, lowest⟩ := p
        simp only []
        rw [← ih m1 fall lowest]
        cases hrun : moveWaterRun fuel m1 fall lowest with
        | mk m2 f =>
          cases f with
          | some e => rfl
          | none =>
            simp only [runResult]
            cases hg : m2.getTileType x y with
            | error e => rfl
            | ok t =>
              simp only []
              by_cases ht : t ≠ .EMPTY
              · rw [if_pos ht, if_pos ht]
              · rw [if_neg ht, if_neg ht]
                cases hl : m2.getTileType (x - 1) y with
                | error e => rfl
                | ok left =>
                  simp only []
                  by_cases hw : left = .WATER
                  · rw [if_pos hw, if_pos hw]
                    exact ih _ _ _
                  · rw [if_neg hw, if_neg hw]

/-- C12 (precondition violations). On a cell `(x, y)` of the grid that does not
hold WATER (row 0 included), `moveWater` stops with an assertion fault and the
grid is, at that moment, the grid it was called on; `findFall` stops with an
assertion fault whenever `y ≤ 0` or the direction is neither `1` nor `-1`
(`findFall` returns no grid: it only reads). -/
theorem precondition_violations_fail (m : Map) (x y : Int) (t : TileType) (fuel : Nat)
    (d x' y' : Int) (hcell : m.getTileType x y = .ok t) (ht : t ≠ .WATER)
    (hbad : y' ≤ 0 ∨ ¬ (d = 1 ∨ d = -1)) :
    moveWater (fuel + 1) m x y = .error .assertion ∧
    moveWaterRun (fuel + 1) m x y = (m, some .assertion) ∧
    findFall m d x' y' = .error .assertion := by
  have hrel : moveWaterRelocate m x y = .error .assertion := by
    unfold moveWaterRelocate
    rw [hcell]
    simp only []
    rw [if_pos ht]
  refine ⟨?_, ?_, ?_⟩
  · rw [moveWater_succ, hrel]
  · unfold moveWaterRun
    rw [hrel]
  · unfold findFall
    by_cases hd : d = 1 ∨ d = -1
    · rcases hbad with hy | hnd
      · rw [if_neg (not_not.mpr hd), if_pos (by omega)]
      · exact absurd hd hnd
    · rw [if_pos hd]

/-- Witness for `precondition_violations_fail`: the STONE cell `(0, 1)` of
`ledgeGrid`, and a search started at row 0. -/
theorem precondition_violations_fail_witness :
    moveWater (0 + 1) ledgeGrid 0 1 = .error .assertion ∧
    moveWaterRun (0 + 1) ledgeGrid 0 1 = (ledgeGrid, some .assertion) ∧
    findFall ledgeGrid 1 1 0 = .error .assertion :=
  precondition_violations_fail ledgeGrid 0 1 .STONE 0 1 1 0 (by decide) (by decide)
    (Or.inl (by decide))

/-! ## C13: biome bucket lookup -/

theorem bucketLoop_spec (value : Rat) (cuts : List Rat) :
    ∀ (fuel t : Nat), t ≤ cuts.length → cuts.length + 1 ≤ fuel + t →
      (∀ i c, i < t → cuts[i]? = some c → c < value) →
      ∃ t', bucketLoop value cuts fuel t = .ok t' ∧ IsBucket value cuts t' := by
  intro fuel
  induction fuel with
  | zero => intro t ht hf; omega
  | succ fuel ih =>
    intro t ht hf hlow
    unfold bucketLoop
    by_cases hlt : t < cuts.length
    · rw [if_pos hlt, List.getElem?_eq_getElem hlt]
      simp only []
      by_cases hgt : value > cuts[t]
      · rw [if_pos hgt]
        apply ih (t + 1) (by omega) (by omega)
        intro i c hi hc
        by_cases hit : i = t
        · subst hit
          rw [List.getElem?_eq_getElem hlt] at hc
          cases hc
          exact hgt
        · exact hlow i c (by omega) hc
      · rw [if_neg hgt]
        refine ⟨t, rfl, ht, hlow, ?_⟩
        intro c hc
        rw [List.getElem?_eq_getElem hlt] at hc
        cases hc
        exact not_lt.mp hgt
    · rw [if_neg hlt]
      refine ⟨t, rfl, ht, hlow, ?_⟩
      intro c hc
      rw [List.getElem?_eq_none (by omega)] at hc
      cases hc

/-- C13 (biome bucket lookup). For an `N x N` table and cut-point lists of
length `N - 1`, `getBaseBiome` returns the entry `biomeData[t][h]`, where `t`
is the bucket of the temperature among the temperature cut points (the smallest
index whose cut point the temperature does not exceed, `N - 1` when it exceeds
them all) and `h` likewise for the humidity; a value equal to a cut point falls
in the lower bucket. -/
theorem getBaseBiome_bucket (biomeData : List (List Int)) (temperature humidity : Rat)
    (tempCuts humCuts : List Rat)
    (hsquare : ∀ row ∈ biomeData, row.length = biomeData.length)
    (htemp : tempCuts.length + 1 = biomeData.length)
    (hhum : humCuts.length + 1 = biomeData.length) :
    ∃ t h row b, getBaseBiome biomeData temperature humidity tempCuts humCuts = .ok b ∧
      biomeData[t]? = some row ∧ row[h]? = some b ∧
      IsBucket temperature tempCuts t ∧ IsBucket humidity humCuts h ∧
      (∀ i c, tempCuts[i]? = some c → temperature = c → t ≤ i) ∧
      (∀ i c, humCuts[i]? = some c → humidity = c → h ≤ i) := by
  obtain ⟨t, ht, hbt⟩ := bucketLoop_spec temperature tempCuts (tempCuts.length + 1) 0
    (Nat.zero_le _) (by omega) (by intro i c hi; omega)
  obtain ⟨h, hh, hbh⟩ := bucketLoop_spec humidity humCuts (humCuts.length + 1) 0
    (Nat.zero_le _) (by omega) (by intro i c hi; omega)
  have htlt : t < biomeData.length := by have := hbt.1; omega
  have hrow := hsquare _ (List.getElem_mem htlt)
  have hhlt : h < (biomeData[t]).length := by have := hbh.1; omega
  refine ⟨t, h, biomeData[t], (biomeData[t])[h], ?_, List.getElem?_eq_getElem htlt,
    List.getElem?_eq_getElem hhlt, hbt, hbh, ?_, ?_⟩
  · unfold getBaseBiome
    rw [if_neg (not_not.mpr htemp), if_neg (not_not.mpr hhum), ht, hh]
    simp only []
    rw [List.getElem?_eq_getElem htlt]
    simp only []
    rw [List.getElem?_eq_getElem hhlt]
  · intro i c hc heq
    by_contra hlt
    have := hbt.2.1 i c (by omega) hc
    rw [heq] at this
    exact lt_irrefl _ this
  · intro i c hc heq
    by_contra hlt
    have := hbh.2.1 i c (by omega) hc
    rw [heq] at this
    exact lt_irrefl _ this

/-- Witness for `getBaseBiome_bucket`: the scenario with two buckets each, cut
points `[0]` and `[0]`, temperature `-1` and humidity `1`, which selects the
entry of bucket `(0, 1)`. -/
theorem getBaseBiome_bucket_witness :
    getBaseBiome biomeTable2 (-1) 1 [0] [0] = .ok 11 ∧
    ∃ t h row b, getBaseBiome biomeTable2 (-1) 1 [0] [0] = .ok b ∧
      biomeTable2[t]? = some row ∧ row[h]? = some b ∧
      IsBucket (-1) [0] t ∧ IsBucket 1 [0] h ∧
      (∀ i c, ([0] : List Rat)[i]? = some c → (-1 : Rat) = c → t ≤ i) ∧
      (∀ i c, ([0] : List Rat)[i]? = some c → (1 : Rat) = c → h ≤ i) :=
  ⟨by decide, getBaseBiome_bucket biomeTable2 (-1) 1 [0] [0] (by decide) (by decide)
    (by decide)⟩

/-! ## Rounding to binary64 -/

theorem log2Fuel_spec : ∀ (fuel n : Nat), n ≤ fuel → n ≠ 0 →
    2 ^ log2Fuel fuel n ≤ n ∧ n < 2 ^ (log2Fuel fuel n + 1) := by
  intro fuel
  induction fuel with
  | zero => intro n h0 h1; omega
  | succ fuel ih =>
    intro n hn h0
    unfold log2Fuel
    by_cases h2 : n < 2
    · rw [if_pos h2]
      have : n = 1 := by omega
      subst this
      simp
    · rw [if_neg h2]
      obtain ⟨h3, h4⟩ := ih (n / 2) (by omega) (by omega)
      rw [pow_succ, pow_succ, pow_succ]
      rw [pow_succ] at h4
      constructor <;> omega

theorem natLog2_spec (n : Nat) (h : n ≠ 0) :
    2 ^ natLog2 n ≤ n ∧ n < 2 ^ (natLog2 n + 1) :=
  log2Fuel_spec n n (le_refl _) h

theorem binaryExponent_spec (q : Rat) (hq : q ≠ 0) :
    (2 : Rat) ^ binaryExponent q ≤ |q| ∧ |q| < (2 : Rat) ^ (binaryExponent q + 1) := by
  have hnum : q.num.natAbs ≠ 0 := by
    intro h
    exact hq (Rat.zero_of_num_zero (Int.natAbs_eq_zero.mp h))
  obtain ⟨ha1, ha2⟩ := natLog2_spec q.num.natAbs hnum
  obtain ⟨hb1, hb2⟩ := natLog2_spec q.den q.den_nz
  have habs : |q| = (q.num.natAbs : Rat) / (q.den : Rat) := by
    rw [Rat.abs_def, Rat.divInt_eq_div]
    rw [Int.cast_natCast, Int.cast_natCast]
  have hden : (0 : Rat) < q.den := by exact_mod_cast q.den_pos
  have ha1q : (2 : Rat) ^ (natLog2 q.num.natAbs) ≤ (q.num.natAbs : Rat) := by exact_mod_cast ha1
  have ha2q : (q.num.natAbs : Rat) < (2 : Rat) ^ (natLog2 q.num.natAbs + 1) := by
    exact_mod_cast ha2
  have hb1q : (2 : Rat) ^ (natLog2 q.den) ≤ (q.den : Rat) := by exact_mod_cast hb1
  have hb2q : (q.den : Rat) < (2 : Rat) ^ (natLog2 q.den + 1) := by exact_mod_cast hb2
  have h2 : (0 : Rat) < 2 := by norm_num
  have hlow : (2 : Rat) ^ ((natLog2 q.num.natAbs : Int) - (natLog2 q.den : Int) - 1) ≤ |q| := by
    rw [habs, le_div_iff₀ hden]
    have e : (2 : Rat) ^ ((natLog2 q.num.natAbs : Int) - (natLog2 q.den : Int) - 1)
        = (2 : Rat) ^ (natLog2 q.num.natAbs) / (2 : Rat) ^ (natLog2 q.den + 1) := by
      rw [div_eq_mul_inv, ← zpow_natCast, ← zpow_natCast, ← zpow_neg, ← zpow_add₀ (by norm_num)]
      congr 1
      push_cast
      ring
    rw [e, div_mul_eq_mul_div, div_le_iff₀ (by positivity)]
    calc (2 : Rat) ^ (natLog2 q.num.natAbs) * (q.den : Rat)
        ≤ (q.num.natAbs : Rat) * (q.den : Rat) := by
          exact mul_le_mul_of_nonneg_right ha1q (le_of_lt hden)
      _ ≤ (q.num.natAbs : Rat) * (2 : Rat) ^ (natLog2 q.den + 1) := by
          exact mul_le_mul_of_nonneg_left (le_of_lt hb2q) (by positivity)
  have hhigh : |q| < (2 : Rat) ^ ((natLog2 q.num.natAbs : Int) - (natLog2 q.den : Int) + 1) := by
    rw [habs, div_lt_iff₀ hden]
    have e : (2 : Rat) ^ ((natLog2 q.num.natAbs : Int) - (natLog2 q.den : Int) + 1)
        = (2 : Rat) ^ (natLog2 q.num.natAbs + 1) / (2 : Rat) ^ (natLog2 q.den) := by
      rw [div_eq_mul_inv, ← zpow_natCast, ← zpow_natCast, ← zpow_neg, ← zpow_add₀ (by norm_num)]
      congr 1
      push_cast
      ring
    rw [e, div_mul_eq_mul_div, lt_div_iff₀ (by positivity)]
    calc (q.num.natAbs : Rat) * (2 : Rat) ^ (natLog2 q.den)
        ≤ (q.num.natAbs : Rat) * (q.den : Rat) := by
          exact mul_le_mul_of_nonneg_left hb1q (by positivity)
      _ < (2 : Rat) ^ (natLog2 q.num.natAbs + 1) * (q.den : Rat) := by
          exact mul_lt_mul_of_pos_right ha2q hden
  unfold binaryExponent
  by_cases hc : (2 : Rat) ^ ((natLog2 q.num.natAbs : Int) - (natLog2 q.den : Int)) ≤ |q|
  · rw [if_pos hc]
    exact ⟨hc, hhigh⟩
  · rw [if_neg hc]
    refine ⟨hlow, ?_⟩
    rw [sub_add_cancel]
    exact not_le.mp hc

theorem roundHalfEven_bounds (q : Rat) :
    ⌊q⌋ ≤ roundHalfEven q ∧ roundHalfEven q ≤ ⌊q⌋ + 1 := by
  unfold roundHalfEven
  split_ifs <;> constructor <;> omega

theorem roundHalfEven_intCast (k : Int) : roundHalfEven (k : Rat) = k := by
  unfold roundHalfEven
  rw [Int.floor_intCast, sub_self, if_pos (by norm_num)]

theorem roundHalfEven_mono {x y : Rat} (h : x ≤ y) : roundHalfEven x ≤ roundHalfEven y := by
  have hf : ⌊x⌋ ≤ ⌊y⌋ := Int.floor_mono h
  by_cases hlt : ⌊x⌋ < ⌊y⌋
  · have h1 := (roundHalfEven_bounds x).2
    have h2 := (roundHalfEven_bounds y).1
    omega
  · have heq : ⌊x⌋ = ⌊y⌋ := by omega
    have hfrac : x - ⌊x⌋ ≤ y - ⌊y⌋ := by
      rw [heq]
      linarith
    unfold roundHalfEven
    rw [heq] at hfrac ⊢
    by_cases hx1 : x - (⌊y⌋ : Rat) < 1 / 2
    · rw [if_pos hx1]
      split_ifs <;> omega
    · rw [if_neg hx1]
      have hy1 : ¬ (y - (⌊y⌋ : Rat) < 1 / 2) := by
        intro hc
        exact hx1 (lt_of_le_of_lt hfrac hc)
      rw [if_neg hy1]
      by_cases hx2 : 1 / 2 < x - (⌊y⌋ : Rat)
      · rw [if_pos hx2, if_pos (lt_of_lt_of_le hx2 hfrac)]
      · rw [if_neg hx2]
        split_ifs <;> omega

theorem roundHalfEven_ge_of_le (k : Int) (x : Rat) (h : (k : Rat) ≤ x) :
    k ≤ roundHalfEven x := by
  have := roundHalfEven_mono h
  rwa [roundHalfEven_intCast] at this

theorem roundHalfEven_le_of_le (k : Int) (x : Rat) (h : x ≤ (k : Rat)) :
    roundHalfEven x ≤ k := by
  have := roundHalfEven_mono h
  rwa [roundHalfEven_intCast] at this

theorem ulpAt_pos (q : Rat) : 0 < ulpAt q := by
  unfold ulpAt
  positivity

theorem roundMagnitude_nonneg (q : Rat) (h : 0 ≤ q) : 0 ≤ roundMagnitude q := by
  unfold roundMagnitude
  have hu := ulpAt_pos q
  have h0 : (0 : Int) ≤ roundHalfEven (q / ulpAt q) :=
    roundHalfEven_ge_of_le 0 _ (by rw [Int.cast_zero]; exact div_nonneg h (le_of_lt hu))
  have h1 : (0 : Rat) ≤ (roundHalfEven (q / ulpAt q) : Rat) := by exact_mod_cast h0
  exact mul_nonneg h1 (le_of_lt hu)

theorem binaryExponent_mono {x y : Rat} (hx : 0 < x) (h : x ≤ y) :
    binaryExponent x ≤ binaryExponent y := by
  have hy : 0 < y := lt_of_lt_of_le hx h
  obtain ⟨hx1, _⟩ := binaryExponent_spec x (ne_of_gt hx)
  obtain ⟨_, hy2⟩ := binaryExponent_spec y (ne_of_gt hy)
  rw [abs_of_pos hx] at hx1
  rw [abs_of_pos hy] at hy2
  have hlt : (2 : Rat) ^ binaryExponent x < (2 : Rat) ^ (binaryExponent y + 1) :=
    lt_of_le_of_lt hx1 (lt_of_le_of_lt h hy2)
  have := (zpow_lt_zpow_iff_right₀ (by norm_num : (1 : Rat) < 2)).mp hlt
  omega

/-- A positive value rounds to a value within its binade: between `2 ^ e` and
`2 ^ (e + 1)` for an exponent `e ≥ -1022` that its binary exponent reaches. -/
theorem roundMagnitude_le_pow (q : Rat) (hq : 0 < q) :
    roundMagnitude q ≤ (2 : Rat) ^ (max (binaryExponent q) (-1022) + 1) := by
  obtain ⟨_, h2⟩ := binaryExponent_spec q (ne_of_gt hq)
  rw [abs_of_pos hq] at h2
  have hu := ulpAt_pos q
  have hle : q ≤ (2 : Rat) ^ (max (binaryExponent q) (-1022) + 1) :=
    le_trans (le_of_lt h2)
      (zpow_le_zpow_right₀ (by norm_num) (by have := le_max_left (binaryExponent q) (-1022); omega))
  have hsplit : (2 : Rat) ^ (max (binaryExponent q) (-1022) + 1)
      = ((2 ^ 53 : Int) : Rat) * ulpAt q := by
    unfold ulpAt
    rw [show ((2 ^ 53 : Int) : Rat) = (2 : Rat) ^ (53 : Int) by norm_num,
      ← zpow_add₀ (by norm_num)]
    congr 1
    ring
  have hk : roundHalfEven (q / ulpAt q) ≤ (2 ^ 53 : Int) := by
    apply roundHalfEven_le_of_le
    rw [div_le_iff₀ hu, ← hsplit]
    exact hle
  unfold roundMagnitude
  rw [hsplit]
  exact mul_le_mul_of_nonneg_right (by exact_mod_cast hk) (le_of_lt hu)

theorem roundMagnitude_ge_pow (q : Rat) (hq : 0 < q) (he : -1022 ≤ binaryExponent q) :
    (2 : Rat) ^ binaryExponent q ≤ roundMagnitude q := by
  obtain ⟨h1, _⟩ := binaryExponent_spec q (ne_of_gt hq)
  rw [abs_of_pos hq] at h1
  have hu := ulpAt_pos q
  have hmax : max (binaryExponent q) (-1022) = binaryExponent q := max_eq_left he
  have hsplit : (2 : Rat) ^ binaryExponent q = ((2 ^ 52 : Int) : Rat) * ulpAt q := by
    unfold ulpAt
    rw [hmax, show ((2 ^ 52 : Int) : Rat) = (2 : Rat) ^ (52 : Int) by norm_num,
      ← zpow_add₀ (by norm_num)]
    congr 1
    ring
  have hk : (2 ^ 52 : Int) ≤ roundHalfEven (q / ulpAt q) := by
    apply roundHalfEven_ge_of_le
    rw [le_div_iff₀ hu, ← hsplit]
    exact h1
  unfold roundMagnitude
  rw [hsplit]
  exact mul_le_mul_of_nonneg_right (by exact_mod_cast hk) (le_of_lt hu)

theorem roundMagnitude_mono {x y : Rat} (hx : 0 ≤ x) (h : x ≤ y) :
    roundMagnitude x ≤ roundMagnitude y := by
  rcases eq_or_lt_of_le hx with h0 | hpos
  · rw [← h0]
    have hz : roundMagnitude 0 = 0 := by
      unfold roundMagnitude
      rw [zero_div]
      have := roundHalfEven_intCast 0
      rw [Int.cast_zero] at this
      rw [this, Int.cast_zero, zero_mul]
    rw [hz]
    exact roundMagnitude_nonneg y (le_trans hx h)
  · have hy : 0 < y := lt_of_lt_of_le hpos h
    have hexp := binaryExponent_mono hpos h
    by_cases heq : max (binaryExponent x) (-1022) = max (binaryExponent y) (-1022)
    · have hu : ulpAt x = ulpAt y := by unfold ulpAt; rw [heq]
      unfold roundMagnitude
      rw [hu]
      have hpu := ulpAt_pos y
      have hk : roundHalfEven (x / ulpAt y) ≤ roundHalfEven (y / ulpAt y) :=
        roundHalfEven_mono (div_le_div_of_nonneg_right h (le_of_lt hpu))
      exact mul_le_mul_of_nonneg_right (by exact_mod_cast hk) (le_of_lt hpu)
    · have hlt : max (binaryExponent x) (-1022) + 1 ≤ binaryExponent y := by
        rcases le_total (binaryExponent x) (-1022) with h1 | h1 <;>
          rcases le_total (binaryExponent y) (-1022) with h2 | h2
        · rw [max_eq_right h1, max_eq_right h2] at heq; exact absurd rfl heq
        · rw [max_eq_right h1, max_eq_left h2] at heq
          rw [max_eq_right h1]; omega
        · rw [max_eq_left h1, max_eq_right h2] at heq
          omega
        · rw [max_eq_left h1, max_eq_left h2] at heq
          rw [max_eq_left h1]; omega
      have hey : -1022 ≤ binaryExponent y := by
        have := le_max_right (binaryExponent x) (-1022)
        omega
      calc roundMagnitude x
          ≤ (2 : Rat) ^ (max (binaryExponent x) (-1022) + 1) := roundMagnitude_le_pow x hpos
        _ ≤ (2 : Rat) ^ binaryExponent y := zpow_le_zpow_right₀ (by norm_num) hlt
        _ ≤ roundMagnitude y := roundMagnitude_ge_pow y hy hey

/-- Rounding to binary64 is monotone. -/
theorem roundDouble_mono {x y : Rat} (h : x ≤ y) : roundDouble x ≤ roundDouble y := by
  unfold roundDouble
  by_cases hx : x < 0
  · rw [if_pos hx]
    by_cases hy : y < 0
    · rw [if_pos hy]
      exact neg_le_neg (roundMagnitude_mono (by linarith) (by linarith))
    · rw [if_neg hy]
      have h1 := roundMagnitude_nonneg (-x) (by linarith)
      have h2 := roundMagnitude_nonneg y (not_lt.mp hy)
      linarith
  · rw [if_neg hx, if_neg (by linarith)]
    exact roundMagnitude_mono (not_lt.mp hx) h

theorem mulDouble_mono {a b : Rat} (c : Rat) (h : a ≤ b) (hc : 0 ≤ c) :
    mulDouble a c ≤ mulDouble b c := by
  unfold mulDouble
  exact roundDouble_mono (mul_le_mul_of_nonneg_right h hc)

/-! ## The sample vector of getPercentile -/

theorem insertScan_spec (value : Rat) (results : List Rat) (i : Nat)
    (hlen : results.length = i) (hsorted : results.Sorted (· ≤ ·)) :
    ∀ (fuel j : Nat), j ≤ i → i + 1 ≤ fuel + j →
      (∀ v ∈ results.take j, v < value) →
      ∃ r j', insertScan value results i fuel j = .ok (r, j') ∧
        ((j' = i ∧ r = results ∧ ∀ v ∈ results, v < value) ∨
          (j' < i ∧ r.length = i + 1 ∧ r.Sorted (· ≤ ·) ∧ r.Perm (value :: results))) := by
  intro fuel
  induction fuel with
  | zero => intro j hj hf; omega
  | succ fuel ih =>
    intro j hj hf hlow
    unfold insertScan
    by_cases hlt : j < i
    · have hjl : j < results.length := by omega
      rw [if_pos hlt, List.getElem?_eq_getElem hjl]
      simp only []
      by_cases hle : value ≤ results[j]
      · rw [if_pos hle]
        refine ⟨_, j, rfl, Or.inr ⟨hlt, ?_, ?_, List.perm_middle.trans ?_⟩⟩
        · simp [List.length_take, List.length_drop]; omega
        · have hdrop : (results.drop j).Sorted (· ≤ ·) :=
            List.Pairwise.sublist (List.drop_sublist j results) hsorted
          have htake : (results.take j).Sorted (· ≤ ·) :=
            List.Pairwise.sublist (List.take_sublist j results) hsorted
          have hge : ∀ b ∈ results.drop j, value ≤ b := by
            intro b hb
            rw [List.drop_eq_getElem_cons hjl] at hb hdrop
            rcases List.mem_cons.mp hb with h | h
            · rw [h]; exact hle
            · exact le_trans hle ((List.pairwise_cons.mp hdrop).1 b h)
          unfold List.Sorted
          rw [List.pairwise_append]
          refine ⟨htake, List.pairwise_cons.mpr ⟨hge, hdrop⟩, ?_⟩
          intro a ha b hb
          have hav := hlow a ha
          rcases List.mem_cons.mp hb with h | h
          · rw [h]; exact le_of_lt hav
          · exact le_trans (le_of_lt hav) (hge b h)
        · rw [List.take_append_drop]
      · rw [if_neg hle]
        apply ih (j + 1) (by omega) (by omega)
        intro v hv
        rw [List.take_succ, List.getElem?_eq_getElem hjl] at hv
        rcases List.mem_append.mp hv with h | h
        · exact hlow v h
        · simp at h
          rw [h]; exact not_le.mp hle
    · rw [if_neg hlt]
      have hji : j = i := by omega
      refine ⟨results, j, rfl, Or.inl ⟨hji, rfl, ?_⟩⟩
      intro v hv
      apply hlow v
      rw [List.take_of_length_le (by omega)]
      exact hv

theorem insertSample_spec (value : Rat) (results : List Rat) (i : Nat)
    (hlen : results.length = i) (hsorted : results.Sorted (· ≤ ·)) :
    ∃ r, insertSample value results i = .ok r ∧ r.length = i + 1 ∧
      r.Sorted (· ≤ ·) ∧ r.Perm (value :: results) := by
  obtain ⟨r1, j, hscan, hcase⟩ := insertScan_spec value results i hlen hsorted (i + 1) 0
    (Nat.zero_le _) (by omega) (by intro v hv; simp at hv)
  unfold insertSample
  rw [hscan]
  simp only []
  rcases hcase with ⟨hj, hr, hall⟩ | ⟨hj, hl, hs, hp⟩
  · rw [if_pos hj, hr]
    have hl : (results ++ [value]).length = i + 1 := by simp [hlen]
    rw [if_neg (not_not.mpr hl)]
    refine ⟨_, rfl, hl, ?_, List.perm_append_singleton value results⟩
    unfold List.Sorted
    rw [List.pairwise_append]
    refine ⟨hsorted, List.pairwise_singleton _ _, ?_⟩
    intro a ha b hb
    simp at hb
    rw [hb]; exact le_of_lt (hall a ha)
  · have hji : ¬ (j = i) := by omega
    rw [if_neg hji, if_neg (not_not.mpr hl)]
    exact ⟨r1, rfl, hl, hs, hp⟩

/-- Loop invariant of `getPercentile`: after `i` iterations the vector holds
`i` values, is sorted in non-decreasing order and is a permutation of the
values drawn so far. -/
theorem sampleLoop_spec (draw : Nat → Rat) :
    ∀ i : Nat, ∃ r, sampleLoop draw i = .ok r ∧ r.length = i ∧
      r.Sorted (· ≤ ·) ∧ r.Perm ((List.range i).map draw) := by
  intro i
  induction i with
  | zero => exact ⟨[], rfl, rfl, List.sorted_nil, List.Perm.refl _⟩
  | succ i ih =>
    obtain ⟨r, hr, hl, hs, hp⟩ := ih
    obtain ⟨r', hr', hl', hs', hp'⟩ := insertSample_spec (draw i) r i hl hs
    refine ⟨r', ?_, hl', hs', ?_⟩
    · unfold sampleLoop
      rw [hr]
      exact hr'
    · rw [List.range_succ, List.map_append]
      exact hp'.trans ((List.Perm.cons _ hp).trans
        (List.perm_append_singleton (draw i) _).symm)

/-! ## Values that binary64 represents exactly -/

theorem binaryExponent_eq (q : Rat) (hq : 0 < q) (e : Int) (h1 : (2 : Rat) ^ e ≤ q)
    (h2 : q < (2 : Rat) ^ (e + 1)) : binaryExponent q = e := by
  obtain ⟨s1, s2⟩ := binaryExponent_spec q (ne_of_gt hq)
  rw [abs_of_pos hq] at s1 s2
  have a := (zpow_lt_zpow_iff_right₀ (by norm_num : (1 : Rat) < 2)).mp (lt_of_le_of_lt s1 h2)
  have b := (zpow_lt_zpow_iff_right₀ (by norm_num : (1 : Rat) < 2)).mp (lt_of_le_of_lt h1 s2)
  omega

theorem roundMagnitude_zero : roundMagnitude 0 = 0 := by
  unfold roundMagnitude
  rw [zero_div]
  have := roundHalfEven_intCast 0
  rw [Int.cast_zero] at this
  rw [this, Int.cast_zero, zero_mul]

theorem roundDouble_zero : roundDouble 0 = 0 := by
  unfold roundDouble
  rw [if_neg (lt_irrefl _), roundMagnitude_zero]

theorem roundDouble_nonneg (q : Rat) (h : 0 ≤ q) : 0 ≤ roundDouble q := by
  have := roundDouble_mono h
  rwa [roundDouble_zero] at this

/-- A positive value that is a whole multiple of the spacing of its binade
rounds to itself. -/
theorem roundMagnitude_of_multiple (q : Rat) (k : Int) (h : q = (k : Rat) * ulpAt q) :
    roundMagnitude q = q := by
  have hu := ulpAt_pos q
  unfold roundMagnitude
  have hdiv : q / ulpAt q = (k : Rat) := by
    rw [div_eq_iff (ne_of_gt hu)]
    exact h
  rw [hdiv, roundHalfEven_intCast, ← h]

theorem two_zpow_sub_of_le (a b : Nat) (h : a ≤ b) :
    (2 : Rat) ^ ((a : Int) - (b : Int)) = 1 / (2 : Rat) ^ (b - a) := by
  rw [zpow_sub₀ (by norm_num), zpow_natCast, zpow_natCast, eq_div_iff (by positivity),
    div_mul_eq_mul_div, div_eq_iff (by positivity), one_mul, ← pow_add]
  congr 1
  omega

/-- Integers of magnitude below `2 ^ 53` are values of binary64. -/
theorem roundMagnitude_natCast (n : Nat) (hn : n < 2 ^ 53) : roundMagnitude (n : Rat) = n := by
  rcases Nat.eq_zero_or_pos n with h0 | hpos
  · rw [h0, Nat.cast_zero]
    exact roundMagnitude_zero
  · obtain ⟨h1, h2⟩ := natLog2_spec n (by omega)
    have hk : natLog2 n < 53 := by
      have : 2 ^ natLog2 n < 2 ^ 53 := lt_of_le_of_lt h1 hn
      exact (Nat.pow_lt_pow_iff_right (by norm_num)).mp this
    have hq : (0 : Rat) < n := by exact_mod_cast hpos
    have he : binaryExponent (n : Rat) = (natLog2 n : Int) := by
      apply binaryExponent_eq _ hq
      · rw [zpow_natCast]; exact_mod_cast h1
      · rw [show ((natLog2 n : Int) + 1) = ((natLog2 n + 1 : Nat) : Int) by push_cast; ring,
          zpow_natCast]
        exact_mod_cast h2
    have hulp : ulpAt (n : Rat) = 1 / (2 : Rat) ^ (52 - natLog2 n) := by
      unfold ulpAt
      rw [he, max_eq_left (by omega)]
      exact two_zpow_sub_of_le (natLog2 n) 52 (by omega)
    apply roundMagnitude_of_multiple _ ((n * 2 ^ (52 - natLog2 n) : Nat) : Int)
    rw [hulp]
    push_cast
    field_simp

theorem roundDouble_intCast (n : Int) (hn : |n| < 2 ^ 53) : roundDouble (n : Rat) = n := by
  unfold roundDouble
  by_cases hneg : (n : Rat) < 0
  · rw [if_pos hneg]
    have hn0 : n < 0 := by exact_mod_cast hneg
    have habs : |n| = -n := abs_of_neg hn0
    have hcast : (-(n : Rat)) = ((-n).toNat : Rat) := by
      have : ((-n).toNat : Int) = -n := Int.toNat_of_nonneg (by omega)
      have h2 : (((-n).toNat : Int) : Rat) = ((-n : Int) : Rat) := by rw [this]
      rw [Int.cast_natCast] at h2
      rw [h2]
      push_cast
      rfl
    rw [hcast, roundMagnitude_natCast _ (by omega), ← hcast]
    ring
  · rw [if_neg hneg]
    have hn0 : 0 ≤ n := by
      have : (0 : Rat) ≤ n := not_lt.mp hneg
      exact_mod_cast this
    have habs : |n| = n := abs_of_nonneg hn0
    have hcast : (n : Rat) = (n.toNat : Rat) := by
      have : (n.toNat : Int) = n := Int.toNat_of_nonneg hn0
      have h2 : ((n.toNat : Int) : Rat) = (n : Rat) := by rw [this]
      rw [Int.cast_natCast] at h2
      exact h2.symm
    rw [hcast, roundMagnitude_natCast _ (by omega)]

/-- The index of the call `getPercentile(0.85, finalWetness, 10000)` of
`generateEarth` (Mapgen.cc 154): the literal `0.85` is the `double`
`7656119366529843 / 2 ^ 53`, whose exact product with 10000 lies below 8500
and rounds to 8500. -/
theorem mulDouble_at_waterLimit_call :
    IsDouble (7656119366529843 / 9007199254740992) ∧
    (7656119366529843 / 9007199254740992 : Rat) * 10000 < 8500 ∧
    truncToInt (mulDouble (7656119366529843 / 9007199254740992) 10000) = 8500 := by
  refine ⟨by decide!, by norm_num, by decide!⟩

theorem roundHalfEven_le_of_lt_half (k : Int) (x : Rat) (h : x < (k : Rat) + 1 / 2) :
    roundHalfEven x ≤ k := by
  have hf : ⌊x⌋ ≤ k := by
    have : ⌊x⌋ < k + 1 := Int.floor_lt.mpr (by push_cast; linarith)
    omega
  rcases lt_or_eq_of_le hf with hlt | heq
  · have := (roundHalfEven_bounds x).2
    omega
  · unfold roundHalfEven
    rw [heq, if_pos (by linarith)]

/-- A value of binary64 below 1 is at most `1 - 2 ^ (-53)`. -/
theorem IsDouble.le_pred_one (p : Rat) (hd : IsDouble p) (h1 : p < 1) :
    p ≤ 1 - 1 / 2 ^ 53 := by
  by_contra hc
  have hgt : 1 - 1 / 2 ^ 53 < p := not_le.mp hc
  have hpos : 0 < p := lt_trans (by norm_num) hgt
  have he : binaryExponent p = -1 := by
    apply binaryExponent_eq p hpos
    · rw [zpow_neg_one]
      exact le_trans (by norm_num) (le_of_lt hgt)
    · norm_num
      exact h1
  have hulp : ulpAt p = 1 / 2 ^ 53 := by
    unfold ulpAt
    rw [he, max_eq_left (by norm_num)]
    norm_num
  unfold IsDouble roundDouble at hd
  rw [if_neg (not_lt.mpr (le_of_lt hpos))] at hd
  unfold roundMagnitude at hd
  rw [hulp] at hd
  have hm : (roundHalfEven (p / (1 / 2 ^ 53)) : Rat) = p * 2 ^ 53 := by
    have := congrArg (fun x => x * 2 ^ 53) hd
    simp only at this
    rw [← this]
    field_simp
  have hlow : ((2 ^ 53 - 1 : Int) : Rat) < (roundHalfEven (p / (1 / 2 ^ 53)) : Rat) := by
    rw [hm]
    push_cast
    have := mul_lt_mul_of_pos_right hgt (by positivity : (0 : Rat) < 2 ^ 53)
    have e : ((1 : Rat) - 1 / 2 ^ 53) * 2 ^ 53 = 2 ^ 53 - 1 := by norm_num
    rw [e] at this
    norm_num at this ⊢
    exact this
  have hhigh : (roundHalfEven (p / (1 / 2 ^ 53)) : Rat) < ((2 ^ 53 : Int) : Rat) := by
    rw [hm]
    push_cast
    have := mul_lt_mul_of_pos_right h1 (by positivity : (0 : Rat) < 2 ^ 53)
    rw [one_mul] at this
    norm_num at this ⊢
    exact this
  have a : (2 ^ 53 - 1 : Int) < roundHalfEven (p / (1 / 2 ^ 53)) := by exact_mod_cast hlow
  have b : roundHalfEven (p / (1 / 2 ^ 53)) < (2 ^ 53 : Int) := by exact_mod_cast hhigh
  omega

/-- The product of the largest `double` below 1 with a positive integer
`n < 2 ^ 53` rounds to a value below `n`. -/
theorem roundMagnitude_pred_one_mul (n : Nat) (hn0 : 0 < n) (hn1 : n < 2 ^ 53) :
    roundMagnitude ((1 - 1 / 2 ^ 53) * (n : Rat)) < n := by
  obtain ⟨h1, h2⟩ := natLog2_spec n (by omega)
  have hk : natLog2 n < 53 := by
    have : 2 ^ natLog2 n < 2 ^ 53 := lt_of_le_of_lt h1 hn1
    exact (Nat.pow_lt_pow_iff_right (by norm_num)).mp this
  generalize natLog2 n = k at h1 h2 hk
  have hnq : (0 : Rat) < n := by exact_mod_cast hn0
  have hn1q : (n : Rat) < 2 ^ 53 := by exact_mod_cast hn1
  have h1q : (2 : Rat) ^ k ≤ n := by exact_mod_cast h1
  have h2q : (n : Rat) < 2 ^ (k + 1) := by exact_mod_cast h2
  have hA : (0 : Rat) < 2 ^ k := by positivity
  have hqpos : 0 < (1 - 1 / 2 ^ 53) * (n : Rat) := mul_pos (by norm_num) hnq
  have hqlt : (1 - 1 / 2 ^ 53) * (n : Rat) < n := by
    have : (1 - 1 / 2 ^ 53) * (n : Rat) < 1 * n := mul_lt_mul_of_pos_right (by norm_num) hnq
    rwa [one_mul] at this
  by_cases hpow : n = 2 ^ k
  · -- the product is the value of binary64 just below `2 ^ k`
    have hnk : (n : Rat) = 2 ^ k := by exact_mod_cast hpow
    have he : binaryExponent ((1 - 1 / 2 ^ 53) * (n : Rat)) = (k : Int) - 1 := by
      apply binaryExponent_eq _ hqpos
      · rw [hnk, zpow_sub₀ (by norm_num), zpow_natCast, zpow_one]
        have : (2 : Rat) ^ k / 2 = (1 / 2) * 2 ^ k := by ring
        rw [this]
        exact mul_le_mul_of_nonneg_right (by norm_num) (le_of_lt hA)
      · rw [sub_add_cancel, zpow_natCast, ← hnk]
        exact hqlt
    have hulp : ulpAt ((1 - 1 / 2 ^ 53) * (n : Rat)) = 1 / (2 : Rat) ^ (53 - k) := by
      unfold ulpAt
      rw [he, max_eq_left (by omega)]
      have := two_zpow_sub_of_le k 53 (by omega)
      rw [← this]
      congr 1
      push_cast
      ring
    have hsplit : (2 : Rat) ^ (53 - k) * 2 ^ k = 2 ^ 53 := by
      rw [← pow_add]
      congr 1
      omega
    have hrep : (1 - 1 / 2 ^ 53) * (n : Rat)
        = ((2 ^ 53 - 1 : Int) : Rat) * ulpAt ((1 - 1 / 2 ^ 53) * (n : Rat)) := by
      rw [hulp, hnk]
      push_cast
      rw [mul_one_div, eq_div_iff (by positivity)]
      have : ((1 : Rat) - 1 / 2 ^ 53) * 2 ^ k * 2 ^ (53 - k)
          = (1 - 1 / 2 ^ 53) * (2 ^ (53 - k) * 2 ^ k) := by ring
      rw [this, hsplit]
      norm_num
    rw [roundMagnitude_of_multiple _ _ hrep]
    exact hqlt
  · -- the product stays in the binade of `n` and lies nearer to the value below `n`
    have hgt : 2 ^ k + 1 ≤ n := by omega
    have hgtq : (2 : Rat) ^ k + 1 ≤ n := by exact_mod_cast hgt
    have hfrac : (n : Rat) / 2 ^ 53 < 1 := by
      rw [div_lt_one (by positivity)]
      exact hn1q
    have hqexp : (1 - 1 / 2 ^ 53) * (n : Rat) = n - n / 2 ^ 53 := by ring
    have he : binaryExponent ((1 - 1 / 2 ^ 53) * (n : Rat)) = (k : Int) := by
      apply binaryExponent_eq _ hqpos
      · rw [zpow_natCast, hqexp]
        linarith
      · rw [show ((k : Int) + 1) = ((k + 1 : Nat) : Int) by push_cast; ring, zpow_natCast]
        exact lt_trans hqlt h2q
    have hulp : ulpAt ((1 - 1 / 2 ^ 53) * (n : Rat)) = 1 / (2 : Rat) ^ (52 - k) := by
      unfold ulpAt
      rw [he, max_eq_left (by omega)]
      exact two_zpow_sub_of_le k 52 (by omega)
    have hB : (0 : Rat) < 2 ^ (52 - k) := by positivity
    have hsplit : (2 : Rat) ^ k * 2 ^ (52 - k) = 2 ^ 52 := by
      rw [← pow_add]
      congr 1
      omega
    have hround : roundHalfEven ((1 - 1 / 2 ^ 53) * (n : Rat)
        / ulpAt ((1 - 1 / 2 ^ 53) * (n : Rat))) ≤ ((n * 2 ^ (52 - k) : Nat) : Int) - 1 := by
      apply roundHalfEven_le_of_lt_half
      rw [hulp, div_div_eq_mul_div, div_one, hqexp]
      push_cast
      have hmul : (2 : Rat) ^ k * 2 ^ (52 - k) < (n : Rat) * 2 ^ (52 - k) :=
        mul_lt_mul_of_pos_right (by linarith) hB
      rw [hsplit] at hmul
      have e : ((n : Rat) - n / 2 ^ 53) * 2 ^ (52 - k)
          = n * 2 ^ (52 - k) - (n * 2 ^ (52 - k)) / 2 ^ 53 := by ring
      rw [e]
      have hhalf : (1 : Rat) / 2 < (n * 2 ^ (52 - k)) / 2 ^ 53 := by
        rw [lt_div_iff₀ (by positivity)]
        have : (1 : Rat) / 2 * 2 ^ 53 = 2 ^ 52 := by norm_num
        rw [this]
        exact hmul
      linarith
    unfold roundMagnitude
    have hu := ulpAt_pos ((1 - 1 / 2 ^ 53) * (n : Rat))
    have hcast : (roundHalfEven ((1 - 1 / 2 ^ 53) * (n : Rat)
        / ulpAt ((1 - 1 / 2 ^ 53) * (n : Rat))) : Rat)
          ≤ (n : Rat) * 2 ^ (52 - k) - 1 := by
      have := (Int.cast_le (R := Rat)).mpr hround
      push_cast at this
      exact this
    calc (roundHalfEven ((1 - 1 / 2 ^ 53) * (n : Rat)
          / ulpAt ((1 - 1 / 2 ^ 53) * (n : Rat))) : Rat)
            * ulpAt ((1 - 1 / 2 ^ 53) * (n : Rat))
        ≤ ((n : Rat) * 2 ^ (52 - k) - 1) * ulpAt ((1 - 1 / 2 ^ 53) * (n : Rat)) :=
          mul_le_mul_of_nonneg_right hcast (le_of_lt hu)
      _ = n - ulpAt ((1 - 1 / 2 ^ 53) * (n : Rat)) := by
          rw [hulp]
          field_simp
      _ < n := by linarith

/-- For a `double` percentile in `[0, 1)` and a sample count `n` with
`0 < n < 2 ^ 53`, the rounded product lies in `[0, n)`. -/
theorem mulDouble_lt_samples (p : Rat) (n : Int) (hd : IsDouble p) (hp0 : 0 ≤ p) (hp1 : p < 1)
    (hn0 : 0 < n) (hn1 : n < 2 ^ 53) :
    0 ≤ mulDouble p n ∧ mulDouble p n < n := by
  have hnq : (0 : Rat) < n := by exact_mod_cast hn0
  constructor
  · exact roundDouble_nonneg _ (mul_nonneg hp0 (le_of_lt hnq))
  · have hle : p * n ≤ (1 - 1 / 2 ^ 53) * n :=
      mul_le_mul_of_nonneg_right (hd.le_pred_one p hp1) (le_of_lt hnq)
    have hcast : (n : Rat) = (n.toNat : Rat) := by
      have : (n.toNat : Int) = n := Int.toNat_of_nonneg (le_of_lt hn0)
      have h2 : ((n.toNat : Int) : Rat) = (n : Rat) := by rw [this]
      rw [Int.cast_natCast] at h2
      exact h2.symm
    have hB := roundMagnitude_pred_one_mul n.toNat (by omega) (by omega)
    rw [← hcast] at hB
    have hrd : roundDouble ((1 - 1 / 2 ^ 53) * (n : Rat))
        = roundMagnitude ((1 - 1 / 2 ^ 53) * (n : Rat)) := by
      unfold roundDouble
      rw [if_neg (not_lt.mpr (mul_nonneg (by norm_num) (le_of_lt hnq)))]
    unfold mulDouble
    exact lt_of_le_of_lt (roundDouble_mono hle) (by rw [hrd]; exact hB)

theorem getPercentile_of_index (percentile : Rat) (draw : Nat → Rat) (samples : Int)
    (r : List Rat) (hr : sampleLoop draw samples.toNat = .ok r)
    (hlen : r.length = samples.toNat)
    (h0 : 0 ≤ truncToInt (mulDouble percentile samples))
    (h1 : truncToInt (mulDouble percentile samples) < samples) :
    ∃ (hk : (truncToInt (mulDouble percentile samples)).toNat < r.length),
      getPercentile percentile draw samples
        = .ok (r[(truncToInt (mulDouble percentile samples)).toNat]) := by
  have hk : (truncToInt (mulDouble percentile samples)).toNat < r.length := by omega
  refine ⟨hk, ?_⟩
  unfold getPercentile
  rw [hr]
  simp only []
  rw [if_neg (not_not.mpr (le_of_lt h1)), if_neg (not_not.mpr h0),
    List.getElem?_eq_getElem hk]

/-! ## C14: the value returned by getPercentile -/

theorem truncToInt_mono {p q : Rat} (h : p ≤ q) : truncToInt p ≤ truncToInt q := by
  unfold truncToInt
  by_cases hp : 0 ≤ p
  · rw [if_pos hp, if_pos (le_trans hp h)]
    exact Int.floor_mono h
  · rw [if_neg hp]
    by_cases hq : 0 ≤ q
    · rw [if_pos hq]
      have h1 : ⌈p⌉ ≤ 0 := Int.ceil_le.mpr (by exact_mod_cast le_of_lt (not_le.mp hp))
      have h2 : 0 ≤ ⌊q⌋ := Int.floor_nonneg.mpr hq
      omega
    · rw [if_neg hq]
      exact Int.ceil_mono h

/-- C16 (percentile monotonicity). For the same drawn values and the same
sample count `n`, and two percentiles `p1 ≤ p2` whose indices (the truncated
`double` products with `n`) are both valid positions of the sample vector,
`getPercentile` returns for `p1` a value not greater than the value it returns
for `p2`. -/
theorem getPercentile_monotone (p1 p2 : Rat) (draw : Nat → Rat) (n : Nat) (hp : p1 ≤ p2)
    (h10 : 0 ≤ truncToInt (mulDouble p1 n)) (h11 : truncToInt (mulDouble p1 n) < n)
    (h20 : 0 ≤ truncToInt (mulDouble p2 n)) (h21 : truncToInt (mulDouble p2 n) < n) :
    ∃ v1 v2 : Rat, getPercentile p1 draw n = .ok v1 ∧ getPercentile p2 draw n = .ok v2 ∧
      v1 ≤ v2 := by
  obtain ⟨r, hr, hl, hs, _⟩ := sampleLoop_spec draw n
  have hr' : sampleLoop draw (n : Int).toNat = .ok r := by rw [Int.toNat_ofNat]; exact hr
  have hl' : r.length = (n : Int).toNat := by rw [Int.toNat_ofNat]; exact hl
  obtain ⟨hk1, hget1⟩ := getPercentile_of_index p1 draw n r hr' hl'
    (by exact_mod_cast h10) (by exact_mod_cast h11)
  obtain ⟨hk2, hget2⟩ := getPercentile_of_index p2 draw n r hr' hl'
    (by exact_mod_cast h20) (by exact_mod_cast h21)
  refine ⟨_, _, hget1, hget2, ?_⟩
  have hidx : truncToInt (mulDouble p1 ((n : Int) : Rat))
      ≤ truncToInt (mulDouble p2 ((n : Int) : Rat)) :=
    truncToInt_mono (mulDouble_mono _ hp (by exact_mod_cast Nat.cast_nonneg n))
  have hnat := Int.toNat_le_toNat hidx
  generalize (truncToInt (mulDouble p1 ((n : Int) : Rat))).toNat = a at hk1 hnat ⊢
  generalize (truncToInt (mulDouble p2 ((n : Int) : Rat))).toNat = b at hk2 hnat ⊢
  rcases Nat.eq_or_lt_of_le hnat with heq | hlt
  · subst heq; exact le_refl _
  · exact (List.pairwise_iff_getElem.mp hs) _ _ hk1 hk2 hlt

/-- Witness for `getPercentile_monotone`: three drawn values 3, 1, 2 and the
percentiles 1/4 and 3/4, with the indices 0 and 2. -/
theorem getPercentile_monotone_witness :
    ∃ v1 v2 : Rat, getPercentile (1 / 4) drawThree (3 : Nat) = .ok v1 ∧
      getPercentile (3 / 4) drawThree (3 : Nat) = .ok v2 ∧ v1 ≤ v2 :=
  getPercentile_monotone (1 / 4) (3 / 4) drawThree 3 (by decide!) (by decide!) (by decide!)
    (by decide!) (by decide!)

/-! ## C15: the domain of getPercentile -/

theorem getPercentile_assert (percentile : Rat) (draw : Nat → Rat) (samples : Int)
    (h : truncToInt (mulDouble percentile samples) < 0
      ∨ samples < truncToInt (mulDouble percentile samples)) :
    getPercentile percentile draw samples = .error .assertion := by
  obtain ⟨r, hr, _⟩ := sampleLoop_spec draw samples.toNat
  unfold getPercentile
  rw [hr]
  simp only []
  by_cases h1 : truncToInt (mulDouble percentile samples) ≤ samples
  · rw [if_neg (not_not.mpr h1), if_pos (by omega)]
  · rw [if_pos h1]

/-- C15 as stated fails for three drawn values: the percentile `-1/4`, outside
`[0, 1]`, has the product `-3/4` and the index `(int)(-3/4) = 0`, and
`getPercentile` returns the smallest drawn value instead of failing; the
percentile `1`, inside `[0, 1]`, has index 3, which passes both assertions and
is read outside the vector. -/
theorem getPercentile_domain_not_unit_interval :
    ¬ (∀ p : Rat, (p < 0 ∨ 1 < p) → ∃ e, getPercentile p drawThree 3 = .error e) ∧
    ¬ (∀ p : Rat, 0 ≤ p → p ≤ 1 → ∃ v, getPercentile p drawThree 3 = .ok v) := by
  constructor
  · intro h
    obtain ⟨e, he⟩ := h (-1 / 4) (Or.inl (by norm_num))
    have h2 : getPercentile (-1 / 4) drawThree 3 = .ok 1 := by decide!
    rw [h2] at he
    cases he
  · intro h
    obtain ⟨v, hv⟩ := h 1 (by norm_num) (le_refl _)
    have h2 : getPercentile 1 drawThree 3 = .error .range := by decide!
    rw [h2] at hv
    cases hv

/-- C15 as amended. `getPercentile` checks the index `k = (int)(percentile *
samples)`, the truncation of the `double` product, not the percentile. It
returns one of the drawn values whenever `k` lies in `[0, samples)`, which is
the case for `0 < samples < 2 ^ 31` and every `double` percentile in `[0, 1)`.
Where the conversion to `int` is defined, it stops with an assertion fault
whenever `k` is negative or greater than `samples`, which is the case for every
`samples < 0`, and for `0 < samples < 2 ^ 31` as soon as
`percentile * samples ≤ -1` or `percentile * samples ≥ samples + 1`. -/
theorem getPercentile_domain (percentile : Rat) (draw : Nat → Rat) (samples : Int) :
    (0 ≤ truncToInt (mulDouble percentile samples) →
      truncToInt (mulDouble percentile samples) < samples →
      ∃ (v : Rat) (i : Nat), getPercentile percentile draw samples = .ok v ∧
        i < samples.toNat ∧ v = draw i) ∧
    (0 < samples → samples < 2 ^ 31 → IsDouble percentile → 0 ≤ percentile →
      percentile < 1 →
      ∃ (v : Rat) (i : Nat), getPercentile percentile draw samples = .ok v ∧
        i < samples.toNat ∧ v = draw i) ∧
    (IntCastDefined (mulDouble percentile samples) →
      (truncToInt (mulDouble percentile samples) < 0
        ∨ samples < truncToInt (mulDouble percentile samples)) →
      getPercentile percentile draw samples = .error .assertion) ∧
    (IntCastDefined (mulDouble percentile samples) → samples < 0 →
      getPercentile percentile draw samples = .error .assertion) ∧
    (IntCastDefined (mulDouble percentile samples) → 0 < samples → samples < 2 ^ 31 →
      (percentile * samples ≤ -1 ∨ (samples : Rat) + 1 ≤ percentile * samples) →
      getPercentile percentile draw samples = .error .assertion) := by
  have hvalid : 0 ≤ truncToInt (mulDouble percentile samples) →
      truncToInt (mulDouble percentile samples) < samples →
      ∃ (v : Rat) (i : Nat), getPercentile percentile draw samples = .ok v ∧
        i < samples.toNat ∧ v = draw i := by
    intro h0 h1
    obtain ⟨r, hr, hl, _, hp⟩ := sampleLoop_spec draw samples.toNat
    obtain ⟨hk, hget⟩ := getPercentile_of_index percentile draw samples r hr hl h0 h1
    have hmem : r[(truncToInt (mulDouble percentile samples)).toNat] ∈
        (List.range samples.toNat).map draw := hp.mem_iff.mp (List.getElem_mem hk)
    obtain ⟨i, hi, hv⟩ := List.mem_map.mp hmem
    exact ⟨_, i, hget, List.mem_range.mp hi, hv.symm⟩
  refine ⟨hvalid, ?_, fun _ => getPercentile_assert percentile draw samples, ?_, ?_⟩
  · intro hs0 hs1 hd hp0 hp1
    obtain ⟨hnn, hlt⟩ := mulDouble_lt_samples percentile samples hd hp0 hp1 hs0
      (lt_trans hs1 (by norm_num))
    apply hvalid
    · unfold truncToInt; rw [if_pos hnn]; exact Int.floor_nonneg.mpr hnn
    · unfold truncToInt; rw [if_pos hnn]; exact Int.floor_lt.mpr hlt
  · intro _ hs
    apply getPercentile_assert
    by_cases h : truncToInt (mulDouble percentile samples) < 0
    · exact Or.inl h
    · exact Or.inr (by omega)
  · intro _ hs0 hs1 hcase
    apply getPercentile_assert
    rcases hcase with h | h
    · left
      have hle : mulDouble percentile samples ≤ -1 := by
        have := roundDouble_mono h
        rw [show (-1 : Rat) = ((-1 : Int) : Rat) by norm_num,
          roundDouble_intCast (-1) (by norm_num)] at this
        unfold mulDouble
        exact_mod_cast this
      have hneg : ¬ (0 ≤ mulDouble percentile samples) := by
        intro h0
        have : (0 : Rat) ≤ -1 := le_trans h0 hle
        norm_num at this
      unfold truncToInt
      rw [if_neg hneg]
      have : ⌈mulDouble percentile samples⌉ ≤ -1 := Int.ceil_le.mpr (by exact_mod_cast hle)
      omega
    · right
      have hsq : (0 : Rat) < samples := by exact_mod_cast hs0
      have hge : (samples : Rat) + 1 ≤ mulDouble percentile samples := by
        have := roundDouble_mono h
        rw [show (samples : Rat) + 1 = ((samples + 1 : Int) : Rat) by push_cast; ring,
          roundDouble_intCast (samples + 1)
            (by rw [abs_of_nonneg (by omega)]; omega)] at this
        unfold mulDouble
        push_cast at this
        exact this
      have hnn : 0 ≤ mulDouble percentile samples := le_trans (by linarith) hge
      unfold truncToInt
      rw [if_pos hnn]
      have : samples + 1 ≤ ⌊mulDouble percentile samples⌋ :=
        Int.le_floor.mpr (by exact_mod_cast hge)
      omega

/-- Witness for `getPercentile_domain`: three drawn values 3, 1, 2. The
percentile 1/2 returns a drawn value; the percentile 3/2 stops with an
assertion fault; and so does the `double` nearest to -1/3, whose exact product
with 3 lies above -1 and rounds to -1. -/
theorem getPercentile_domain_witness :
    (∃ (v : Rat) (i : Nat), getPercentile (1 / 2) drawThree 3 = .ok v ∧
        i < (3 : Int).toNat ∧ v = drawThree i) ∧
    getPercentile (3 / 2) drawThree 3 = .error .assertion ∧
    (-1 < (-6004799503160661 / 18014398509481984 : Rat) * 3 ∧
      getPercentile (-6004799503160661 / 18014398509481984) drawThree 3
        = .error .assertion) :=
  ⟨(getPercentile_domain (1 / 2) drawThree 3).2.1 (by decide) (by decide) (by decide!)
      (by norm_num) (by norm_num),
    (getPercentile_domain (3 / 2) drawThree 3).2.2.2.2 (by decide!) (by decide) (by decide)
      (Or.inr (by norm_num)),
    by norm_num,
    (getPercentile_domain (-6004799503160661 / 18014398509481984) drawThree 3).2.2.1
      (by decide!) (Or.inl (by decide!))⟩

/-! ## C18: the carving rule -/

theorem firstStone_append_of_mem (m : Map) (i : Nat) (pre ext : List Nat) (b : Nat)
    (hb : b ∈ pre) (hstone : m.tile i b = .STONE) :
    firstStone m i (pre ++ ext) = firstStone m i pre := by
  unfold firstStone
  rw [List.find?_append]
  cases hf : pre.find? (fun (j : Nat) => decide (m.tile i j = .STONE)) with
  | some x => rfl
  | none =>
    have := List.find?_eq_none.mp hf b hb
    simp [hstone] at this

theorem firstStone_lt (m : Map) (i : Nat) (rows : List Nat) (b : Nat)
    (hrows : ∀ j ∈ rows, j < m.height) (hb : b ∈ rows) (hstone : m.tile i b = .STONE) :
    firstStone m i rows < m.height := by
  unfold firstStone
  cases hf : rows.find? (fun (j : Nat) => decide (m.tile i j = .STONE)) with
  | some x =>
    have := hrows x (List.mem_of_find?_eq_some hf)
    simp only []
    omega
  | none =>
    have := List.find?_eq_none.mp hf b hb
    simp [hstone] at this

theorem firstStone_none (m : Map) (i : Nat) (rows : List Nat)
    (h : ∀ b ∈ rows, m.tile i b ≠ .STONE) : firstStone m i rows = m.height := by
  unfold firstStone
  have : rows.find? (fun (j : Nat) => decide (m.tile i j = .STONE)) = none := by
    apply List.find?_eq_none.mpr
    intro b hb
    simp [h b hb]
  rw [this]

theorem felsicResult_append (p : FelsicParams) (m : Map) (i : Nat) (pre ext : List Nat)
    (b : Nat) (hb : b ∈ pre) :
    felsicResult p m i (firstStone m i (pre ++ ext)) b
      = felsicResult p m i (firstStone m i pre) b := by
  unfold felsicResult
  by_cases hstone : m.tile i b = .STONE
  · rw [firstStone_append_of_mem m i pre ext b hb hstone]
  · rw [if_neg hstone, if_neg hstone]

theorem firstStone_append_found (m : Map) (i : Nat) (pre : List Nat) (j : Nat)
    (hpre : ∀ b ∈ pre, m.tile i b ≠ .STONE) (hj : m.tile i j = .STONE) :
    firstStone m i (pre ++ [j]) = j := by
  unfold firstStone
  rw [List.find?_append]
  have : pre.find? (fun (j : Nat) => decide (m.tile i j = .STONE)) = none := by
    apply List.find?_eq_none.mpr
    intro b hb
    simp [hpre b hb]
  rw [this]
  simp [hj]

theorem firstStone_append_skip (m : Map) (i : Nat) (pre : List Nat) (j : Nat)
    (hj : m.tile i j ≠ .STONE) :
    firstStone m i (pre ++ [j]) = firstStone m i pre := by
  unfold firstStone
  rw [List.find?_append]
  cases hf : pre.find? (fun (j : Nat) => decide (m.tile i j = .STONE)) with
  | some x => rfl
  | none => simp [hj]

theorem felsicCell_step (p : FelsicParams) (mref m0 : Map) (i : Nat) (pre : List Nat)
    (st : Map × Int) (j : Nat) (hinv : FelsicInv p mref m0 i pre st)
    (hcol : ∀ b : Nat, b < mref.height → m0.tile i b = mref.tile i b)
    (hi : i < mref.width) (hj : j < mref.height) (hjpre : j ∉ pre)
    (hpre : ∀ b ∈ pre, b < mref.height) :
    ∃ st', felsicCell p i st j = .ok st' ∧ FelsicInv p mref m0 i (pre ++ [j]) st' := by
  have hcur : st.1.tile i j = mref.tile i j := by
    rw [hinv.tiles i j hi hj, if_neg (fun h => hjpre h.2), hcol j hj]
  have hjh : (j : Int) < st.1.height := by rw [hinv.height]; exact_mod_cast hj
  have hold : ∀ a b : Nat, a < mref.width → b < mref.height → ¬ (a = i ∧ b = j) →
      st.1.tile a b = if a = i ∧ b ∈ pre ++ [j]
        then felsicResult p mref i (firstStone mref i (pre ++ [j])) b else m0.tile a b := by
    intro a b ha hb hne
    rw [hinv.tiles a b ha hb]
    by_cases hc : a = i ∧ b ∈ pre
    · rw [if_pos hc, if_pos ⟨hc.1, List.mem_append_left _ hc.2⟩,
        felsicResult_append p mref i pre [j] b hc.2]
    · rw [if_neg hc, if_neg]
      rintro ⟨h1, h2⟩
      rcases List.mem_append.mp h2 with h | h
      · exact hc ⟨h1, h⟩
      · exact hne ⟨h1, by simpa using h⟩
  unfold felsicCell
  rw [getTileType_eq st.1 i j hinv.wf (by omega) hjh, hcur]
  simp only []
  by_cases hstone : mref.tile i j = .STONE
  · rw [if_pos hstone, setTileType_eq st.1 i j _ hinv.wf (by omega) hjh]
    simp only []
    have hsurf : (if st.2 = st.1.height then (j : Int) else st.2)
        = firstStone mref i (pre ++ [j]) := by
      rw [hinv.surface, hinv.height]
      by_cases hex : ∃ b ∈ pre, mref.tile i b = .STONE
      · obtain ⟨b, hb, hbs⟩ := hex
        have hlt := firstStone_lt mref i pre b hpre hb hbs
        rw [if_neg (by omega), firstStone_append_of_mem mref i pre [j] b hb hbs]
      · have hnone : ∀ b ∈ pre, mref.tile i b ≠ .STONE := fun b hb hbs => hex ⟨b, hb, hbs⟩
        rw [firstStone_none mref i pre hnone, if_pos rfl,
          firstStone_append_found mref i pre j hnone hstone]
    rw [hsurf]
    refine ⟨_, rfl, ⟨put_WF _ _ _ _ hinv.wf, hinv.width, hinv.height, ?_, rfl⟩⟩
    intro a b ha hb
    show (st.1.put i j _).tile a b = _
    rw [tile_put st.1 i j _ a b hinv.wf (by omega) hjh (by omega),
      wrapX_of_inRange st.1 a (by omega) (by rw [hinv.width]; exact_mod_cast ha),
      wrapX_of_inRange st.1 i (by omega) (by rw [hinv.width]; exact_mod_cast hi)]
    by_cases hc : a = i ∧ b = j
    · rw [if_pos ⟨by exact_mod_cast hc.1, by exact_mod_cast hc.2⟩,
        if_pos ⟨hc.1, by rw [hc.2]; simp⟩, hc.2]
      unfold felsicResult
      rw [if_pos hstone]
    · rw [if_neg (fun h => hc ⟨by exact_mod_cast h.1, by exact_mod_cast h.2⟩)]
      exact hold a b ha hb hc
  · rw [if_neg hstone]
    refine ⟨st, rfl, ⟨hinv.wf, hinv.width, hinv.height, ?_, ?_⟩⟩
    · intro a b ha hb
      by_cases hc : a = i ∧ b = j
      · rw [hc.1, hc.2, hcur, if_pos ⟨rfl, by simp⟩]
        unfold felsicResult
        rw [if_neg hstone]
      · exact hold a b ha hb hc
    · rw [hinv.surface, firstStone_append_skip mref i pre j hstone]

theorem felsicCells_spec (p : FelsicParams) (mref m0 : Map) (i : Nat)
    (hcol : ∀ b : Nat, b < mref.height → m0.tile i b = mref.tile i b)
    (hi : i < mref.width) :
    ∀ (rest pre : List Nat) (st : Map × Int), FelsicInv p mref m0 i pre st →
      (pre ++ rest).Nodup → (∀ b ∈ pre ++ rest, b < mref.height) →
      ∃ st', rest.foldlM (felsicCell p i) st = .ok st' ∧
        FelsicInv p mref m0 i (pre ++ rest) st' := by
  intro rest
  induction rest with
  | nil =>
    intro pre st hinv _ _
    rw [List.append_nil]
    exact ⟨st, rfl, hinv⟩
  | cons j rest ih =>
    intro pre st hinv hnd hrange
    have hjpre : j ∉ pre := by
      intro hmem
      have := (List.nodup_append.mp hnd).2.2
      exact this hmem (List.mem_cons_self _ _)
    obtain ⟨st1, h1, hinv1⟩ := felsicCell_step p mref m0 i pre st j hinv hcol hi
      (hrange j (by simp)) hjpre (fun b hb => hrange b (List.mem_append_left _ hb))
    have e : pre ++ j :: rest = (pre ++ [j]) ++ rest := by simp
    rw [e] at hnd hrange ⊢
    obtain ⟨st2, h2, hinv2⟩ := ih (pre ++ [j]) st1 hinv1 hnd hrange
    exact ⟨st2, by rw [foldlM_cons_ok _ _ _ _ _ h1]; exact h2, hinv2⟩

theorem felsicColumn_spec (p : FelsicParams) (mref m0 : Map) (i : Nat) (hwf : m0.WF)
    (hwidth : m0.width = mref.width) (hheight : m0.height = mref.height)
    (hcol : ∀ b : Nat, b < mref.height → m0.tile i b = mref.tile i b)
    (hi : i < mref.width) :
    ∃ m1, felsicColumn p m0 i = .ok m1 ∧ m1.WF ∧ m1.width = mref.width ∧
      m1.height = mref.height ∧
      ∀ a b : Nat, a < mref.width → b < mref.height →
        m1.tile a b = if a = i then felsicResult p mref i (topStone mref i) b
          else m0.tile a b := by
  have hinit : FelsicInv p mref m0 i [] (m0, (m0.height : Int)) :=
    ⟨hwf, hwidth, hheight, fun a b _ _ => by simp,
      by show (m0.height : Int) = firstStone mref i []; rw [hheight]; rfl⟩
  obtain ⟨st, hrun, hinv⟩ := felsicCells_spec p mref m0 i hcol hi
    (List.range m0.height).reverse [] _ hinit
    (by simpa using List.nodup_range m0.height)
    (by intro b hb; simp at hb; omega)
  refine ⟨st.1, ?_, hinv.wf, hinv.width, hinv.height, ?_⟩
  · unfold felsicColumn
    rw [hrun]
  · intro a b ha hb
    rw [hinv.tiles a b ha hb]
    simp only [List.nil_append, List.mem_reverse, List.mem_range]
    unfold topStone
    rw [hheight]
    by_cases hai : a = i
    · rw [if_pos ⟨hai, hb⟩, if_pos hai]
    · rw [if_neg (fun h => hai h.1), if_neg hai]

theorem felsicColumns_spec (p : FelsicParams) (m : Map) :
    ∀ (rest pre : List Nat) (mc : Map), mc.WF → mc.width = m.width → mc.height = m.height →
      (∀ a b : Nat, a < m.width → b < m.height →
        mc.tile a b = if a ∈ pre then felsicResult p m a (topStone m a) b else m.tile a b) →
      (pre ++ rest).Nodup → (∀ a ∈ pre ++ rest, a < m.width) →
      ∃ m', rest.foldlM (felsicColumn p) mc = .ok m' ∧ m'.WF ∧ m'.width = m.width ∧
        m'.height = m.height ∧
        ∀ a b : Nat, a < m.width → b < m.height →
          m'.tile a b = if a ∈ pre ++ rest then felsicResult p m a (topStone m a) b
            else m.tile a b := by
  intro rest
  induction rest with
  | nil =>
    intro pre mc hwf hw hh htiles _ _
    rw [List.append_nil]
    exact ⟨mc, rfl, hwf, hw, hh, htiles⟩
  | cons i rest ih =>
    intro pre mc hwf hw hh htiles hnd hrange
    have hipre : i ∉ pre := by
      intro hmem
      exact (List.nodup_append.mp hnd).2.2 hmem (List.mem_cons_self _ _)
    have hi : i < m.width := hrange i (by simp)
    obtain ⟨m1, h1, hwf1, hw1, hh1, ht1⟩ := felsicColumn_spec p m mc i hwf hw hh
      (fun b hb => by rw [htiles i b hi hb, if_neg hipre]) hi
    have e : pre ++ i :: rest = (pre ++ [i]) ++ rest := by simp
    rw [e] at hnd hrange ⊢
    obtain ⟨m2, h2, hrest⟩ := ih (pre ++ [i]) m1 hwf1 hw1 hh1
      (by
        intro a b ha hb
        rw [ht1 a b ha hb]
        by_cases hai : a = i
        · rw [if_pos hai, if_pos (by rw [hai]; simp), hai]
        · rw [if_neg hai, htiles a b ha hb]
          by_cases hap : a ∈ pre
          · rw [if_pos hap, if_pos (List.mem_append_left _ hap)]
          · rw [if_neg hap, if_neg]
            intro h
            rcases List.mem_append.mp h with h | h
            · exact hap h
            · exact hai (by simpa using h))
      hnd hrange
    exact ⟨m2, by rw [foldlM_cons_ok _ _ _ _ _ h1]; exact h2, hrest⟩

/-- On a well-formed grid `setFelsic` returns a grid of the same dimensions in
which every tile is `felsicResult` of the input tile, with `surface` the row of
the highest STONE tile of its column in the input grid. -/
theorem setFelsic_spec (p : FelsicParams) (m : Map) (hwf : m.WF) :
    ∃ m', setFelsic p m = .ok m' ∧ m'.WF ∧ m'.width = m.width ∧ m'.height = m.height ∧
      ∀ a b : Nat, a < m.width → b < m.height →
        m'.tile a b = felsicResult p m a (topStone m a) b := by
  obtain ⟨m', hrun, hwf', hw', hh', ht⟩ := felsicColumns_spec p m (List.range m.width) [] m
    hwf rfl rfl (fun a b _ _ => by simp) (by simpa using List.nodup_range m.width)
    (by intro a ha; simpa using ha)
  refine ⟨m', hrun, hwf', hw', hh', ?_⟩
  intro a b ha hb
  rw [ht a b ha hb, if_pos (by simpa using ha)]

theorem felsicClass_cases (p : FelsicParams) (felsic interp : Dbl) :
    felsicClass p felsic interp = .STONE ∨ felsicClass p felsic interp = .GRANITE ∨
      felsicClass p felsic interp = .BASALT ∨ felsicClass p felsic interp = .PERIDOTITE := by
  unfold felsicClass
  split_ifs <;> simp

/-! ## C19: setFelsic reclassifies stone only -/

/-- C19 (setFelsic). On a well-formed grid and for all limits and field values
(infinities and NaN included), `setFelsic` returns a grid of the same
dimensions in which every cell that did not hold STONE is unchanged, and every
cell `(i, j)` that held STONE holds STONE, GRANITE, BASALT or PERIDOTITE: the
type `felsicClass` chooses from the values `felsic` and `interp` adjusted for
the row `j` and for the row of the highest STONE tile of column `i`, that is
PERIDOTITE if `felsic < peridotLimit` and `interp - 0.7 > 0.25 * felsic`, else
BASALT if `felsic < basaltLimit`, else GRANITE if `felsic > graniteLimit`, else
STONE, with the comparisons and the arithmetic of `double`. -/
theorem setFelsic_reclassifies_stone_only (p : FelsicParams) (m : Map) (hwf : m.WF) :
    ∃ m', setFelsic p m = .ok m' ∧ m'.width = m.width ∧ m'.height = m.height ∧
      ∀ i j : Nat, i < m.width → j < m.height →
        ∃ t, m.getTileType i j = .ok t ∧
          (t ≠ .STONE → m'.getTileType i j = .ok t) ∧
          (t = .STONE →
            ∃ felsic interp : Dbl,
              (felsic, interp) = felsicAdjust p (topStone m i) j (p.felsicAt i j) ∧
              m'.getTileType i j = .ok (felsicClass p felsic interp) ∧
              (felsicClass p felsic interp = .STONE ∨
                felsicClass p felsic interp = .GRANITE ∨
                felsicClass p felsic interp = .BASALT ∨
                felsicClass p felsic interp = .PERIDOTITE) ∧
              (felsicClass p felsic interp =
                if felsic.lt p.peridotLimit = true
                    ∧ (interp.sub (.ofRat (7 / 10))).gt
                        ((Dbl.ofRat (25 / 100)).mul felsic) = true
                then .PERIDOTITE
                else if felsic.lt p.basaltLimit = true then .BASALT
                else if felsic.gt p.graniteLimit = true then .GRANITE
                else .STONE)) := by
  obtain ⟨m', hrun, hwf', hw', hh', ht⟩ := setFelsic_spec p m hwf
  refine ⟨m', hrun, hw', hh', ?_⟩
  intro i j hi hj
  have hget : m'.getTileType i j = .ok (felsicResult p m i (topStone m i) j) := by
    rw [getTileType_eq m' i j hwf' (by omega) (by rw [hh']; exact_mod_cast hj), ht i j hi hj]
  refine ⟨m.tile i j, getTileType_eq m i j hwf (by omega) (by exact_mod_cast hj), ?_, ?_⟩
  · intro hne
    rw [hget]
    unfold felsicResult
    rw [if_neg hne]
  · intro hst
    refine ⟨(felsicAdjust p (topStone m i) j (p.felsicAt i j)).1,
      (felsicAdjust p (topStone m i) j (p.felsicAt i j)).2, rfl, ?_,
      felsicClass_cases p _ _, rfl⟩
    rw [hget]
    unfold felsicResult
    rw [if_pos hst]

/-- Witness for `setFelsic_reclassifies_stone_only`: the grid `rockGrid` with
the parameters `felsicExample`. Of its STONE tiles, `(0, 0)` becomes
PERIDOTITE, `(0, 1)` GRANITE and `(2, 1)` BASALT, and `(2, 0)` stays STONE. The
tile `(1, 0)` is the only STONE tile of its column: the distance by which line
365 divides is 0, the quotient `0.0 / 0.0` is a NaN, every comparison with it
is false and the tile stays STONE. The WATER tile stays. -/
theorem setFelsic_reclassifies_stone_only_witness :
    setFelsic felsicExample rockGrid
      = .ok ⟨3, 2, [.PERIDOTITE, .STONE, .STONE,
                    .GRANITE, .WATER, .BASALT]⟩ ∧
    felsicAdjust felsicExample (topStone rockGrid 1) 0 (felsicExample.felsicAt 1 0)
      = (.nan, .nan) ∧
    ∃ m', setFelsic felsicExample rockGrid = .ok m' ∧ m'.width = rockGrid.width ∧
      m'.height = rockGrid.height ∧
      ∀ i j : Nat, i < rockGrid.width → j < rockGrid.height →
        ∃ t, rockGrid.getTileType i j = .ok t ∧
          (t ≠ .STONE → m'.getTileType i j = .ok t) ∧
          (t = .STONE →
            ∃ felsic interp : Dbl,
              (felsic, interp)
                = felsicAdjust felsicExample (topStone rockGrid i) j
                    (felsicExample.felsicAt i j) ∧
              m'.getTileType i j = .ok (felsicClass felsicExample felsic interp) ∧
              (felsicClass felsicExample felsic interp = .STONE ∨
                felsicClass felsicExample felsic interp = .GRANITE ∨
                felsicClass felsicExample felsic interp = .BASALT ∨
                felsicClass felsicExample felsic interp = .PERIDOTITE) ∧
              (felsicClass felsicExample felsic interp =
                if felsic.lt felsicExample.peridotLimit = true
                    ∧ (interp.sub (.ofRat (7 / 10))).gt
                        ((Dbl.ofRat (25 / 100)).mul felsic) = true
                then .PERIDOTITE
                else if felsic.lt felsicExample.basaltLimit = true then .BASALT
                else if felsic.gt felsicExample.graniteLimit = true then .GRANITE
                else .STONE)) :=
  ⟨by decide!, by decide!,
    setFelsic_reclassifies_stone_only felsicExample rockGrid (by decide)⟩

/-! ## removeWater and the ocean fill return a grid -/

theorem removeLoop_spec (i : Nat) :
    ∀ (fuel : Nat) (m : Map) (toRemove j : Int), m.WF → -1 ≤ j → j < m.height →
      j + 2 ≤ fuel →
      ∃ m', removeLoop i fuel m toRemove j = .ok m' ∧ m'.WF ∧ m'.width = m.width ∧
        m'.height = m.height := by
  intro fuel
  induction fuel with
  | zero => intro m toRemove j _ hj0 _ hf; omega
  | succ fuel ih =>
    intro m toRemove j hwf hj0 hj1 hf
    unfold removeLoop
    by_cases hc : toRemove > 0 ∧ j ≥ 0
    · rw [if_pos hc, getTileType_eq m i j hwf hc.2 hj1]
      simp only []
      by_cases hw : m.tile i j = .WATER
      · rw [if_pos hw, setTileType_eq m i j _ hwf hc.2 hj1]
        simp only []
        exact ih (m.put i j .EMPTY) (toRemove - 1) (j - 1) (put_WF _ _ _ _ hwf) (by omega)
          (by rw [put_height]; omega) (by omega)
      · rw [if_neg hw]
        by_cases he : m.tile i j ≠ .EMPTY
        · rw [if_pos he]
          exact ⟨m, rfl, hwf, rfl, rfl⟩
        · rw [if_neg he]
          exact ih m toRemove (j - 1) hwf (by omega) (by omega) (by omega)
    · rw [if_neg hc]
      exact ⟨m, rfl, hwf, rfl, rfl⟩

theorem oceanLoop_spec (seaLevel : Rat) (i : Nat) :
    ∀ (fuel : Nat) (m : Map) (j : Int), m.WF → j < m.height → (j + 1).toNat + 1 ≤ fuel →
      ∃ m', oceanLoop seaLevel i fuel m j = .ok m' ∧ m'.WF ∧ m'.width = m.width ∧
        m'.height = m.height := by
  intro fuel
  induction fuel with
  | zero =>
    intro m j _ _ hf
    unfold oceanLoop
    omega
  | succ fuel ih =>
    intro m j hwf hj1 hf
    unfold oceanLoop
    by_cases hc : j ≥ 0
    · rw [if_pos hc, getTileType_eq m i j hwf hc hj1]
      simp only []
      by_cases he : m.tile i j ≠ .EMPTY
      · rw [if_pos he]
        exact ⟨m, rfl, hwf, rfl, rfl⟩
      · rw [if_neg he]
        by_cases hs : (j : Rat) < seaLevel
        · rw [if_pos hs, setTileType_eq m i j _ hwf hc hj1]
          simp only []
          exact ih (m.put i j .WATER) (j - 1) (put_WF _ _ _ _ hwf)
            (by rw [put_height]; omega) (by omega)
        · rw [if_neg hs]
          exact ih m (j - 1) hwf (by omega) (by omega)
    · rw [if_neg hc]
      exact ⟨m, rfl, hwf, rfl, rfl⟩

theorem foldlM_dims {α : Type} (f : Map → α → Except Fault Map) (w h : Nat)
    (hf : ∀ (m : Map) (a : α), m.WF → m.width = w → m.height = h →
      ∃ m', f m a = .ok m' ∧ m'.WF ∧ m'.width = w ∧ m'.height = h) :
    ∀ (l : List α) (m : Map), m.WF → m.width = w → m.height = h →
      ∃ m', l.foldlM f m = .ok m' ∧ m'.WF ∧ m'.width = w ∧ m'.height = h := by
  intro l
  induction l with
  | nil => intro m hwf hw hh; exact ⟨m, rfl, hwf, hw, hh⟩
  | cons a l ih =>
    intro m hwf hw hh
    obtain ⟨m1, h1, hwf1, hw1, hh1⟩ := hf m a hwf hw hh
    obtain ⟨m2, h2, hrest⟩ := ih m1 hwf1 hw1 hh1
    exact ⟨m2, by rw [foldlM_cons_ok _ _ _ _ _ h1]; exact h2, hrest⟩

/-- On a well-formed grid `removeWater` returns a well-formed grid of the same
dimensions. -/
theorem removeWater_spec (removeDepth : Int) (m : Map) (hwf : m.WF) :
    ∃ m', removeWater removeDepth m = .ok m' ∧ m'.WF ∧ m'.width = m.width ∧
      m'.height = m.height := by
  unfold removeWater
  apply foldlM_dims _ m.width m.height _ _ m hwf rfl rfl
  intro mc i hwfc hw hh
  unfold removeColumn
  obtain ⟨m', h, hwf', hw', hh'⟩ := removeLoop_spec i (mc.height + 1) mc removeDepth
    ((mc.height : Int) - 1) hwfc (by omega) (by omega) (by push_cast; omega)
  exact ⟨m', h, hwf', by omega, by omega⟩

/-- On a well-formed grid, with a start row below the height of the grid, the
ocean fill returns a well-formed grid of the same dimensions. -/
theorem fillOcean_spec (top : Int) (seaLevel : Rat) (m : Map) (hwf : m.WF)
    (htop : top < m.height) :
    ∃ m', fillOcean top seaLevel m = .ok m' ∧ m'.WF ∧ m'.width = m.width ∧
      m'.height = m.height := by
  unfold fillOcean
  apply foldlM_dims _ m.width m.height _ _ m hwf rfl rfl
  intro mc i hwfc hw hh
  obtain ⟨m', h, hwf', hw', hh'⟩ := oceanLoop_spec seaLevel i (top.toNat + 2) mc top hwfc
    (by omega) (by omega)
  exact ⟨m', h, hwf', by omega, by omega⟩

/-! ## C20: the order of the hydrology stages -/

/-- C20 as stated fails on the all-EMPTY 2 x 2 grid with start row 1 and sea
level 1. In the code both `settleWater` passes and the trim leave the grid
all-EMPTY, and the ocean fill, which runs last, returns `floodedGrid`: the grid
handed on is the output of the ocean fill, not of a `settleWater` pass. In the
order of the claim (fill, settle, trim, settle) the trim removes the filled
water again and the result is the all-EMPTY grid. -/
theorem hydrology_order_differs :
    settleWater emptyGrid = .ok emptyGrid ∧
    removeWater 20 emptyGrid = .ok emptyGrid ∧
    fillOcean 1 1 emptyGrid = .ok floodedGrid ∧
    settleAndFill 1 1 emptyGrid = .ok floodedGrid ∧
    hydrologyAsSpecified 1 1 emptyGrid = .ok emptyGrid ∧
    floodedGrid ≠ emptyGrid := by
  refine ⟨by decide, by decide, by decide!, by decide!, by decide!, by decide⟩

/-- C20 as amended. On a well-formed grid, with the start row of the ocean fill
below the height of the grid, the hydrology stages of `generateEarth` all
return, in this order: `settleWater`, then `removeWater(20)`, then `settleWater`
again, then the ocean fill; the grid handed on is the output of the ocean fill
applied to the output of the second `settleWater` pass. -/
theorem hydrology_stage_order (top : Int) (seaLevel : Rat) (m : Map) (hwf : m.WF)
    (htop : top < m.height) :
    ∃ m1 m2 m3 m4, settleWater m = .ok m1 ∧ removeWater 20 m1 = .ok m2 ∧
      settleWater m2 = .ok m3 ∧ fillOcean top seaLevel m3 = .ok m4 ∧
      settleAndFill top seaLevel m = .ok m4 := by
  obtain ⟨m1, h1, e1⟩ := settleWater_spec m hwf
  obtain ⟨m2, h2, hwf2, hw2, hh2⟩ := removeWater_spec 20 m1 e1.wf
  obtain ⟨m3, h3, e3⟩ := settleWater_spec m2 hwf2
  obtain ⟨m4, h4, _⟩ := fillOcean_spec top seaLevel m3 e3.wf
    (by rw [e3.height, hh2, e1.height]; exact htop)
  refine ⟨m1, m2, m3, m4, h1, h2, h3, h4, ?_⟩
  unfold settleAndFill
  rw [h1]
  simp only []
  rw [h2]
  simp only []
  rw [h3]
  exact h4

/-- Witness for `hydrology_stage_order`: the grid `cascadeGrid` with start row 3
and sea level 2. -/
theorem hydrology_stage_order_witness :
    ∃ m1 m2 m3 m4, settleWater cascadeGrid = .ok m1 ∧ removeWater 20 m1 = .ok m2 ∧
      settleWater m2 = .ok m3 ∧ fillOcean 3 2 m3 = .ok m4 ∧
      settleAndFill 3 2 cascadeGrid = .ok m4 :=
  hydrology_stage_order 3 2 cascadeGrid (by decide) (by decide)

/-! ## Counting rows -/

theorem count_congr_lt (p q : Nat → Prop) [DecidablePred p] [DecidablePred q] :
    ∀ n : Nat, (∀ k, k < n → (p k ↔ q k)) → Nat.count p n = Nat.count q n := by
  intro n
  induction n with
  | zero => intro _; simp
  | succ n ih =>
    intro h
    rw [Nat.count_succ, Nat.count_succ, ih (fun k hk => h k (by omega))]
    by_cases hp : p n
    · rw [if_pos hp, if_pos ((h n (by omega)).mp hp)]
    · rw [if_neg hp, if_neg (fun hq => hp ((h n (by omega)).mpr hq))]

theorem count_above (p : Nat → Prop) [DecidablePred p] (j : Nat) :
    ∀ n : Nat, Nat.count (fun b => j < b ∧ p b) n = Nat.count p n - Nat.count p (j + 1) := by
  intro n
  induction n with
  | zero => simp
  | succ n ih =>
    rw [Nat.count_succ (fun b => j < b ∧ p b) n, ih]
    by_cases hjn : j < n
    · have hmono : Nat.count p (j + 1) ≤ Nat.count p n := Nat.count_monotone p (by omega)
      rw [Nat.count_succ p n]
      by_cases hp : p n
      · rw [if_pos ⟨hjn, hp⟩, if_pos hp]; omega
      · rw [if_neg (fun h => hp h.2), if_neg hp]; omega
    · have hmono : Nat.count p (n + 1) ≤ Nat.count p (j + 1) := Nat.count_monotone p (by omega)
      have hmono2 : Nat.count p n ≤ Nat.count p (n + 1) := Nat.count_monotone p (by omega)
      rw [if_neg (fun h => hjn h.1)]
      omega

theorem count_split (p r : Nat → Prop) [DecidablePred p] [DecidablePred r] :
    ∀ n : Nat, Nat.count (fun b => p b ∧ ¬ r b) n + Nat.count (fun b => p b ∧ r b) n
      = Nat.count p n := by
  intro n
  induction n with
  | zero => simp
  | succ n ih =>
    rw [Nat.count_succ, Nat.count_succ, Nat.count_succ, ← ih]
    by_cases hp : p n <;> by_cases hr : r n <;> simp [hp, hr] <;> omega

/-- Of the rows below `h` that satisfy `p`, those with fewer than `d` rows
satisfying `p` above them are `min d k` in number, `k` being the number of all
rows below `h` that satisfy `p`. -/
theorem count_highest (p : Nat → Prop) [DecidablePred p] (h d : Nat) :
    Nat.count (fun j => p j ∧ Nat.count p h - Nat.count p (j + 1) < d) h
      = min d (Nat.count p h) := by
  have key : ∀ n : Nat, n ≤ h →
      Nat.count (fun j => p j ∧ Nat.count p h - Nat.count p (j + 1) < d) n
        = Nat.count p n - (Nat.count p h - d) := by
    intro n
    induction n with
    | zero => intro _; simp
    | succ n ih =>
      intro hn
      have hmono : Nat.count p (n + 1) ≤ Nat.count p h := Nat.count_monotone p hn
      rw [Nat.count_succ, ih (by omega)]
      rw [Nat.count_succ] at hmono ⊢
      by_cases hp : p n
      · rw [if_pos hp] at hmono ⊢
        by_cases hr : Nat.count p h - (Nat.count p n + 1) < d
        · rw [if_pos ⟨hp, hr⟩]; omega
        · rw [if_neg (fun hc => hr hc.2)]; omega
      · rw [if_neg hp] at hmono ⊢
        rw [if_neg (fun hc => hp hc.1)]
        omega
  rw [key h (le_refl _)]
  omega

/-! ## The effect of removeWater on a column -/

theorem waterBelow_succ (m : Map) (i n : Nat) :
    m.waterBelow i (n + 1) = m.waterBelow i n + if m.tile i n = .WATER then 1 else 0 := by
  unfold Map.waterBelow
  rw [Nat.count_succ]

theorem waterBelow_mono (m : Map) (i : Nat) {a b : Nat} (h : a ≤ b) :
    m.waterBelow i a ≤ m.waterBelow i b := by
  unfold Map.waterBelow
  exact Nat.count_monotone _ h

theorem tile_put_other (m : Map) (i n : Nat) (t : TileType) (a b : Nat) (hwf : m.WF)
    (hn : n < m.height) (hb : b ≠ n) : (m.put i n t).tile a b = m.tile a b := by
  rw [tile_put m i n t a b hwf (by omega) (by exact_mod_cast hn) (by omega),
    if_neg (fun h => hb (by exact_mod_cast h.2))]

theorem tile_put_row (m : Map) (i n : Nat) (t : TileType) (a : Nat) (hwf : m.WF)
    (hn : n < m.height) (hi : i < m.width) (ha : a < m.width) :
    (m.put i n t).tile a n = if a = i then t else m.tile a n := by
  rw [tile_put m i n t a n hwf (by omega) (by exact_mod_cast hn) (by omega),
    wrapX_of_inRange m a (by omega) (by exact_mod_cast ha),
    wrapX_of_inRange m i (by omega) (by exact_mod_cast hi)]
  by_cases h : a = i
  · rw [if_pos ⟨by exact_mod_cast h, rfl⟩, if_pos h]
  · rw [if_neg (fun hc => h (by exact_mod_cast hc.1)), if_neg h]

/-- The `while` loop of `removeWater`, started below row `n` of column `i` with
the budget `toRemove` on a grid that agrees with `m0` below row `n`: it returns,
and it turns into EMPTY the WATER tiles of the column below row `n` that have
no solid tile and fewer than `toRemove` WATER tiles between them and row `n`. -/
theorem removeLoop_effect (i : Nat) (m0 : Map) (hi : i < m0.width) :
    ∀ (n fuel : Nat) (mc : Map) (toRemove : Int), mc.WF → mc.width = m0.width →
      mc.height = m0.height → n ≤ m0.height → n + 1 ≤ fuel →
      (∀ a b : Nat, b < n → mc.tile a b = m0.tile a b) →
      ∃ m', removeLoop i fuel mc toRemove ((n : Int) - 1) = .ok m' ∧ m'.WF ∧
        m'.width = m0.width ∧ m'.height = m0.height ∧
        ∀ a b : Nat, a < m0.width →
          (n ≤ b → m'.tile a b = mc.tile a b) ∧
          (b < n → m'.tile a b =
            if a = i ∧ m0.tile i b = .WATER ∧
                (∀ c < n, b < c → (m0.tile i c = .WATER ∨ m0.tile i c = .EMPTY)) ∧
                ((m0.waterBelow i n - m0.waterBelow i (b + 1) : Nat) : Int) < toRemove
            then .EMPTY else m0.tile a b) := by
  intro n
  induction n with
  | zero =>
    intro fuel mc toRemove hwf hw hh _ hf _
    obtain ⟨f, rfl⟩ : ∃ f, fuel = f + 1 := ⟨fuel - 1, by omega⟩
    unfold removeLoop
    rw [if_neg (by omega)]
    exact ⟨mc, rfl, hwf, hw, hh, fun a b _ => ⟨fun _ => rfl, fun hb => by omega⟩⟩
  | succ n ih =>
    intro fuel mc toRemove hwf hw hh hn hf hagree
    obtain ⟨f, rfl⟩ : ∃ f, fuel = f + 1 := ⟨fuel - 1, by omega⟩
    have hj : ((n + 1 : Nat) : Int) - 1 = (n : Int) := by push_cast; omega
    have hnh : n < mc.height := by omega
    have hcur : mc.tile i n = m0.tile i n := hagree i n (by omega)
    rw [hj]
    unfold removeLoop
    by_cases hc : toRemove > 0
    · rw [if_pos ⟨hc, by omega⟩,
        getTileType_eq mc i n hwf (by omega) (by exact_mod_cast hnh)]
      simp only []
      by_cases hwater : mc.tile i n = .WATER
      · rw [if_pos hwater, setTileType_eq mc i n _ hwf (by omega) (by exact_mod_cast hnh)]
        simp only []
        obtain ⟨m', hrun, hwf', hw', hh', hcells⟩ := ih f (mc.put i n .EMPTY) (toRemove - 1)
          (put_WF _ _ _ _ hwf) (by rw [put_width]; exact hw) (by rw [put_height]; exact hh)
          (by omega) (by omega)
          (fun a b hb => by
            rw [tile_put_other mc i n _ a b hwf hnh (by omega)]
            exact hagree a b (by omega))
        refine ⟨m', hrun, hwf', hw', hh', ?_⟩
        intro a b ha
        constructor
        · intro hb
          rw [(hcells a b ha).1 (by omega), tile_put_other mc i n _ a b hwf hnh (by omega)]
        · intro hb
          by_cases hbn : b = n
          · subst hbn
            rw [(hcells a b ha).1 (le_refl _),
              tile_put_row mc i b _ a hwf hnh (by omega) (by omega)]
            by_cases hai : a = i
            · rw [if_pos hai, if_pos]
              refine ⟨hai, by rw [← hcur]; exact hwater, fun c hc1 hc2 => by omega, ?_⟩
              omega
            · rw [if_neg hai, if_neg (fun h => hai h.1)]
              exact hagree a b (by omega)
          · rw [(hcells a b ha).2 (by omega)]
            apply if_congr _ rfl rfl
            have hs := waterBelow_succ m0 i n
            rw [← hcur, if_pos hwater] at hs
            have hmono := waterBelow_mono m0 i (show b + 1 ≤ n by omega)
            constructor
            · rintro ⟨h1, h2, h3, h4⟩
              refine ⟨h1, h2, fun c hc1 hc2 => ?_, by omega⟩
              by_cases hcn : c = n
              · rw [hcn, ← hcur]; exact Or.inl hwater
              · exact h3 c (by omega) hc2
            · rintro ⟨h1, h2, h3, h4⟩
              exact ⟨h1, h2, fun c hc1 hc2 => h3 c (by omega) hc2, by omega⟩
      · rw [if_neg hwater]
        by_cases hempty : mc.tile i n = .EMPTY
        · rw [if_neg (not_not.mpr hempty)]
          obtain ⟨m', hrun, hwf', hw', hh', hcells⟩ := ih f mc toRemove hwf hw hh
            (by omega) (by omega) (fun a b hb => hagree a b (by omega))
          refine ⟨m', hrun, hwf', hw', hh', ?_⟩
          intro a b ha
          constructor
          · intro hb
            exact (hcells a b ha).1 (by omega)
          · intro hb
            by_cases hbn : b = n
            · subst hbn
              rw [(hcells a b ha).1 (le_refl _), if_neg, hagree a b (by omega)]
              rintro ⟨_, h2, _⟩
              rw [← hcur] at h2
              exact hwater h2
            · rw [(hcells a b ha).2 (by omega)]
              apply if_congr _ rfl rfl
              have hs := waterBelow_succ m0 i n
              rw [← hcur, if_neg hwater] at hs
              constructor
              · rintro ⟨h1, h2, h3, h4⟩
                refine ⟨h1, h2, fun c hc1 hc2 => ?_, by omega⟩
                by_cases hcn : c = n
                · rw [hcn, ← hcur]; exact Or.inr hempty
                · exact h3 c (by omega) hc2
              · rintro ⟨h1, h2, h3, h4⟩
                exact ⟨h1, h2, fun c hc1 hc2 => h3 c (by omega) hc2, by omega⟩
        · rw [if_pos hempty]
          refine ⟨mc, rfl, hwf, hw, hh, ?_⟩
          intro a b ha
          refine ⟨fun _ => rfl, fun hb => ?_⟩
          rw [hagree a b hb, if_neg]
          rintro ⟨_, h2, h3, _⟩
          by_cases hbn : b = n
          · rw [hbn, ← hcur] at h2
            exact hwater h2
          · rcases h3 n (by omega) (by omega) with h | h
            · rw [← hcur] at h; exact hwater h
            · rw [← hcur] at h; exact hempty h
    · rw [if_neg (fun h => hc h.1)]
      refine ⟨mc, rfl, hwf, hw, hh, ?_⟩
      intro a b ha
      refine ⟨fun _ => rfl, fun hb => ?_⟩
      rw [hagree a b hb, if_neg]
      rintro ⟨_, _, _, h4⟩
      omega

theorem waterAbove_eq (m : Map) (i j : Nat) :
    m.waterAbove i j = m.waterBelow i m.height - m.waterBelow i (j + 1) := by
  unfold Map.waterAbove Map.waterBelow
  exact count_above _ j m.height

theorem Trimmed_congr (m1 m2 : Map) (d : Int) (i j : Nat) (hh : m1.height = m2.height)
    (hcol : ∀ b : Nat, b < m2.height → m1.tile i b = m2.tile i b) (hj : j < m2.height) :
    m1.Trimmed d i j ↔ m2.Trimmed d i j := by
  have hex : m1.Exposed i j ↔ m2.Exposed i j := by
    unfold Map.Exposed
    rw [hh]
    constructor
    · intro h b hb hjb
      rw [← hcol b hb]; exact h b hb hjb
    · intro h b hb hjb
      rw [hcol b hb]; exact h b hb hjb
  have hwa : m1.waterAbove i j = m2.waterAbove i j := by
    unfold Map.waterAbove
    rw [hh]
    apply count_congr_lt
    intro k hk
    rw [hcol k hk]
  unfold Map.Trimmed
  rw [hcol j hj, hex, hwa]

/-- The body of the loop of `removeWater` for column `i`: it returns, and it
turns the trimmed tiles of column `i` into EMPTY and changes nothing else. -/
theorem removeColumn_effect (d : Int) (m : Map) (i : Nat) (hwf : m.WF) (hi : i < m.width) :
    ∃ m', removeColumn d m i = .ok m' ∧ m'.WF ∧ m'.width = m.width ∧
      m'.height = m.height ∧
      ∀ a b : Nat, a < m.width → b < m.height →
        m'.tile a b = if a = i ∧ m.Trimmed d i b then .EMPTY else m.tile a b := by
  obtain ⟨m', hrun, hwf', hw', hh', hcells⟩ := removeLoop_effect i m hi m.height
    (m.height + 1) m d hwf rfl rfl (le_refl _) (le_refl _) (fun _ _ _ => rfl)
  refine ⟨m', hrun, hwf', hw', hh', ?_⟩
  intro a b ha hb
  rw [(hcells a b ha).2 hb]
  apply if_congr _ rfl rfl
  unfold Map.Trimmed Map.Exposed
  rw [waterAbove_eq]

theorem removeColumns_effect (d : Int) (m : Map) :
    ∀ (rest pre : List Nat) (mc : Map), mc.WF → mc.width = m.width → mc.height = m.height →
      (∀ a b : Nat, a < m.width → b < m.height →
        mc.tile a b = if a ∈ pre ∧ m.Trimmed d a b then .EMPTY else m.tile a b) →
      (pre ++ rest).Nodup → (∀ a ∈ pre ++ rest, a < m.width) →
      ∃ m', rest.foldlM (removeColumn d) mc = .ok m' ∧ m'.WF ∧ m'.width = m.width ∧
        m'.height = m.height ∧
        ∀ a b : Nat, a < m.width → b < m.height →
          m'.tile a b = if a ∈ pre ++ rest ∧ m.Trimmed d a b then .EMPTY else m.tile a b := by
  intro rest
  induction rest with
  | nil =>
    intro pre mc hwf hw hh htiles _ _
    rw [List.append_nil]
    exact ⟨mc, rfl, hwf, hw, hh, htiles⟩
  | cons i rest ih =>
    intro pre mc hwf hw hh htiles hnd hrange
    have hipre : i ∉ pre := by
      intro hmem
      exact (List.nodup_append.mp hnd).2.2 hmem (List.mem_cons_self _ _)
    have hi : i < m.width := hrange i (by simp)
    obtain ⟨m1, h1, hwf1, hw1, hh1, ht1⟩ := removeColumn_effect d mc i hwf (by omega)
    have hcol : ∀ b : Nat, b < m.height → mc.tile i b = m.tile i b := by
      intro b hb
      rw [htiles i b hi hb, if_neg (fun h => hipre h.1)]
    have e : pre ++ i :: rest = (pre ++ [i]) ++ rest := by simp
    rw [e] at hnd hrange ⊢
    obtain ⟨m2, h2, hrest⟩ := ih (pre ++ [i]) m1 hwf1 (hw1.trans hw) (hh1.trans hh)
      (by
        intro a b ha hb
        rw [ht1 a b (by omega) (by omega)]
        by_cases hai : a = i
        · subst hai
          by_cases htr : m.Trimmed d a b
          · rw [if_pos ⟨rfl, (Trimmed_congr mc m d a b hh hcol hb).mpr htr⟩,
              if_pos ⟨by simp, htr⟩]
          · rw [if_neg (fun h => htr ((Trimmed_congr mc m d a b hh hcol hb).mp h.2)),
              if_neg (fun h => htr h.2), hcol b hb]
        · rw [if_neg (fun h => hai h.1), htiles a b ha hb]
          apply if_congr _ rfl rfl
          constructor
          · rintro ⟨h1, h2⟩
            exact ⟨List.mem_append_left _ h1, h2⟩
          · rintro ⟨h1, h2⟩
            refine ⟨?_, h2⟩
            rcases List.mem_append.mp h1 with h | h
            · exact h
            · exact absurd (by simpa using h) hai)
      hnd hrange
    exact ⟨m2, by rw [foldlM_cons_ok _ _ _ _ _ h1]; exact h2, hrest⟩

/-- On a well-formed grid `removeWater` returns a grid of the same dimensions
in which the trimmed tiles are EMPTY and every other tile is as before. -/
theorem removeWater_effect (d : Int) (m : Map) (hwf : m.WF) :
    ∃ m', removeWater d m = .ok m' ∧ m'.WF ∧ m'.width = m.width ∧ m'.height = m.height ∧
      ∀ a b : Nat, a < m.width → b < m.height →
        m'.tile a b = if m.Trimmed d a b then .EMPTY else m.tile a b := by
  obtain ⟨m', hrun, hwf', hw', hh', ht⟩ := removeColumns_effect d m (List.range m.width) [] m
    hwf rfl rfl (fun a b _ _ => by simp) (by simpa using List.nodup_range m.width)
    (by intro a ha; simpa using ha)
  refine ⟨m', hrun, hwf', hw', hh', ?_⟩
  intro a b ha hb
  rw [ht a b ha hb]
  apply if_congr _ rfl rfl
  constructor
  · exact fun h => h.2
  · exact fun h => ⟨by simpa using ha, h⟩

theorem Exposed_above (m : Map) (i j b : Nat) (h : m.Exposed i j) (hjb : j < b) :
    m.Exposed i b := by
  intro c hc hbc
  exact h c hc (by omega)

theorem waterAbove_exposed (m : Map) (i j : Nat) (h : m.Exposed i j) :
    m.waterAbove i j
      = Nat.count (fun b => m.tile i b = .WATER ∧ m.Exposed i b) m.height
        - Nat.count (fun b => m.tile i b = .WATER ∧ m.Exposed i b) (j + 1) := by
  rw [← count_above]
  unfold Map.waterAbove
  apply count_congr_lt
  intro k _
  constructor
  · rintro ⟨h1, h2⟩
    exact ⟨h1, h2, Exposed_above m i j k h h1⟩
  · rintro ⟨h1, h2, _⟩
    exact ⟨h1, h2⟩

/-- The trimmed tiles of a column are `min removeDepth k` in number, `k` being
the number of WATER tiles above the highest solid tile of the column. -/
theorem count_Trimmed (m : Map) (d : Int) (i : Nat) :
    Nat.count (fun b => m.tile i b = .WATER ∧ m.Trimmed d i b) m.height
      = min d.toNat (m.exposedWater i) := by
  unfold Map.exposedWater
  rw [← count_highest]
  apply count_congr_lt
  intro k _
  unfold Map.Trimmed
  constructor
  · rintro ⟨_, h1, h2, h3⟩
    rw [waterAbove_exposed m i k h2] at h3
    exact ⟨⟨h1, h2⟩, by omega⟩
  · rintro ⟨⟨h1, h2⟩, h3⟩
    refine ⟨h1, h1, h2, ?_⟩
    rw [waterAbove_exposed m i k h2]
    omega

/-! ## C21: removeWater trims the exposed top of each column -/

/-- C21 (removeWater). On a well-formed grid and for every `removeDepth`,
`removeWater` returns a grid of the same dimensions in which a cell is EMPTY if
it was one of the `removeDepth` highest WATER tiles above the highest solid
tile of its column (WATER, no solid tile above it, fewer than `removeDepth`
WATER tiles above it; EMPTY cells in between are not counted), and holds its
former tile otherwise. In each column the number of WATER tiles drops by
exactly `min removeDepth k`, where `k` is the number of WATER tiles above the
highest solid tile of the column. In particular every solid tile and every
WATER tile below a solid tile is unchanged. -/
theorem removeWater_trims_exposed_top (removeDepth : Int) (m : Map) (hwf : m.WF) :
    ∃ m', removeWater removeDepth m = .ok m' ∧ m'.width = m.width ∧ m'.height = m.height ∧
      (∀ i j : Nat, i < m.width → j < m.height →
        m'.getTileType i j
          = .ok (if m.tile i j = .WATER ∧ m.Exposed i j ∧ (m.waterAbove i j : Int) < removeDepth
              then .EMPTY else m.tile i j)) ∧
      (∀ i : Nat, i < m.width →
        m'.columnWater i + min removeDepth.toNat (m.exposedWater i) = m.columnWater i) ∧
      (∀ i j : Nat, i < m.width → j < m.height →
        (m.tile i j ≠ .WATER ∨ ¬ m.Exposed i j) → m'.getTileType i j = m.getTileType i j) := by
  obtain ⟨m', hrun, hwf', hw', hh', ht⟩ := removeWater_effect removeDepth m hwf
  have hget : ∀ i j : Nat, i < m.width → j < m.height →
      m'.getTileType i j = .ok (if m.Trimmed removeDepth i j then .EMPTY else m.tile i j) := by
    intro i j hi hj
    rw [getTileType_eq m' i j hwf' (by omega) (by rw [hh']; exact_mod_cast hj), ht i j hi hj]
  refine ⟨m', hrun, hw', hh', ?_, ?_, ?_⟩
  · intro i j hi hj
    rw [hget i j hi hj]
    rfl
  · intro i hi
    rw [← count_Trimmed m removeDepth i]
    unfold Map.columnWater Map.waterBelow
    rw [hh', ← count_split (fun b => m.tile i b = .WATER) (fun b => m.Trimmed removeDepth i b)
      m.height]
    congr 1
    apply count_congr_lt
    intro k hk
    rw [ht i k hi hk]
    by_cases htr : m.Trimmed removeDepth i k
    · rw [if_pos htr]
      constructor
      · intro h; cases h
      · intro h; exact absurd htr h.2
    · rw [if_neg htr]
      exact ⟨fun h => ⟨h, htr⟩, fun h => h.1⟩
  · intro i j hi hj hno
    rw [hget i j hi hj, getTileType_eq m i j hwf (by omega) (by exact_mod_cast hj), if_neg]
    rintro ⟨h1, h2, _⟩
    rcases hno with h | h
    · exact h h1
    · exact h h2

/-- Witness for `removeWater_trims_exposed_top`: `removeWater(2)` on `poolGrid`.
In column 0 the WATER tiles of rows 4 and 2 are removed and the WATER tile on the
floor, below the STONE tile, stays; in column 1 the WATER tiles of rows 4 and 3
are removed and those of rows 2 and 1 stay. -/
theorem removeWater_trims_exposed_top_witness :
    removeWater 2 poolGrid
      = .ok ⟨2, 5, [.WATER, .EMPTY,
                    .STONE, .WATER,
                    .EMPTY, .WATER,
                    .EMPTY, .EMPTY,
                    .EMPTY, .EMPTY]⟩ ∧
    ∃ m', removeWater 2 poolGrid = .ok m' ∧ m'.width = poolGrid.width ∧
      m'.height = poolGrid.height ∧
      (∀ i j : Nat, i < poolGrid.width → j < poolGrid.height →
        m'.getTileType i j
          = .ok (if poolGrid.tile i j = .WATER ∧ poolGrid.Exposed i j ∧
                (poolGrid.waterAbove i j : Int) < 2
              then .EMPTY else poolGrid.tile i j)) ∧
      (∀ i : Nat, i < poolGrid.width →
        m'.columnWater i + min (2 : Int).toNat (poolGrid.exposedWater i)
          = poolGrid.columnWater i) ∧
      (∀ i j : Nat, i < poolGrid.width → j < poolGrid.height →
        (poolGrid.tile i j ≠ .WATER ∨ ¬ poolGrid.Exposed i j) →
        m'.getTileType i j = poolGrid.getTileType i j) :=
  ⟨by decide, removeWater_trims_exposed_top 2 poolGrid (by decide)⟩

/-! ## C23: the sweep order of settleWater -/

/-- C23 (sweep order), evaluated on `stackGrid`. The code visits row 1 before
row 2: the lower WATER tile drops to the floor first and the upper one follows
it, so the column ends with WATER in rows 0 and 1. In the order of the claim
(row 2 first) the upper tile is visited while it still rests on the lower one
and stays where it is: the column ends with WATER in rows 0 and 2. -/
theorem settleWater_sweeps_bottom_up :
    settleWater stackGrid
      = .ok ⟨2, 3, [.WATER, .STONE, .WATER, .STONE, .EMPTY, .STONE]⟩ ∧
    settleWaterTopDown stackGrid
      = .ok ⟨2, 3, [.WATER, .STONE, .EMPTY, .STONE, .WATER, .STONE]⟩ ∧
    settleWater stackGrid ≠ settleWaterTopDown stackGrid := by
  refine ⟨by decide, by decide, by decide⟩

/-! ## C24: the seeds of the biome fields -/

/-- C24 (biome seeds), evaluated on the code. Whatever the random source
returns, the base module of the humidity field keeps the seed of a
default-constructed module: both `SetSeed` calls of Mapgen.cc 52 and 63 are
made on `baseTemperature`, which ends with the second draw as its seed. The
humidity module is therefore the same for every world seed. -/
theorem humidity_seed_never_set (fresh : Perlin) (rand : Nat → Int) :
    (biomeBaseModules fresh rand).2.seed = fresh.seed ∧
    (biomeBaseModules fresh rand).1.seed = rand 1 ∧
    ∀ rand2 : Nat → Int, (biomeBaseModules fresh rand2).2 = (biomeBaseModules fresh rand).2 :=
  ⟨rfl, rfl, fun _ => rfl⟩

/-! ## C25: solids are fixed and water is conserved -/

theorem MoveEffect.solidsFixed {m m' : Map} {y : Int} (h : MoveEffect m m' y) (hwf : m.WF) :
    SolidsFixed m m' := by
  refine ⟨h.width, h.height, ?_, ?_, h.water⟩
  · intro a b t hget ht1 ht2
    obtain ⟨hb0, hb1, htile⟩ := getTileType_ok m a b t hwf hget
    rw [getTileType_eq m' a b h.wf hb0 (by rw [h.height]; exact hb1)]
    rcases h.kinds a b hb0 with hk | ⟨hk, _⟩
    · rw [hk, htile]
    · rw [htile] at hk
      rcases hk with hk | hk
      · exact absurd hk ht1
      · exact absurd hk ht2
  · intro a b t t' hget hget' hne
    obtain ⟨hb0, _, htile⟩ := getTileType_ok m a b t hwf hget
    obtain ⟨_, _, htile'⟩ := getTileType_ok m' a b t' h.wf hget'
    rcases h.kinds a b hb0 with hk | hk
    · rw [htile, htile'] at hk
      exact absurd hk hne
    · rw [htile, htile'] at hk
      exact hk

/-- C25 (frame of settling). On a well-formed grid, `settleWater` returns a grid
of the same dimensions in which every solid tile is in place, every cell that
changed held WATER or EMPTY and holds WATER or EMPTY, and the number of WATER
tiles is the same as before (`SolidsFixed`). The same holds for `moveWater` on
a WATER cell `(x, y)` with `x` in `[0, width)`: the call returns, and whatever
fuel it is given, the grid it returns has these properties. -/
theorem solids_fixed_water_conserved (m : Map) (hwf : m.WF) :
    (∃ m', settleWater m = .ok m' ∧ SolidsFixed m m') ∧
    (∀ x y : Int, 0 ≤ x → x < m.width → m.getTileType x y = .ok .WATER →
      ∃ m', moveWater m.moveFuel m x y = .ok m' ∧ SolidsFixed m m') ∧
    (∀ (fuel : Nat) (x y : Int) (m' : Map), 0 ≤ x → x < m.width →
      moveWater fuel m x y = .ok m' → SolidsFixed m m') := by
  refine ⟨?_, ?_, ?_⟩
  · obtain ⟨m', hrun, heff⟩ := settleWater_spec m hwf
    exact ⟨m', hrun, heff.solidsFixed hwf⟩
  · intro x y hx0 hx1 hwater
    obtain ⟨hy0, hy1, htile⟩ := getTileType_ok m x y _ hwf hwater
    obtain ⟨m', hrun, heff⟩ := moveWater_moveFuel m x y hwf hx0 hx1 hy0 hy1 htile
    exact ⟨m', hrun, heff.solidsFixed hwf⟩
  · intro fuel x y m' hx0 hx1 hrun
    obtain ⟨hy0, hy1, htile⟩ := getTileType_ok m x y _ hwf (moveWater_ok_water fuel m x y m' hrun)
    exact ((moveWater_effect fuel m x y hwf hx0 hx1 hy0 hy1 htile).2 m' hrun).solidsFixed hwf

/-- Witness for `solids_fixed_water_conserved`: the grid `cascadeGrid`, whose
pass moves six WATER tiles past the STONE tiles. -/
theorem solids_fixed_water_conserved_witness :
    (∃ m', settleWater cascadeGrid = .ok m' ∧ SolidsFixed cascadeGrid m') ∧
    (∀ x y : Int, 0 ≤ x → x < cascadeGrid.width → cascadeGrid.getTileType x y = .ok .WATER →
      ∃ m', moveWater cascadeGrid.moveFuel cascadeGrid x y = .ok m' ∧
        SolidsFixed cascadeGrid m') ∧
    (∀ (fuel : Nat) (x y : Int) (m' : Map), 0 ≤ x → x < cascadeGrid.width →
      moveWater fuel cascadeGrid x y = .ok m' → SolidsFixed cascadeGrid m') :=
  solids_fixed_water_conserved cascadeGrid (by decide)

/-! ## C27: the assertions hold during settling -/

theorem fallColumn_floor (m : Map) (x : Int) : fallColumn m x 0 = .error .assertion := by
  unfold fallColumn findFall
  simp

/-- C27 (assertions during settling). On a well-formed grid `settleWater`
returns, so no assertion fails during the pass. For a WATER cell `(x, y)` with
`x` in `[0, width)`: `moveWater` never stops on an assertion or a range fault,
whatever its fuel, and returns with the fuel `moveFuel`; above the floor both
`findFall` calls pass their assertions; the cell below a chosen fall column is
EMPTY (line 448); the first recursive call is made on a cell that holds WATER;
when it returns, the vacated cell `(x, y)` is EMPTY (line 464); and the second
recursive call, made when the cell to the left holds WATER, is made on a cell
that holds WATER. -/
theorem settling_assertions_hold (m : Map) (hwf : m.WF) :
    (∃ m', settleWater m = .ok m') ∧
    (∀ x y : Int, 0 ≤ x → x < m.width → m.getTileType x y = .ok .WATER →
      (∀ (fuel : Nat) (e : Fault), moveWater fuel m x y = .error e → e = .fuel) ∧
      (∃ m', moveWater m.moveFuel m x y = .ok m') ∧
      (0 < y → (∃ c, findFall m (-1) x y = .ok c) ∧ (∃ c, findFall m 1 x y = .ok c)) ∧
      (∀ c, fallColumn m x y = .ok (some c) → m.getTileType c (y - 1) = .ok .EMPTY) ∧
      (∀ (m1 : Map) (c l : Int), moveWaterRelocate m x y = .ok (some (m1, c, l)) →
        0 ≤ c ∧ c < m1.width ∧ m1.getTileType c l = .ok .WATER ∧
        ∀ (fuel : Nat) (m2 : Map), moveWater fuel m1 c l = .ok m2 →
          m2.getTileType x y = .ok .EMPTY ∧
          (m2.getTileType (x - 1) y = .ok .WATER →
            0 ≤ m2.wrapX (x - 1) ∧ m2.wrapX (x - 1) < m2.width ∧
            m2.getTileType (m2.wrapX (x - 1)) y = .ok .WATER))) := by
  refine ⟨?_, ?_⟩
  · obtain ⟨m', hrun, _⟩ := settleWater_spec m hwf
    exact ⟨m', hrun⟩
  · intro x y hx0 hx1 hwater
    obtain ⟨hy0, hy1, htile⟩ := getTileType_ok m x y _ hwf hwater
    refine ⟨?_, ?_, ?_, ?_, ?_⟩
    · intro fuel e he
      exact ((moveWater_effect fuel m x y hwf hx0 hx1 hy0 hy1 htile).1 e he).1
    · obtain ⟨m', hrun, _⟩ := moveWater_moveFuel m x y hwf hx0 hx1 hy0 hy1 htile
      exact ⟨m', hrun⟩
    · intro hpos
      obtain ⟨c1, h1, _⟩ := findFall_spec m (-1) x y hwf hx0 hx1 hpos hy1 (Or.inr rfl)
      obtain ⟨c2, h2, _⟩ := findFall_spec m 1 x y hwf hx0 hx1 hpos hy1 (Or.inl rfl)
      exact ⟨⟨c1, h1⟩, ⟨c2, h2⟩⟩
    · intro c hc
      by_cases hpos : 0 < y
      · obtain ⟨r, hr, hcase⟩ := fallColumn_spec m x y hwf hx0 hx1 hpos hy1
        rw [hr] at hc
        rcases hcase with h | ⟨c', h, _, _, hbelow⟩
        · rw [h] at hc; cases hc
        · rw [h] at hc
          cases hc
          rw [getTileType_eq m c (y - 1) hwf (by omega) (by omega), hbelow]
      · have hy : y = 0 := by omega
        rw [hy, fallColumn_floor] at hc
        cases hc
    · intro m1 c l hrel
      have hdrop : Dropped m x y c l m1 := by
        rcases moveWaterRelocate_spec m x y hwf hx0 hx1 hy0 hy1 htile with h | ⟨m1', c', l', h, hd⟩
        · rw [h] at hrel; cases hrel
        · rw [h] at hrel
          cases hrel
          exact hd
      have hc0 : 0 ≤ c := hdrop.1
      have hc1 : c < m.width := hdrop.2.1
      have hl0 : 0 ≤ l := hdrop.2.2.1
      have hly : l < y := hdrop.2.2.2.1
      have hwf1 := hdrop.wf hwf
      have hw1 := hdrop.width_eq
      have hh1 := hdrop.height_eq
      have htarget := hdrop.target_water hwf hx0 hx1 hy1
      refine ⟨hc0, by rw [hw1]; exact hc1, ?_, ?_⟩
      · rw [getTileType_eq m1 c l hwf1 hl0 (by rw [hh1]; omega), htarget]
      · intro fuel m2 hrun
        have heff := (moveWater_effect fuel m1 c l hwf1 hc0 (by rw [hw1]; exact hc1) hl0
          (by rw [hh1]; omega) htarget).2 m2 hrun
        have hy2 : y < m2.height := by rw [heff.height, hh1]; exact hy1
        refine ⟨?_, ?_⟩
        · rw [getTileType_eq m2 x y heff.wf hy0 hy2, heff.above x y hly,
            hdrop.source_empty hwf hx0 hx1 hy1]
        · intro hleft
          refine ⟨wrapX_nonneg m2 _ heff.wf.1, wrapX_lt m2 _ heff.wf.1, ?_⟩
          obtain ⟨_, _, ht⟩ := getTileType_ok m2 (x - 1) y _ heff.wf hleft
          rw [getTileType_eq m2 _ y heff.wf hy0 hy2, tile_wrapX_arg m2 (x - 1) y heff.wf.1, ht]

/-- Witness for `settling_assertions_hold`: the grid `seamGrid`. -/
theorem settling_assertions_hold_witness :
    (∃ m', settleWater seamGrid = .ok m') ∧
    (∀ x y : Int, 0 ≤ x → x < seamGrid.width → seamGrid.getTileType x y = .ok .WATER →
      (∀ (fuel : Nat) (e : Fault), moveWater fuel seamGrid x y = .error e → e = .fuel) ∧
      (∃ m', moveWater seamGrid.moveFuel seamGrid x y = .ok m') ∧
      (0 < y → (∃ c, findFall seamGrid (-1) x y = .ok c) ∧
        (∃ c, findFall seamGrid 1 x y = .ok c)) ∧
      (∀ c, fallColumn seamGrid x y = .ok (some c) →
        seamGrid.getTileType c (y - 1) = .ok .EMPTY) ∧
      (∀ (m1 : Map) (c l : Int), moveWaterRelocate seamGrid x y = .ok (some (m1, c, l)) →
        0 ≤ c ∧ c < m1.width ∧ m1.getTileType c l = .ok .WATER ∧
        ∀ (fuel : Nat) (m2 : Map), moveWater fuel m1 c l = .ok m2 →
          m2.getTileType x y = .ok .EMPTY ∧
          (m2.getTileType (x - 1) y = .ok .WATER →
            0 ≤ m2.wrapX (x - 1) ∧ m2.wrapX (x - 1) < m2.width ∧
            m2.getTileType (m2.wrapX (x - 1)) y = .ok .WATER))) :=
  settling_assertions_hold seamGrid (by decide)

/-! ## C28: water never moves up -/

theorem waterFrom_put (m : Map) (x y : Int) (t : TileType) (r : Nat) (hwf : m.WF)
    (h0 : 0 ≤ y) (h1 : y < m.height) :
    (m.put x y t).waterFrom r + (if (r : Int) ≤ y ∧ m.tile x y = .WATER then 1 else 0)
      = m.waterFrom r + (if (r : Int) ≤ y ∧ t = .WATER then 1 else 0) := by
  have hlt := index_lt m x y hwf h0 h1
  have hdiv := index_div m x y hwf.1
  unfold Map.waterFrom
  show ((m.tiles.set (m.index x y) t).drop (r * m.width)).count .WATER + _ = _
  rw [List.drop_set]
  by_cases hr : (r : Int) ≤ y
  · have hge : ¬ m.index x y < r * m.width := by
      rw [← Nat.div_lt_iff_lt_mul hwf.1, hdiv]
      omega
    rw [if_neg hge]
    have hlt2 : m.index x y - r * m.width < (m.tiles.drop (r * m.width)).length := by
      rw [List.length_drop]
      omega
    have helem : (m.tiles.drop (r * m.width))[m.index x y - r * m.width] = m.tile x y := by
      rw [tile_eq_getElem m x y hlt, List.getElem_drop]
      congr 1
      omega
    have hpos : m.tile x y = .WATER → 0 < (m.tiles.drop (r * m.width)).count .WATER := by
      intro hw
      rw [← helem] at hw
      exact List.count_pos_iff.mpr (hw ▸ List.getElem_mem hlt2)
    rw [List.count_set _ _ _ _ hlt2, helem]
    by_cases hc : m.tile x y = .WATER
    · have := hpos hc
      by_cases ht : t = .WATER <;> simp [hc, ht, hr] <;> omega
    · by_cases ht : t = .WATER <;> simp [hc, ht, hr]
  · have hltr : m.index x y < r * m.width := by
      rw [← Nat.div_lt_iff_lt_mul hwf.1, hdiv]
      omega
    rw [if_pos hltr, if_neg (fun h => hr h.1), if_neg (fun h => hr h.1)]

theorem DropStep.waterFrom_le {m m1 : Map} (h : DropStep m m1) (r : Nat) :
    m1.waterFrom r ≤ m.waterFrom r := by
  obtain ⟨x, y, c, l, hwf, ⟨hx0, hx1, hy0, hy1⟩, hwater, hdrop⟩ := h
  obtain ⟨hc0, hc1, hl0, hly, _, _, heq⟩ := hdrop
  have hempty : m.tile c l = .EMPTY := by
    have hd : Dropped m x y c l m1 := ⟨hc0, hc1, hl0, hly, by assumption, by assumption, heq⟩
    exact hd.target_was_empty
  have hwf1 : (m.put c l .WATER).WF := put_WF _ _ _ _ hwf
  have h1 := waterFrom_put m c l .WATER r hwf hl0 (by omega)
  have h2 := waterFrom_put (m.put c l .WATER) x y .EMPTY r hwf1 hy0
    (by rw [put_height]; exact hy1)
  have hsrc : (m.put c l .WATER).tile x y = .WATER := by
    rw [tile_put m c l _ x y hwf hl0 (by omega) hy0, if_neg (fun hc => by omega), hwater]
  rw [hsrc] at h2
  rw [hempty] at h1
  rw [heq]
  by_cases hrl : (r : Int) ≤ l
  · have hry : (r : Int) ≤ y := by omega
    simp [hrl, hry] at h1 h2
    omega
  · by_cases hry : (r : Int) ≤ y
    · simp [hrl, hry] at h1 h2
      omega
    · simp [hrl, hry] at h1 h2
      omega

theorem steps_waterFrom_le {m m' : Map} (h : Relation.ReflTransGen DropStep m m') (r : Nat) :
    m'.waterFrom r ≤ m.waterFrom r := by
  induction h with
  | refl => exact le_refl _
  | tail _ hstep ih => exact le_trans (hstep.waterFrom_le r) ih

/-- C28 (water never moves up). On a well-formed grid, for every row `r` the
number of WATER tiles in the rows `r` and above is, after `settleWater`, at
most what it was before; the same holds for `moveWater` on a WATER cell
`(x, y)` with `x` in `[0, width)`, which returns, and for any fuel that lets it
return. Every relocation takes a WATER tile from `(x, y)`, leaves EMPTY there
and writes WATER to a cell of a strictly lower row `l < y`. -/
theorem water_never_moves_up (m : Map) (hwf : m.WF) :
    (∃ m', settleWater m = .ok m' ∧ ∀ r : Nat, m'.waterFrom r ≤ m.waterFrom r) ∧
    (∀ x y : Int, 0 ≤ x → x < m.width → m.getTileType x y = .ok .WATER →
      ∃ m', moveWater m.moveFuel m x y = .ok m' ∧
        ∀ r : Nat, m'.waterFrom r ≤ m.waterFrom r) ∧
    (∀ (fuel : Nat) (x y : Int) (m' : Map), 0 ≤ x → x < m.width →
      moveWater fuel m x y = .ok m' → ∀ r : Nat, m'.waterFrom r ≤ m.waterFrom r) ∧
    (∀ (x y c l : Int) (m1 : Map), 0 ≤ x → x < m.width →
      moveWaterRelocate m x y = .ok (some (m1, c, l)) →
      0 ≤ l ∧ l < y ∧ m.getTileType x y = .ok .WATER ∧ m1.getTileType x y = .ok .EMPTY ∧
        m1.getTileType c l = .ok .WATER) := by
  refine ⟨?_, ?_, ?_, ?_⟩
  · obtain ⟨m', hrun, heff⟩ := settleWater_spec m hwf
    exact ⟨m', hrun, steps_waterFrom_le heff.steps⟩
  · intro x y hx0 hx1 hwater
    obtain ⟨hy0, hy1, htile⟩ := getTileType_ok m x y _ hwf hwater
    obtain ⟨m', hrun, heff⟩ := moveWater_moveFuel m x y hwf hx0 hx1 hy0 hy1 htile
    exact ⟨m', hrun, steps_waterFrom_le heff.steps⟩
  · intro fuel x y m' hx0 hx1 hrun
    obtain ⟨hy0, hy1, htile⟩ := getTileType_ok m x y _ hwf (moveWater_ok_water fuel m x y m' hrun)
    exact steps_waterFrom_le
      ((moveWater_effect fuel m x y hwf hx0 hx1 hy0 hy1 htile).2 m' hrun).steps
  · intro x y c l m1 hx0 hx1 hrel
    have hwater := moveWaterRelocate_ok_water m x y _ hrel
    obtain ⟨hy0, hy1, htile⟩ := getTileType_ok m x y _ hwf hwater
    have hdrop : Dropped m x y c l m1 := by
      rcases moveWaterRelocate_spec m x y hwf hx0 hx1 hy0 hy1 htile with h | ⟨m1', c', l', h, hd⟩
      · rw [h] at hrel; cases hrel
      · rw [h] at hrel
        cases hrel
        exact hd
    have hl0 : 0 ≤ l := hdrop.2.2.1
    have hly : l < y := hdrop.2.2.2.1
    have hwf1 := hdrop.wf hwf
    have hh1 := hdrop.height_eq
    refine ⟨hl0, hly, hwater, ?_, ?_⟩
    · rw [getTileType_eq m1 x y hwf1 hy0 (by rw [hh1]; exact hy1),
        hdrop.source_empty hwf hx0 hx1 hy1]
    · rw [getTileType_eq m1 c l hwf1 hl0 (by rw [hh1]; omega),
        hdrop.target_water hwf hx0 hx1 hy1]

/-- Witness for `water_never_moves_up`: the grid `seamGridOnce`, in which a
pass moves the WATER tile of `(0, 1)` down to `(2, 0)`. -/
theorem water_never_moves_up_witness :
    (∃ m', settleWater seamGridOnce = .ok m' ∧
      ∀ r : Nat, m'.waterFrom r ≤ seamGridOnce.waterFrom r) ∧
    (∀ x y : Int, 0 ≤ x → x < seamGridOnce.width →
      seamGridOnce.getTileType x y = .ok .WATER →
      ∃ m', moveWater seamGridOnce.moveFuel seamGridOnce x y = .ok m' ∧
        ∀ r : Nat, m'.waterFrom r ≤ seamGridOnce.waterFrom r) ∧
    (∀ (fuel : Nat) (x y : Int) (m' : Map), 0 ≤ x → x < seamGridOnce.width →
      moveWater fuel seamGridOnce x y = .ok m' →
      ∀ r : Nat, m'.waterFrom r ≤ seamGridOnce.waterFrom r) ∧
    (∀ (x y c l : Int) (m1 : Map), 0 ≤ x → x < seamGridOnce.width →
      moveWaterRelocate seamGridOnce x y = .ok (some (m1, c, l)) →
      0 ≤ l ∧ l < y ∧ seamGridOnce.getTileType x y = .ok .WATER ∧
        m1.getTileType x y = .ok .EMPTY ∧ m1.getTileType c l = .ok .WATER) :=
  water_never_moves_up seamGridOnce (by decide)

/-! ## C26: termination of settling -/

/-- The counting run of `moveWater` returns the grid that `moveWater` returns. -/
theorem moveWaterCount_fst : ∀ (fuel : Nat) (m : Map) (x y : Int),
    (moveWaterCount fuel m x y).map Prod.fst = moveWater fuel m x y := by
  intro fuel
  induction fuel with
  | zero => intro m x y; rfl
  | succ fuel ih =>
    intro m x y
    rw [moveWater_succ]
    unfold moveWaterCount
    cases hrel : moveWaterRelocate m x y with
    | error e => rfl
    | ok r =>
      cases r with
      | none => rfl
      | some p =>
        obtain ⟨m1, fall, lowest⟩ := p
        simp only []
        rw [← ih m1 fall lowest]
        cases hrun : moveWaterCount fuel m1 fall lowest with
        | error e => rfl
        | ok q =>
          obtain ⟨m2, n1⟩ := q
          simp only [Except.map]
          cases hg : m2.getTileType x y with
          | error e => rfl
          | ok t =>
            simp only []
            by_cases ht : t ≠ .EMPTY
            · rw [if_pos ht, if_pos ht]
            · rw [if_neg ht, if_neg ht]
              cases hl : m2.getTileType (x - 1) y with
              | error e => rfl
              | ok left =>
                simp only []
                by_cases hw : left = .WATER
                · rw [if_pos hw, if_pos hw, ← ih]
                  cases hrun2 : moveWaterCount fuel m2 (m2.wrapX (x - 1)) y with
                  | error e => rfl
                  | ok q2 => rfl
                · rw [if_neg hw, if_neg hw]

theorem moveWaterCount_of_ok (fuel : Nat) (m : Map) (x y : Int) (m' : Map)
    (h : moveWater fuel m x y = .ok m') : ∃ n, moveWaterCount fuel m x y = .ok (m', n) := by
  rw [← moveWaterCount_fst] at h
  cases hc : moveWaterCount fuel m x y with
  | error e => rw [hc] at h; cases h
  | ok q =>
    obtain ⟨m2, n⟩ := q
    rw [hc] at h
    cases h
    exact ⟨n, rfl⟩

theorem moveWater_of_count (fuel : Nat) (m : Map) (x y : Int) (m' : Map) (n : Nat)
    (h : moveWaterCount fuel m x y = .ok (m', n)) : moveWater fuel m x y = .ok m' := by
  rw [← moveWaterCount_fst, h]
  rfl

/-- The relocations of a `moveWater` call are at most as many as the potential
drops. -/
theorem moveWaterCount_bound : ∀ (fuel : Nat) (m : Map) (x y : Int), m.WF →
    0 ≤ x → x < m.width → 0 ≤ y → y < m.height → m.tile x y = .WATER →
    ∀ (m' : Map) (n : Nat), moveWaterCount fuel m x y = .ok (m', n) →
      n + m'.potential ≤ m.potential := by
  intro fuel
  induction fuel with
  | zero =>
    intro m x y _ _ _ _ _ _ m' n h
    have h2 : moveWaterCount 0 m x y = .error .fuel := rfl
    rw [h2] at h
    cases h
  | succ fuel ih =>
    intro m x y hwf hx0 hx1 hy0 hy1 hwater m' n
    unfold moveWaterCount
    rcases moveWaterRelocate_spec m x y hwf hx0 hx1 hy0 hy1 hwater with hn | ⟨m1, c, l, hs, hdrop⟩
    · rw [hn]
      simp only []
      intro h
      cases h
      omega
    · rw [hs]
      simp only []
      have hl0 := hdrop.2.2.1
      have hl1 := hdrop.2.2.2.1
      have hplt := hdrop.potential_lt hwf hy1 hwater
      have hwf1 := hdrop.wf hwf
      have hc0 : 0 ≤ c := hdrop.1
      have hc1 : c < m1.width := by rw [hdrop.width_eq]; exact hdrop.2.1
      have hlh : l < m1.height := by rw [hdrop.height_eq]; omega
      have htarget := hdrop.target_water hwf hx0 hx1 hy1
      cases hrec : moveWaterCount fuel m1 c l with
      | error e => intro h; cases h
      | ok q =>
        obtain ⟨m2, n1⟩ := q
        simp only []
        have hb1 := ih m1 c l hwf1 hc0 hc1 hl0 hlh htarget m2 n1 hrec
        have e12 := (moveWater_effect fuel m1 c l hwf1 hc0 hc1 hl0 hlh htarget).2 m2
          (moveWater_of_count fuel m1 c l m2 n1 hrec)
        have hwf2 := e12.wf
        have hy2 : y < m2.height := by rw [e12.height, hdrop.height_eq]; exact hy1
        rw [getTileType_eq m2 x y hwf2 hy0 hy2, getTileType_eq m2 (x - 1) y hwf2 hy0 hy2]
        simp only []
        by_cases hsrc : m2.tile x y ≠ .EMPTY
        · rw [if_pos hsrc]
          intro h; cases h
        · rw [if_neg hsrc]
          by_cases hleft : m2.tile (x - 1) y = .WATER
          · rw [if_pos hleft]
            have hw2 : 0 < m2.width := hwf2.1
            cases hrec2 : moveWaterCount fuel m2 (m2.wrapX (x - 1)) y with
            | error e => intro h; cases h
            | ok q2 =>
              obtain ⟨m3, n2⟩ := q2
              simp only []
              have hb2 := ih m2 (m2.wrapX (x - 1)) y hwf2 (wrapX_nonneg m2 _ hw2)
                (wrapX_lt m2 _ hw2) hy0 hy2
                (by rw [tile_wrapX_arg m2 _ _ hw2]; exact hleft) m3 n2 hrec2
              intro h
              cases h
              omega
          · rw [if_neg hleft]
            intro h
            cases h
            omega

theorem moveWater_fuel_succ : ∀ (fuel : Nat) (m : Map) (x y : Int) (m' : Map),
    moveWater fuel m x y = .ok m' → moveWater (fuel + 1) m x y = .ok m' := by
  intro fuel
  induction fuel with
  | zero =>
    intro m x y m' h
    have h2 : moveWater 0 m x y = .error .fuel := rfl
    rw [h2] at h
    cases h
  | succ fuel ih =>
    intro m x y m'
    rw [moveWater_succ fuel, moveWater_succ (fuel + 1)]
    cases hrel : moveWaterRelocate m x y with
    | error e => exact id
    | ok r =>
      cases r with
      | none => exact id
      | some p =>
        obtain ⟨m1, fall, lowest⟩ := p
        simp only []
        cases hrec : moveWater fuel m1 fall lowest with
        | error e => intro h; cases h
        | ok m2 =>
          rw [ih m1 fall lowest m2 hrec]
          simp only []
          cases hg : m2.getTileType x y with
          | error e => exact id
          | ok t =>
            simp only []
            by_cases ht : t ≠ .EMPTY
            · rw [if_pos ht, if_pos ht]; exact id
            · rw [if_neg ht, if_neg ht]
              cases hl : m2.getTileType (x - 1) y with
              | error e => simp only []; exact id
              | ok left =>
                simp only []
                by_cases hw : left = .WATER
                · rw [if_pos hw, if_pos hw]
                  exact ih _ _ _ _
                · rw [if_neg hw, if_neg hw]; exact id

theorem moveWater_fuel_le (m : Map) (x y : Int) (m' : Map) (fuel : Nat)
    (h : moveWater fuel m x y = .ok m') :
    ∀ fuel2 : Nat, fuel ≤ fuel2 → moveWater fuel2 m x y = .ok m' := by
  intro fuel2 hle
  induction fuel2 with
  | zero =>
    have : fuel = 0 := by omega
    rw [this] at h
    exact h
  | succ k ih =>
    by_cases hk : fuel ≤ k
    · exact moveWater_fuel_succ k m x y m' (ih hk)
    · have : fuel = k + 1 := by omega
      rw [this] at h
      exact h

/-- C26 (termination of settling). On a well-formed grid (so `width ≥ 1`), for
every WATER cell `(x, y)` with `x` in `[0, width)`: `moveWater(x, y)` returns,
with the same grid for every recursion budget of at least `potential + 1`,
where the potential is the sum of the row indices of all WATER tiles; and the
number of relocations made during the call is at most the drop of the
potential. `settleWater` returns. Each relocation strictly lowers the
potential. -/
theorem settling_terminates (m : Map) (hwf : m.WF) :
    (∀ x y : Int, 0 ≤ x → x < m.width → m.getTileType x y = .ok .WATER →
      ∃ (m' : Map) (n : Nat),
        (∀ fuel : Nat, m.potential + 1 ≤ fuel → moveWater fuel m x y = .ok m') ∧
        moveWaterCount (m.potential + 1) m x y = .ok (m', n) ∧
        n + m'.potential ≤ m.potential) ∧
    (∃ m', settleWater m = .ok m') ∧
    (∀ (x y c l : Int) (m1 : Map), 0 ≤ x → x < m.width →
      moveWaterRelocate m x y = .ok (some (m1, c, l)) → m1.potential < m.potential) := by
  refine ⟨?_, ?_, ?_⟩
  · intro x y hx0 hx1 hwater
    obtain ⟨hy0, hy1, htile⟩ := getTileType_ok m x y _ hwf hwater
    obtain ⟨m', hrun, _⟩ := moveWater_moveFuel m x y hwf hx0 hx1 hy0 hy1 htile
    obtain ⟨n, hn⟩ := moveWaterCount_of_ok _ m x y m' hrun
    exact ⟨m', n, moveWater_fuel_le m x y m' _ hrun, hn,
      moveWaterCount_bound _ m x y hwf hx0 hx1 hy0 hy1 htile m' n hn⟩
  · obtain ⟨m', hrun, _⟩ := settleWater_spec m hwf
    exact ⟨m', hrun⟩
  · intro x y c l m1 hx0 hx1 hrel
    have hwater := moveWaterRelocate_ok_water m x y _ hrel
    obtain ⟨hy0, hy1, htile⟩ := getTileType_ok m x y _ hwf hwater
    rcases moveWaterRelocate_spec m x y hwf hx0 hx1 hy0 hy1 htile with h | ⟨m1', c', l', h, hd⟩
    · rw [h] at hrel; cases hrel
    · rw [h] at hrel
      cases hrel
      exact hd.potential_lt hwf hy1 htile

/-- Witness for `settling_terminates`: the grid `cascadeGrid`. -/
theorem settling_terminates_witness :
    (∀ x y : Int, 0 ≤ x → x < cascadeGrid.width → cascadeGrid.getTileType x y = .ok .WATER →
      ∃ (m' : Map) (n : Nat),
        (∀ fuel : Nat, cascadeGrid.potential + 1 ≤ fuel →
          moveWater fuel cascadeGrid x y = .ok m') ∧
        moveWaterCount (cascadeGrid.potential + 1) cascadeGrid x y = .ok (m', n) ∧
        n + m'.potential ≤ cascadeGrid.potential) ∧
    (∃ m', settleWater cascadeGrid = .ok m') ∧
    (∀ (x y c l : Int) (m1 : Map), 0 ≤ x → x < cascadeGrid.width →
      moveWaterRelocate cascadeGrid x y = .ok (some (m1, c, l)) →
      m1.potential < cascadeGrid.potential) :=
  settling_terminates cascadeGrid (by decide)

/-! ## C29: the straight fall depends on the width -/

/-- When `moveWater(x, y)` relocates its tile and returns, the cell `(x, y)`
is EMPTY in the grid it returns. -/
theorem moveWater_source_empty (fuel : Nat) (m : Map) (x y : Int) (hwf : m.WF)
    (hx0 : 0 ≤ x) (hx1 : x < m.width) (hy0 : 0 ≤ y) (hy1 : y < m.height)
    (hwater : m.tile x y = .WATER) (m1 : Map) (c l : Int)
    (hrel : moveWaterRelocate m x y = .ok (some (m1, c, l))) (m' : Map)
    (hrun : moveWater fuel m x y = .ok m') : m'.tile x y = .EMPTY := by
  cases fuel with
  | zero =>
    have h2 : moveWater 0 m x y = .error .fuel := rfl
    rw [h2] at hrun
    cases hrun
  | succ fuel =>
    have hdrop : Dropped m x y c l m1 := by
      rcases moveWaterRelocate_spec m x y hwf hx0 hx1 hy0 hy1 hwater with h | ⟨m1', c', l', h, hd⟩
      · rw [h] at hrel; cases hrel
      · rw [h] at hrel
        cases hrel
        exact hd
    have hl0 := hdrop.2.2.1
    have hl1 := hdrop.2.2.2.1
    have hwf1 := hdrop.wf hwf
    have hc0 : 0 ≤ c := hdrop.1
    have hc1 : c < m1.width := by rw [hdrop.width_eq]; exact hdrop.2.1
    have hlh : l < m1.height := by rw [hdrop.height_eq]; omega
    have htarget := hdrop.target_water hwf hx0 hx1 hy1
    revert hrun
    rw [moveWater_succ, hrel]
    simp only []
    cases hrec : moveWater fuel m1 c l with
    | error e => intro h; cases h
    | ok m2 =>
      simp only []
      have e12 := (moveWater_effect fuel m1 c l hwf1 hc0 hc1 hl0 hlh htarget).2 m2 hrec
      have hwf2 := e12.wf
      have hy2 : y < m2.height := by rw [e12.height, hdrop.height_eq]; exact hy1
      have hsrc : m2.tile x y = .EMPTY := by
        rw [e12.above x y hl1]
        exact hdrop.source_empty hwf hx0 hx1 hy1
      rw [getTileType_eq m2 x y hwf2 hy0 hy2, getTileType_eq m2 (x - 1) y hwf2 hy0 hy2, hsrc]
      simp only [ne_eq, not_true_eq_false, if_false]
      by_cases hleft : m2.tile (x - 1) y = .WATER
      · rw [if_pos hleft]
        intro h
        have hw2 : 0 < m2.width := hwf2.1
        have e23 := (moveWater_effect fuel m2 (m2.wrapX (x - 1)) y hwf2 (wrapX_nonneg m2 _ hw2)
          (wrapX_lt m2 _ hw2) hy0 hy2
          (by rw [tile_wrapX_arg m2 _ _ hw2]; exact hleft)).2 m' h
        rcases e23.row x with h3 | h3
        · rw [h3]; exact hsrc
        · exact h3
      · rw [if_neg hleft]
        intro h
        cases h
        exact hsrc

/-- C29 (straight fall). For a WATER cell `(x, y)` of a well-formed grid, with
`x` in `[0, width)` and `y > 0`, whose cell below is EMPTY: `moveWater`
relocates the tile if and only if the width is at least 2. For a width of at
least 2 the tile drops in its own column and `(x, y)` is EMPTY when `moveWater`
returns. For width 1 the start column is the failure value `wrapX(x - d)` of
both directions, `findFall` returns it without examining any column, and
`moveWater` returns the grid unchanged: the tile stays above the EMPTY cell. -/
theorem straight_fall_needs_width_two (m : Map) (x y : Int) (hwf : m.WF)
    (hx0 : 0 ≤ x) (hx1 : x < m.width) (hy0 : 0 < y)
    (hwater : m.getTileType x y = .ok .WATER)
    (hbelow : m.getTileType x (y - 1) = .ok .EMPTY) :
    ((∃ m1 c l, moveWaterRelocate m x y = .ok (some (m1, c, l))) ↔ 2 ≤ m.width) ∧
    (2 ≤ m.width →
      ∃ m1 l m', moveWaterRelocate m x y = .ok (some (m1, x, l)) ∧ l < y ∧
        m1.getTileType x l = .ok .WATER ∧
        moveWater m.moveFuel m x y = .ok m' ∧ m'.getTileType x y = .ok .EMPTY) ∧
    (m.width = 1 →
      (∀ d : Int, d = 1 ∨ d = -1 →
        m.wrapX (x - d) = x ∧ findFallTrace m d x y = .ok (x, []) ∧
        findFall m d x y = .ok x) ∧
      moveWaterRelocate m x y = .ok none ∧
      ∀ fuel : Nat, moveWater (fuel + 1) m x y = .ok m) := by
  obtain ⟨hyn, hy1, htile⟩ := getTileType_ok m x y _ hwf hwater
  obtain ⟨_, _, hbtile⟩ := getTileType_ok m x (y - 1) _ hwf hbelow
  have hwide : 2 ≤ m.width →
      ∃ m1 l m', moveWaterRelocate m x y = .ok (some (m1, x, l)) ∧ l < y ∧
        m1.getTileType x l = .ok .WATER ∧
        moveWater m.moveFuel m x y = .ok m' ∧ m'.getTileType x y = .ok .EMPTY := by
    intro hw
    have hfc := fallColumn_straight m x y hwf hw hx0 hx1 hy0 hy1 hbtile
    obtain ⟨m1, l, hdrop, hdt⟩ := dropTile_spec m x y x hwf hy0 hy1 htile hx0 hx1 hbtile
    have hrel := moveWaterRelocate_of_some m x y x l m1 hwf hy0 hy1 htile hfc hdt
    obtain ⟨m', hrun, heff⟩ := moveWater_moveFuel m x y hwf hx0 hx1 hyn hy1 htile
    have hl0 : 0 ≤ l := hdrop.2.2.1
    have hly : l < y := hdrop.2.2.2.1
    refine ⟨m1, l, m', hrel, hly, ?_, hrun, ?_⟩
    · rw [getTileType_eq m1 x l (hdrop.wf hwf) hl0 (by rw [hdrop.height_eq]; omega),
        hdrop.target_water hwf hx0 hx1 hy1]
    · rw [getTileType_eq m' x y heff.wf hyn (by rw [heff.height]; exact hy1),
        moveWater_source_empty _ m x y hwf hx0 hx1 hyn hy1 htile m1 x l hrel m' hrun]
  have hnarrow : m.width = 1 →
      (∀ d : Int, d = 1 ∨ d = -1 →
        m.wrapX (x - d) = x ∧ findFallTrace m d x y = .ok (x, []) ∧
        findFall m d x y = .ok x) ∧
      moveWaterRelocate m x y = .ok none ∧
      ∀ fuel : Nat, moveWater (fuel + 1) m x y = .ok m := by
    intro hw
    have hx : x = 0 := by omega
    have hwrap : ∀ a : Int, m.wrapX a = x := by
      intro a
      have h1 := wrapX_nonneg m a hwf.1
      have h2 := wrapX_lt m a hwf.1
      omega
    have hff : ∀ d : Int, d = 1 ∨ d = -1 → findFall m d x y = .ok x := by
      intro d hd
      unfold findFall
      rw [if_neg (not_not.mpr hd), if_neg (not_not.mpr hy0)]
      have h := findFallLoop_sentinel m d x y m.width
      rw [hwrap (x - d)] at h
      exact h
    have hrel : moveWaterRelocate m x y = .ok none := by
      apply moveWaterRelocate_of_none m x y hwf hy0 hy1 htile
      unfold fallColumn
      rw [hff (-1) (Or.inr rfl)]
      simp only []
      rw [if_pos (hwrap (x + 1)).symm, hff 1 (Or.inl rfl)]
      simp only []
      rw [if_pos (hwrap (x - 1)).symm]
    refine ⟨?_, hrel, ?_⟩
    · intro d hd
      refine ⟨hwrap (x - d), ?_, hff d hd⟩
      unfold findFallTrace
      rw [if_neg (not_not.mpr hd), if_neg (not_not.mpr hy0)]
      have h := findFallTraceLoop_sentinel m d x y m.width []
      rw [hwrap (x - d)] at h
      exact h
    · intro fuel
      rw [moveWater_succ, hrel]
  refine ⟨⟨?_, ?_⟩, hwide, hnarrow⟩
  · rintro ⟨m1, c, l, hrel⟩
    by_contra hlt
    have hw : m.width = 1 := by have := hwf.1; omega
    rw [(hnarrow hw).2.1] at hrel
    cases hrel
  · intro hw
    obtain ⟨m1, l, _, hrel, _⟩ := hwide hw
    exact ⟨m1, x, l, hrel⟩

/-- Witness for `straight_fall_needs_width_two`: the WATER tile of `narrowGrid`
(width 1) at `(0, 1)`, above the EMPTY floor cell, which stays; and the WATER
tile of `pitGrid` (width 3) at `(1, 1)`, above the EMPTY cell `(1, 0)`, which
drops. -/
theorem straight_fall_needs_width_two_witness :
    (((∃ m1 c l, moveWaterRelocate narrowGrid 0 1 = .ok (some (m1, c, l)))
        ↔ 2 ≤ narrowGrid.width) ∧
      (2 ≤ narrowGrid.width →
        ∃ m1 l m', moveWaterRelocate narrowGrid 0 1 = .ok (some (m1, 0, l)) ∧ l < 1 ∧
          m1.getTileType 0 l = .ok .WATER ∧
          moveWater narrowGrid.moveFuel narrowGrid 0 1 = .ok m' ∧
          m'.getTileType 0 1 = .ok .EMPTY) ∧
      (narrowGrid.width = 1 →
        (∀ d : Int, d = 1 ∨ d = -1 →
          narrowGrid.wrapX (0 - d) = 0 ∧ findFallTrace narrowGrid d 0 1 = .ok (0, []) ∧
          findFall narrowGrid d 0 1 = .ok 0) ∧
        moveWaterRelocate narrowGrid 0 1 = .ok none ∧
        ∀ fuel : Nat, moveWater (fuel + 1) narrowGrid 0 1 = .ok narrowGrid)) ∧
    (((∃ m1 c l, moveWaterRelocate pitGrid 1 1 = .ok (some (m1, c, l)))
        ↔ 2 ≤ pitGrid.width) ∧
      (2 ≤ pitGrid.width →
        ∃ m1 l m', moveWaterRelocate pitGrid 1 1 = .ok (some (m1, 1, l)) ∧ l < 1 ∧
          m1.getTileType 1 l = .ok .WATER ∧
          moveWater pitGrid.moveFuel pitGrid 1 1 = .ok m' ∧
          m'.getTileType 1 1 = .ok .EMPTY) ∧
      (pitGrid.width = 1 →
        (∀ d : Int, d = 1 ∨ d = -1 →
          pitGrid.wrapX (1 - d) = 1 ∧ findFallTrace pitGrid d 1 1 = .ok (1, []) ∧
          findFall pitGrid d 1 1 = .ok 1) ∧
        moveWaterRelocate pitGrid 1 1 = .ok none ∧
        ∀ fuel : Nat, moveWater (fuel + 1) pitGrid 1 1 = .ok pitGrid)) :=
  ⟨straight_fall_needs_width_two narrowGrid 0 1 (by decide) (by decide) (by decide)
      (by decide) (by decide) (by decide),
    straight_fall_needs_width_two pitGrid 1 1 (by decide) (by decide) (by decide)
      (by decide) (by decide) (by decide)⟩

end Burrowbun
